import Mathlib

/-!
# Kiali validation checkers: a verification development

Shallow embedding of `kubernetes/istio.go` (service-entry hostnames, port
protocols and port names, mutual-TLS predicates, the control-plane debug
endpoints), of `business/apps.go` (apps grouped by app label) and of the
checker subsystem (`NoDestinationChecker`, `MultiMatchChecker`,
`EgressHostChecker`) together with the host matcher they share.

Go strings are Lean `String`s; the string primitives used by the code
(`strings.ToLower`, `strings.HasSuffix`, `strings.Split`) are defined on the
underlying character lists so that every definition evaluates on concrete
inputs. Go maps are association lists with unique keys, in insertion order.
Calls that leave the embedded files are fields of a record of outcomes
(`K8SClient`, `Layer`); goroutines joined by a wait group are embedded with the
order of their channel messages as an explicit parameter.
-/

namespace Kiali

/-! ## String primitives -/

/-- Go `strings.ToLower` on ASCII host names. -/
def toLower (s : String) : String := ⟨s.data.map Char.toLower⟩

/-- Go `strings.HasSuffix`. -/
def hasSuffix (s suffix : String) : Bool := suffix.data.isSuffixOf s.data

/-- Go `strings.HasPrefix`. -/
def hasPrefix (s pre : String) : Bool := pre.data.isPrefixOf s.data

/-- Go `strings.Contains(s, string(c))`. -/
def containsChar (s : String) (c : Char) : Bool := s.data.contains c

/-! ## Go maps as association lists -/

/-- Lookup `m[k]` with the comma-ok idiom. -/
def mapGet {α β : Type} [DecidableEq α] : List (α × β) → α → Option β
  | [], _ => none
  | (k, v) :: rest, key => if k = key then some v else mapGet rest key

/-- Assignment `m[k] = v`: overwrite an existing key in place, or add a new one. -/
def mapSet {α β : Type} [DecidableEq α] : List (α × β) → α → β → List (α × β)
  | [], key, val => [(key, val)]
  | (k, v) :: rest, key, val =>
    if k = key then (k, val) :: rest else (k, v) :: mapSet rest key val

/-- Keys of a map. -/
def mapKeys {α β : Type} (m : List (α × β)) : List α := m.map Prod.fst

/-! ## kubernetes/istio.go -/

/-- Istio `Port` definition (`api_networking_v1alpha3.Port`). -/
structure Port where
  Number : Nat
  Protocol : String
  Name : String
deriving DecidableEq, Repr

/-- The fields of `networking_v1alpha3.ServiceEntry` read by the code. -/
structure ServiceEntry where
  Name : String
  Namespace : String
  Hosts : List String
  Ports : List Port
deriving DecidableEq, Repr

/-- Function `mapPortToVirtualServiceProtocol`: transforms Istio port protocol names
to virtual-service protocol names. -/
def mapPortToVirtualServiceProtocol (proto : String) : String :=
  if proto = "HTTP" then "http"
  else if proto = "HTTP2" then "http"
  else if proto = "GRPC" then "http"
  else if proto = "HTTPS" then "tls"
  else if proto = "TLS" then "tls"
  else "tcp"

/-- The map `hostnames` of `ServiceEntryHostnames`: hostname to protocol list. -/
abbrev HostMap := List (String × List String)

/-- Inner loop `for host := range hostnames { hostnames[host] = append(hostnames[host], protocol) }`:
every key of the map built so far receives the protocol. -/
def appendProtocol (hostnames : HostMap) (protocol : String) : HostMap :=
  hostnames.map (fun kv => (kv.1, kv.2 ++ [protocol]))

/-- Loop body of `ServiceEntryHostnames` for one service entry `v`: first
`hostnames[host] = make([]string, 0, 1)` for each of its hosts, then one
`appendProtocol` per port. -/
def serviceEntryStep (hostnames : HostMap) (v : ServiceEntry) : HostMap :=
  let cleared := v.Hosts.foldl (fun m host => mapSet m host []) hostnames
  v.Ports.foldl
    (fun m port => appendProtocol m (mapPortToVirtualServiceProtocol port.Protocol)) cleared

/-- Function `ServiceEntryHostnames`. -/
def ServiceEntryHostnames (serviceEntries : List ServiceEntry) : HostMap :=
  serviceEntries.foldl serviceEntryStep []

/-! ## Validation result model (spec section 3) -/

/-- Modelled from the spec: the severity levels `Unknown`, `Warning`, `Error` of a finding
(package `models`, not under src/; the tests name them `models.Unknown`,
`models.WarningSeverity`, `models.ErrorSeverity`). -/
inductive SeverityLevel where
  | Unknown
  | WarningSeverity
  | ErrorSeverity
deriving DecidableEq, Repr

/-- Modelled from the spec: `IstioValidationKey`, the identity of a checkable object
(package `models`, not under src/). -/
structure IstioValidationKey where
  ObjectType : String
  Namespace : String
  Name : String
deriving DecidableEq, Repr

/-- Modelled from the spec: `IstioCheck`, one finding: message code, severity and path
(package `models`, not under src/). -/
structure IstioCheck where
  Code : String
  Severity : SeverityLevel
  Path : String
deriving DecidableEq, Repr

/-- Modelled from the spec: `IstioValidation`, the aggregate verdict for one object
(package `models`, not under src/). -/
structure IstioValidation where
  Name : String
  ObjectType : String
  Valid : Bool
  Checks : List IstioCheck
  References : List IstioValidationKey
deriving DecidableEq, Repr

/-- Modelled from the spec: the result map of a mesh-wide checker, keyed uniquely by
`IstioValidationKey` (`models.IstioValidations`, not under src/). -/
abbrev IstioValidations := List (IstioValidationKey × IstioValidation)

/-- Go label maps (`map[string]string`) as association lists. -/
abbrev Labels := List (String × String)

/-- Modelled from the spec: two label maps have the same identity when they hold the same
key/value pairs (section 4.3, ingress-selector identity). -/
def sameLabels (a b : Labels) : Bool := decide (a ⊆ b ∧ b ⊆ a)

/-- Modelled from the spec: label-map inclusion, every pair of `sub` is a pair of `sup`
(section 4.2, step 3). -/
def labelsIncluded (sub sup : Labels) : Bool := decide (sub ⊆ sup)

/-! ## HostMatcher (spec section 4.1) -/

/-- Modelled from the spec: `HostEntry`, a parsed routing host (section 3; its source is
not under src/). -/
structure HostEntry where
  name : String
  subdomains_wildcard : Bool
deriving DecidableEq, Repr

/-- Modelled from the spec: a `HostEntry` is derived by splitting on the `*.` prefix, the
name being the remainder (section 3; the parser is not under src/). -/
def parseHostEntry (host : String) : HostEntry :=
  if hasPrefix host "*." then ⟨⟨host.data.drop 2⟩, true⟩ else ⟨host, false⟩

/-- Modelled from the spec: the host matcher `matches(candidate, ruleHost)` of section 4.1
(not under src/): the full wildcard `*` matches every candidate, a rule host `*.suffix`
matches the candidates that end with `.suffix`, any other rule host matches by
case-sensitive equality. -/
def hostMatches (candidate ruleHost : String) : Bool :=
  if ruleHost = "*" then true
  else
    let entry := parseHostEntry ruleHost
    if entry.subdomains_wildcard then hasSuffix candidate ("." ++ entry.name)
    else decide (candidate = entry.name)

/-! ## MultiMatchChecker (spec section 4.3) -/

/-- One server of an Istio gateway: its hosts and its port (the tests build it with
`data.CreateServer(hosts, port, name, protocol)`). -/
structure Server where
  Hosts : List String
  Port : Port
deriving DecidableEq, Repr

/-- The fields of an Istio gateway read by the checker; `Selector` holds the
ingress-selector labels (the tests build it with `data.CreateEmptyGateway(name, namespace,
selector)` and `data.AddServerToGateway`). -/
structure Gateway where
  Name : String
  Namespace : String
  Selector : Labels
  Servers : List Server
deriving DecidableEq, Repr

/-- Modelled from the spec: the input of `MultiMatchChecker`, gateways grouped by namespace
(section 4.3; the struct is declared in `multi_match_checker.go`, not under src/, and built
by the tests as `MultiMatchChecker{GatewaysPerNamespace: gws}`). -/
structure MultiMatchChecker where
  GatewaysPerNamespace : List (List Gateway)

/-- Modelled from the spec: one element `(gatewayKey, hostEntry, path)` of the checker's
map, stored with its bucket key `(ingress-selector identity, port, protocol family)`
(section 4.3; `multi_match_checker.go` is not under src/). Host names are held lower-cased,
the convention of section 4.1 that `TestCaseMatching` exercises. -/
structure GatewayHost where
  Key : IstioValidationKey
  Selector : Labels
  Port : Nat
  Family : String
  Hostname : String
  Path : String
deriving DecidableEq, Repr

/-- Modelled from the spec: the key of a gateway in the result map (the tests look it up as
`IstioValidationKey{ObjectType: "gateway", Namespace, Name}`). -/
def gatewayKey (g : Gateway) : IstioValidationKey :=
  ⟨"gateway", g.Namespace, g.Name⟩

/-- Modelled from the spec: the path `spec/servers[j]/hosts[k]` of a gateway host
(section 4.3). -/
def serverHostPath (j k : Nat) : String :=
  "spec/servers[" ++ toString j ++ "]/hosts[" ++ toString k ++ "]"

/-- Modelled from the spec: the host entries of server `j` of gateway `g`, in host order. -/
def serverHosts (family : String → String) (g : Gateway) (j : Nat) (s : Server) :
    List GatewayHost :=
  s.Hosts.enum.map (fun kh =>
    ⟨gatewayKey g, g.Selector, s.Port.Number, family s.Port.Protocol, toLower kh.2,
      serverHostPath j kh.1⟩)

/-- Modelled from the spec: the host entries of a gateway, in server order. -/
def gatewayHosts (family : String → String) (g : Gateway) : List GatewayHost :=
  g.Servers.enum.flatMap (fun js => serverHosts family g js.1 js.2)

/-- Modelled from the spec: all host entries of the input, namespace by namespace. -/
def allGatewayHosts (family : String → String) (m : MultiMatchChecker) : List GatewayHost :=
  m.GatewaysPerNamespace.flatten.flatMap (gatewayHosts family)

/-- Modelled from the spec: two entries lie in the same bucket when they agree on
ingress-selector identity, port and protocol family. -/
def sameBucket (a b : GatewayHost) : Bool :=
  sameLabels a.Selector b.Selector && decide (a.Port = b.Port) && decide (a.Family = b.Family)

/-- Modelled from the spec: two entries of a bucket collide when one host subsumes the
other under the host matcher of section 4.1 (under which, as section 8 states, a wildcard
`*.suffix` does not match the apex `suffix`). -/
def collides (a b : GatewayHost) : Bool :=
  sameBucket a b && (hostMatches a.Hostname b.Hostname || hostMatches b.Hostname a.Hostname)

/-- Modelled from the spec: every pair of entries that collides, the earlier entry first. -/
def collisions : List GatewayHost → List (GatewayHost × GatewayHost)
  | [] => []
  | e :: rest => (rest.filter (collides e)).map (fun e2 => (e, e2)) ++ collisions rest

/-- Modelled from the spec: the Warning finding of a host collision (code
`conflictingHosts`). -/
def conflictCheck (path : String) : IstioCheck :=
  ⟨"conflictingHosts", SeverityLevel.WarningSeverity, path⟩

/-- Modelled from the spec: deduplicated append, an element is added unless the list holds
it already (section 4.3). -/
def addUnique {α : Type} [DecidableEq α] (l : List α) (a : α) : List α :=
  if a ∈ l then l else l ++ [a]

/-- Modelled from the spec: the validation stored under `key`, or a fresh valid one without
findings (section 3: duplicate keys merge rather than overwrite). -/
def currentValidation (vals : IstioValidations) (key : IstioValidationKey) : IstioValidation :=
  match mapGet vals key with
  | some v => v
  | none => ⟨key.Name, "gateway", true, [], []⟩

/-- Modelled from the spec: record on the gateway of entry `e` that `e` collides with
`other`: one check per colliding host (at its path), and the other gateway's key among
the references, deduplicated. A gateway never references itself. `Valid` stays true:
collisions are warnings. -/
def addFinding (vals : IstioValidations) (e other : GatewayHost) : IstioValidations :=
  let old := currentValidation vals e.Key
  let refs := if e.Key = other.Key then old.References else addUnique old.References other.Key
  mapSet vals e.Key
    ⟨old.Name, old.ObjectType, old.Valid, addUnique old.Checks (conflictCheck e.Path), refs⟩

/-- Modelled from the spec: on each detected collision a finding is emitted on both
gateways and each gateway's key is added to the other's references. -/
def recordCollision (vals : IstioValidations) (p : GatewayHost × GatewayHost) :
    IstioValidations :=
  addFinding (addFinding vals p.1 p.2) p.2 p.1

/-- Modelled from the spec: `MultiMatchChecker.Check` (section 4.3;
`multi_match_checker.go` is not under src/). The protocol family of a port protocol is
not defined by the spec and is a parameter. -/
def MultiMatchChecker.Check (family : String → String) (m : MultiMatchChecker) :
    IstioValidations :=
  (collisions (allGatewayHosts family m)).foldl recordCollision []

/-! ## Visibility resolution (spec section 4.1) -/

/-- Process-wide configuration, threaded explicitly (spec section 9): the cluster-local
suffix, for instance `svc.cluster.local`. -/
structure Config where
  IstioIdentityDomain : String
deriving DecidableEq, Repr

/-- The fields of a live cluster service (`core_v1.Service`) read by the checkers. -/
structure Service where
  Name : String
  Namespace : String
  Selector : Labels
deriving DecidableEq, Repr

/-- A live workload with its label set. -/
structure Workload where
  Name : String
  Labels : Labels
deriving DecidableEq, Repr

/-- A hostname known to the control plane (`kubernetes.RegistryStatus`). -/
structure RegistryStatus where
  Hostname : String
deriving DecidableEq, Repr

/-- Modelled from the spec: short-name expansion of section 4.1 (the host parser is not
under src/). A host that carries the cluster-local suffix is complete; a dotted host without
it has the suffix appended (`name.namespace` becomes `name.namespace.svc.cluster.local`); a
short name is expanded against the namespace. -/
def expandHost (cfg : Config) (ns host : String) : String :=
  if hasSuffix host ("." ++ cfg.IstioIdentityDomain) then host
  else if containsChar host '.' then host ++ "." ++ cfg.IstioIdentityDomain
  else host ++ "." ++ ns ++ "." ++ cfg.IstioIdentityDomain

/-- Modelled from the spec: the forms under which a rule host is compared: a host
containing a dot but no full cluster suffix is tried literally and then expanded; every
other host is compared expanded (section 4.1). -/
def hostCandidates (cfg : Config) (ns host : String) : List String :=
  if !hasSuffix host ("." ++ cfg.IstioIdentityDomain) && containsChar host '.' then
    [host, expandHost cfg ns host]
  else [expandHost cfg ns host]

/-- Modelled from the spec: the fully-qualified name `<name>.<namespace>.<suffix>` of a
live service (section 4.1). -/
def serviceFQDN (cfg : Config) (ns name : String) : String :=
  name ++ "." ++ ns ++ "." ++ cfg.IstioIdentityDomain

/-! ## NoDestinationChecker (spec section 4.2) -/

/-- A named subset of a destination rule. -/
structure Subset where
  Name : String
  Labels : Labels
deriving DecidableEq, Repr

/-- The fields of a destination rule read by the checker. -/
structure DestinationRule where
  Name : String
  Namespace : String
  Host : String
  Subsets : List Subset
deriving DecidableEq, Repr

/-- A route destination of a virtual service: target host and subset name. -/
structure RouteDestination where
  Host : String
  Subset : String
deriving DecidableEq, Repr

/-- The fields of a virtual service read by the checker; `Routes` lists the destinations of
all its routes. -/
structure VirtualService where
  Name : String
  Namespace : String
  Hosts : List String
  Routes : List RouteDestination
deriving DecidableEq, Repr

/-- Modelled from the spec: the input of `NoDestinationChecker` (section 4.2; the struct is
declared in `no_dest_checker.go`, not under src/, its fields are those the tests set): one
destination rule and the snapshot of its namespace. `Services`
and `WorkloadList` are the live services and workloads of namespace `Namespace`. -/
structure NoDestinationChecker where
  Namespace : String
  Namespaces : List String
  WorkloadList : List Workload
  DestinationRule : DestinationRule
  VirtualServices : List VirtualService
  ServiceEntries : HostMap
  Services : List Service
  RegistryStatus : List RegistryStatus

/-- Modelled from the spec: live service `s` of the namespace is the target of the rule
host (section 4.1, case a). -/
def NoDestinationChecker.serviceMatches (cfg : Config) (n : NoDestinationChecker)
    (s : Service) : Bool :=
  (hostCandidates cfg n.Namespace n.DestinationRule.Host).any
    (fun c => hostMatches (serviceFQDN cfg n.Namespace s.Name) c)

/-- Modelled from the spec: the rule host matches a live service of the namespace. -/
def NoDestinationChecker.matchesLiveService (cfg : Config) (n : NoDestinationChecker) : Bool :=
  n.Services.any (n.serviceMatches cfg)

/-- Modelled from the spec: the rule host is covered by a service-entry hostname or
wildcard (section 4.1, case b). -/
def NoDestinationChecker.matchesServiceEntry (cfg : Config) (n : NoDestinationChecker) : Bool :=
  (mapKeys n.ServiceEntries).any (fun h =>
    (hostCandidates cfg n.Namespace n.DestinationRule.Host).any (fun c => hostMatches c h))

/-- Modelled from the spec: the rule host is a hostname present in the registry status
(section 4.1, case c). -/
def NoDestinationChecker.matchesRegistry (cfg : Config) (n : NoDestinationChecker) : Bool :=
  n.RegistryStatus.any (fun r =>
    (hostCandidates cfg n.Namespace n.DestinationRule.Host).any (fun c => decide (r.Hostname = c)))

/-- Modelled from the spec: visibility resolution of `spec.host`: all three sources are
attempted (section 4.1; `no_dest_checker.go` is not under src/). -/
def NoDestinationChecker.hasMatchingService (cfg : Config) (n : NoDestinationChecker) : Bool :=
  n.matchesLiveService cfg || n.matchesServiceEntry cfg || n.matchesRegistry cfg

/-- Modelled from the spec: the workloads matching the resolved host's selector
(section 4.2, step 3). A host resolved without a live service brings no selector, and every
workload of the snapshot is kept (`TestFailCrossNamespaceHost`: such a host does not fail
to match the workloads). -/
def NoDestinationChecker.selectedWorkloads (cfg : Config) (n : NoDestinationChecker) :
    List Workload :=
  match n.Services.filter (n.serviceMatches cfg) with
  | [] => n.WorkloadList
  | targets =>
    n.WorkloadList.filter (fun w => targets.any (fun s => labelsIncluded s.Selector w.Labels))

/-- Modelled from the spec: a subset is live-matched when its labels are included in the
labels of at least one of those workloads (section 4.2, step 3). -/
def NoDestinationChecker.hasMatchingWorkload (cfg : Config) (n : NoDestinationChecker)
    (subsetLabels : Labels) : Bool :=
  (n.selectedWorkloads cfg).any (fun w => labelsIncluded subsetLabels w.Labels)

/-- Modelled from the spec: some virtual service routes to the rule's host and to the subset
name (section 4.2, step 4). -/
def NoDestinationChecker.isSubsetReferenced (cfg : Config) (n : NoDestinationChecker)
    (subset : String) : Bool :=
  n.VirtualServices.any (fun vs => vs.Routes.any (fun d =>
    decide (d.Subset = subset) &&
      decide (expandHost cfg vs.Namespace d.Host =
        expandHost cfg n.Namespace n.DestinationRule.Host)))

/-- Modelled from the spec: the path `spec/subsets[i]` of a subset (section 4.2). -/
def subsetPath (i : Nat) : String := "spec/subsets[" ++ toString i ++ "]"

/-- Modelled from the spec: the findings for the subset at index `i` (section 4.2, steps 2
to 4), with the flag telling whether the subset leaves the rule valid. -/
def NoDestinationChecker.subsetFindings (cfg : Config) (n : NoDestinationChecker)
    (i : Nat) (subset : Subset) : List IstioCheck × Bool :=
  if subset.Labels.isEmpty then
    ([⟨"destinationrules.nodest.subsetnolabels", SeverityLevel.WarningSeverity, subsetPath i⟩],
      true)
  else if n.hasMatchingWorkload cfg subset.Labels then ([], true)
  else if n.isSubsetReferenced cfg subset.Name then
    ([⟨"destinationrules.nodest.subsetlabels", SeverityLevel.ErrorSeverity, subsetPath i⟩], false)
  else
    ([⟨"destinationrules.nodest.subsetlabels", SeverityLevel.Unknown, subsetPath i⟩], true)

/-- Modelled from the spec: the loop body over the subsets appends the findings and clears
`valid` on an Error (section 4.2). -/
def NoDestinationChecker.subsetStep (cfg : Config) (n : NoDestinationChecker)
    (acc : List IstioCheck × Bool) (s : Nat × Subset) : List IstioCheck × Bool :=
  let f := n.subsetFindings cfg s.1 s.2
  (acc.1 ++ f.1, acc.2 && f.2)

/-- Modelled from the spec: `NoDestinationChecker.Check` (section 4.2;
`no_dest_checker.go` is not under src/): an unresolved host yields the Error
`matchingregistry` at `spec/host` and skips the subsets. -/
def NoDestinationChecker.Check (cfg : Config) (n : NoDestinationChecker) :
    List IstioCheck × Bool :=
  if n.hasMatchingService cfg then
    n.DestinationRule.Subsets.enum.foldl (n.subsetStep cfg) ([], true)
  else
    ([⟨"destinationrules.nodest.matchingregistry", SeverityLevel.ErrorSeverity, "spec/host"⟩],
      false)

/-! ## EgressHostChecker (spec section 4.4) -/

/-- One egress listener of a sidecar. -/
structure IstioEgressListener where
  Hosts : List String
deriving DecidableEq, Repr

/-- The fields of a sidecar read by the checker. -/
structure Sidecar where
  Name : String
  Namespace : String
  Egress : List IstioEgressListener
deriving DecidableEq, Repr

/-- Modelled from the spec: the input of `EgressHostChecker` (section 4.4; the struct is
declared in the checker's source, not under src/, its fields are those the tests set). -/
structure EgressHostChecker where
  Sidecar : Sidecar
  ServiceEntries : HostMap
  Services : List Service

/-- Go `strings.Split(s, "/")` on character lists. -/
def splitSlash : List Char → List (List Char)
  | [] => [[]]
  | c :: cs =>
    if c = '/' then [] :: splitSlash cs
    else
      match splitSlash cs with
      | [] => [[c]]
      | p :: ps => (c :: p) :: ps

/-- Modelled from the spec: the format check of an egress host: exactly one `/` separates
the namespace selector from the hostname (section 4.4, step 1). -/
def getHostComponents (host : String) : Option (String × String) :=
  match splitSlash host.data with
  | [hostNs, dnsName] => some (⟨hostNs⟩, ⟨dnsName⟩)
  | _ => none

/-- Modelled from the spec: resolution of a well-formed egress host (section 4.4, step 2):
the selectors `.` and `~` stand for the sidecar's namespace, `*` for every namespace; the
host resolves when it covers a live service in scope or is covered by a service-entry
hostname or wildcard. -/
def EgressHostChecker.HasMatchingService (cfg : Config) (elc : EgressHostChecker)
    (hostNs dnsName : String) : Bool :=
  let scope :=
    if hostNs = "*" ∨ hostNs = "~" ∨ hostNs = "." then elc.Sidecar.Namespace else hostNs
  let candidates := hostCandidates cfg scope dnsName
  elc.Services.any (fun s =>
      (decide (hostNs = "*") || decide (s.Namespace = scope)) &&
        candidates.any (fun c => hostMatches (serviceFQDN cfg s.Namespace s.Name) c)) ||
    (mapKeys elc.ServiceEntries).any (fun h => candidates.any (fun c => hostMatches c h))

/-- Modelled from the spec: the path `spec/egress[i]/hosts[j]` of an egress host
(section 4.4). -/
def egressHostPath (i j : Nat) : String :=
  "spec/egress[" ++ toString i ++ "]/hosts[" ++ toString j ++ "]"

/-- Modelled from the spec: the findings for host `j` of egress listener `i` (section 4.4),
with the flag telling whether the entry passed the format check. A malformed entry is not
resolved. -/
def EgressHostChecker.hostFindings (cfg : Config) (elc : EgressHostChecker)
    (i j : Nat) (host : String) : List IstioCheck × Bool :=
  match getHostComponents host with
  | none =>
    ([⟨"sidecar.egress.invalidhostformat", SeverityLevel.ErrorSeverity, egressHostPath i j⟩],
      false)
  | some (hostNs, dnsName) =>
    if elc.HasMatchingService cfg hostNs dnsName then ([], true)
    else
      ([⟨"sidecar.egress.servicenotfound", SeverityLevel.WarningSeverity, egressHostPath i j⟩],
        true)

/-- Modelled from the spec: the inner loop body, over the hosts of listener `i`: append the
findings, clear `valid` on a format error (section 4.4). -/
def EgressHostChecker.hostStep (cfg : Config) (elc : EgressHostChecker) (i : Nat)
    (acc : List IstioCheck × Bool) (h : Nat × String) : List IstioCheck × Bool :=
  let f := elc.hostFindings cfg i h.1 h.2
  (acc.1 ++ f.1, acc.2 && f.2)

/-- Modelled from the spec: the outer loop body, over the egress listeners (section 4.4). -/
def EgressHostChecker.listenerStep (cfg : Config) (elc : EgressHostChecker)
    (acc : List IstioCheck × Bool) (l : Nat × IstioEgressListener) : List IstioCheck × Bool :=
  l.2.Hosts.enum.foldl (elc.hostStep cfg l.1) acc

/-- Modelled from the spec: `EgressHostChecker.Check` (section 4.4; the checker's source is
not under src/). -/
def EgressHostChecker.Check (cfg : Config) (elc : EgressHostChecker) : List IstioCheck × Bool :=
  elc.Sidecar.Egress.enum.foldl (elc.listenerStep cfg) ([], true)

/-! ## kubernetes/istio.go: port names -/

/-- The regular expression `portNameMatcher`, `^[\-].*`, under `MatchString`: the string
starts with a dash; `.*` also matches an empty rest. -/
def portNameMatcher (s : String) : Bool :=
  match s.data with
  | c :: _ => decide (c = '-')
  | [] => false

/-- Function `MatchPortNameRule`. Lengths are counted in characters: once `portName` has
the prefix `protocol`, `len(portName) > len(protocol)` and the slice
`portName[len(protocol):]` are the same in bytes and in characters. -/
def MatchPortNameRule (portName protocol : String) : Bool :=
  let protocol := toLower protocol
  if protocol = "tcp" ∨ protocol = "udp" then true
  else if !hasPrefix portName protocol then false
  else if portName.data.length > protocol.data.length then
    portNameMatcher ⟨portName.data.drop protocol.data.length⟩
  else true

/-- Function `ValidatePort`; `none` is the nil port definition. -/
def ValidatePort (portDef : Option Port) : Bool :=
  match portDef with
  | none => false
  | some p => MatchPortNameRule p.Name p.Protocol

/-! ## kubernetes/istio.go: mutual TLS -/

/-- The enum `PeerAuthentication_MutualTLS_Mode` of `istio.io/api`. -/
inductive MutualTLSMode where
  | UNSET
  | DISABLE
  | PERMISSIVE
  | STRICT
deriving DecidableEq, Repr

/-- Method `String()` of the mutual-TLS mode: the name of the value. -/
def mutualTLSModeString : MutualTLSMode → String
  | MutualTLSMode.UNSET => "UNSET"
  | MutualTLSMode.DISABLE => "DISABLE"
  | MutualTLSMode.PERMISSIVE => "PERMISSIVE"
  | MutualTLSMode.STRICT => "STRICT"

/-- Workload selector of a peer authentication (`Spec.Selector`). -/
structure WorkloadSelector where
  MatchLabels : Labels
deriving DecidableEq, Repr

/-- The fields of `security_v1beta1.PeerAuthentication` read by the code: `Spec.Selector`
(nil or a selector) and `Spec.Mtls` (nil or its mode). -/
structure PeerAuthentication where
  Selector : Option WorkloadSelector
  Mtls : Option MutualTLSMode
deriving DecidableEq, Repr

/-- Function `PeerAuthnMTLSMode`. -/
def PeerAuthnMTLSMode (peerAuthn : PeerAuthentication) : Bool × String :=
  match peerAuthn.Mtls with
  | some m =>
    let mode := mutualTLSModeString m
    (decide (mode = "STRICT") || decide (mode = "PERMISSIVE"), mode)
  | none => (false, "")

/-- Function `PeerAuthnHasMTLSEnabled`, with its test `len(MatchLabels) >= 0` as written. -/
def PeerAuthnHasMTLSEnabled (peerAuthn : PeerAuthentication) : Bool × String :=
  match peerAuthn.Selector with
  | some sel =>
    if sel.MatchLabels.length ≥ 0 then (false, "") else PeerAuthnMTLSMode peerAuthn
  | none => PeerAuthnMTLSMode peerAuthn

/-- Function `PeerAuthnHasStrictMTLS`. -/
def PeerAuthnHasStrictMTLS (peerAuthn : PeerAuthentication) : Bool :=
  decide ((PeerAuthnHasMTLSEnabled peerAuthn).2 = "STRICT")

/-- The enum `ClientTLSSettings_TLSmode` of `istio.io/api`. -/
inductive TLSmode where
  | DISABLE
  | SIMPLE
  | MUTUAL
  | ISTIO_MUTUAL
deriving DecidableEq, Repr

/-- Method `String()` of the client TLS mode: the name of the value. -/
def tlsModeString : TLSmode → String
  | TLSmode.DISABLE => "DISABLE"
  | TLSmode.SIMPLE => "SIMPLE"
  | TLSmode.MUTUAL => "MUTUAL"
  | TLSmode.ISTIO_MUTUAL => "ISTIO_MUTUAL"

/-- Traffic policy of a destination rule: `Tls` is nil or the mode of its TLS settings. -/
structure TrafficPolicy where
  Tls : Option TLSmode
deriving DecidableEq, Repr

/-- The fields of `networking_v1alpha3.DestinationRule` read by the mutual-TLS functions of
`kubernetes/istio.go`: `Spec.Host` and `Spec.TrafficPolicy` (nil or a policy). -/
structure MTLSDestinationRule where
  Host : String
  TrafficPolicy : Option TrafficPolicy
deriving DecidableEq, Repr

/-- Function `DestinationRuleHasMTLSEnabled`. -/
def DestinationRuleHasMTLSEnabled (destinationRule : MTLSDestinationRule) : Bool × String :=
  match destinationRule.TrafficPolicy with
  | some policy =>
    match policy.Tls with
    | some m =>
      let mode := tlsModeString m
      (decide (mode = "ISTIO_MUTUAL"), mode)
    | none => (false, "")
  | none => (false, "")

/-- Function `DestinationRuleHasMTLSEnabledForHost`. -/
def DestinationRuleHasMTLSEnabledForHost (expectedHost : String)
    (destinationRule : MTLSDestinationRule) : Bool × String :=
  if destinationRule.Host = "" ∨ destinationRule.Host ≠ expectedHost then (false, "")
  else DestinationRuleHasMTLSEnabled destinationRule

/-- Function `DestinationRuleHasMeshWideMTLSEnabled`. -/
def DestinationRuleHasMeshWideMTLSEnabled (destinationRule : MTLSDestinationRule) :
    Bool × String :=
  DestinationRuleHasMTLSEnabledForHost "*.local" destinationRule

/-- Function `DestinationRuleHasNamespaceWideMTLSEnabled`; the identity domain comes from
the configuration. -/
def DestinationRuleHasNamespaceWideMTLSEnabled (cfg : Config) (ns : String)
    (destinationRule : MTLSDestinationRule) : Bool × String :=
  DestinationRuleHasMTLSEnabledForHost ("*." ++ ns ++ "." ++ cfg.IstioIdentityDomain)
    destinationRule

/-! ## kubernetes/istio.go: control-plane debug endpoints -/

/-- The fields of `core_v1.Pod` read by the code. -/
structure Pod where
  Name : String
  Namespace : String
  Phase : String
deriving DecidableEq, Repr

/-- The cluster as `K8SClient` reaches it: the Istio namespace of the configuration and the
outcome of each call (`Except.error` carries the Go error's message). `ForwardGetRequest`
takes the namespace, the pod name, the destination port and the path; the local port taken
from `httputil.Pool` plays no part in the result. Responses (`[]byte`) are strings. -/
structure K8SClient where
  IstioNamespace : String
  GetPods : String → String → Except String (List Pod)
  ForwardGetRequest : String → String → Nat → String → Except String String

/-- The pods in phase `Running` (`healthyIstiods`), in the order of `istiods`. -/
def healthyIstiods (istiods : List Pod) : List Pod :=
  istiods.filter (fun p => decide (p.Phase = "Running"))

/-- Body of the goroutine started for one healthy pod: the request to port 15014. -/
def debugRequest (client : K8SClient) (debugPath : String) (p : Pod) : Except String String :=
  client.ForwardGetRequest p.Namespace p.Name 15014 debugPath

/-- Content of `errChan` once all goroutines are done: one message `name: error` per failed
request, in the order in which the goroutines completed. -/
def debugErrors (client : K8SClient) (debugPath : String) (completion : List Pod) :
    List String :=
  completion.filterMap (fun p =>
    match debugRequest client debugPath p with
    | Except.error e => some (p.Name ++ ": " ++ e)
    | Except.ok _ => none)

/-- Content of `syncChan` once all goroutines are done: one single-entry map `name: response`
per successful request, in the order in which the goroutines completed. -/
def debugResponses (client : K8SClient) (debugPath : String) (completion : List Pod) :
    List (String × String) :=
  completion.filterMap (fun p =>
    match debugRequest client debugPath p with
    | Except.error _ => none
    | Except.ok res => some (p.Name, res))

/-- Loop `for err := range errChan`: the messages joined by `; `. -/
def joinErrors (errors : List String) : String :=
  errors.foldl (fun errs err => (if errs ≠ "" then errs ++ "; " else errs) ++ err) ""

/-- Function `K8SClient.getIstiodDebugStatus`. The goroutines (one per healthy pod) are
joined by the wait group before the channels are read, and both channels are buffered for
all of them, so no send blocks: the interleaving shows only in the order of the messages in
the channels, which is the order `completion` in which the goroutines finish, a permutation
of the healthy pods. -/
def getIstiodDebugStatus (client : K8SClient) (debugPath : String) (completion : List Pod) :
    Except String (List (String × String)) :=
  match client.GetPods client.IstioNamespace "app=istiod" with
  | Except.error e => Except.error e
  | Except.ok istiods =>
    if (healthyIstiods istiods).length = 0 then
      Except.error "unable to find any healthy Pilot instance"
    else
      match istiods with
      | [] => Except.error "unable to find any healthy Pilot instance"
      | first :: _ =>
        match client.ForwardGetRequest client.IstioNamespace first.Name 8080 "/ready" with
        | Except.error _ =>
          Except.error ("unable to proxy Istiod pods. " ++
            "Make sure your Kubernetes API server has access to the Istio control plane through 8080 port")
        | Except.ok _ =>
          let errs := "Error fetching the proxy-status in the following pods: " ++
            joinErrors (debugErrors client debugPath completion)
          let result := (debugResponses client debugPath completion).foldl
            (fun m kv => mapSet m kv.1 kv.2) []
          if result.length > 0 then Except.ok result else Except.error errs

/-! ## business/apps.go -/

/-- Go `error` values met by `business/apps.go`: the not-found error built by
`kubernetes.NewNotFound(name, group, resource)`, or any other failure with its message. -/
inductive KialiError where
  | NotFound (name group resource : String)
  | Failure (message : String)
deriving DecidableEq, Repr

/-- The fields of `models.Namespace` read by the code. -/
structure models.Namespace where
  Name : String
deriving DecidableEq, Repr

/-- The fields of `core_v1.Service` read by `business/apps.go`: `ObjectMeta.Name`,
`ObjectMeta.Namespace`, `ObjectMeta.Labels` and `Spec.Selector`. -/
structure core_v1.Service where
  Name : String
  Namespace : String
  Labels : Kiali.Labels
  Selector : Kiali.Labels
deriving DecidableEq, Repr

/-- A pod of a workload (`models.Pod`). -/
structure models.Pod where
  Name : String
  ServiceAccountName : String
deriving DecidableEq, Repr

/-- The fields of `models.Workload` read by the code. -/
structure models.Workload where
  Name : String
  Labels : Labels
  IstioSidecar : Bool
  Pods : List models.Pod
deriving DecidableEq, Repr

/-- Type `models.WorkloadItem`. -/
structure models.WorkloadItem where
  WorkloadName : String
  IstioSidecar : Bool
  ServiceAccountNames : List String
deriving DecidableEq, Repr

/-- A dashboard reference of an app (`models.Runtime`). -/
structure models.Runtime where
  Name : String
deriving DecidableEq, Repr

/-- The fields of `models.App` written by the code. -/
structure models.App where
  Namespace : models.Namespace
  Name : String
  Workloads : List models.WorkloadItem
  ServiceNames : List String
  Runtimes : List models.Runtime
deriving DecidableEq, Repr

/-- The fields of `models.AppListItem` written by the code. -/
structure models.AppListItem where
  Name : String
  IstioSidecar : Bool
  Labels : Labels
  IstioReferences : List IstioValidationKey
deriving DecidableEq, Repr

/-- Type `models.AppList`. -/
structure models.AppList where
  Namespace : models.Namespace
  Apps : List models.AppListItem
deriving DecidableEq, Repr

/-- An Istio object of the configuration list, reduced to what the code reads of it: kind,
namespace and name. -/
structure IstioObject where
  Kind : String
  Namespace : String
  Name : String
deriving DecidableEq, Repr

/-- The fields of `models.IstioConfigList` read by the code. -/
structure IstioConfigList where
  VirtualServices : List IstioObject
  DestinationRules : List IstioObject
  Gateways : List IstioObject
deriving DecidableEq, Repr

/-- Type `IstioConfigCriteria`, with the fields `GetAppList` sets. -/
structure IstioConfigCriteria where
  Namespace : String
  IncludeAuthorizationPolicies : Bool
  IncludeDestinationRules : Bool
  IncludeEnvoyFilters : Bool
  IncludeGateways : Bool
  IncludePeerAuthentications : Bool
  IncludeRequestAuthentications : Bool
  IncludeSidecars : Bool
  IncludeVirtualServices : Bool
deriving DecidableEq, Repr

/-- What `business/apps.go` calls outside itself, as the outcome of each call: the app label
name of the configuration, the namespace service, the service cache and the cluster client,
`fetchWorkloads`, the Istio configuration service, and the helpers of packages `kubernetes`,
`models` and `labels` (none of them under src/). -/
structure Layer where
  AppLabelName : String
  GetNamespace : String → Except KialiError models.Namespace
  IsNamespaceCached : String → Bool
  cacheGetServices : String → Except KialiError (List core_v1.Service)
  k8sGetServices : String → Except KialiError (List core_v1.Service)
  FilterServicesForSelector : String → String → List core_v1.Service → List core_v1.Service
  fetchWorkloads : String → String → Except KialiError (List models.Workload)
  GetIstioConfigList : IstioConfigCriteria → Except KialiError IstioConfigList
  FilterVirtualServices : List IstioObject → String → String → List IstioObject
  FilterDestinationRules : List IstioObject → String → String → List IstioObject
  FilterGatewaysByVS : List IstioObject → List IstioObject → List IstioObject
  FilterWorkloadReferences : String → IstioConfigList → List IstioValidationKey
  FilterUniqueIstioReferences : List IstioValidationKey → List IstioValidationKey
  selectorString : Labels → String
  ServiceAccounts : List models.Pod → List String
  GetCustomDashboardRefs :
    models.Namespace → String → String → String → List models.Pod → List models.Runtime

/-- Function `joinMap`: each value of `m2` is appended to the list of its key in `m1` unless
the list holds it already. -/
def joinMap (m1 : List (String × List String)) (m2 : Labels) : List (String × List String) :=
  m2.foldl (fun m kv =>
    let current := (mapGet m kv.1).getD []
    if kv.2 ∈ current then m else mapSet m kv.1 (current ++ [kv.2])) m1

/-- Go string order (`sort.Strings`): lexicographic on the characters. -/
def stringLE (a b : String) : Bool := decide (a.data ≤ b.data)

/-- Function `buildFinalLabels`: every list is sorted and joined by commas. -/
def buildFinalLabels (m : List (String × List String)) : Labels :=
  m.map (fun kv =>
    (kv.1, String.intercalate "," (kv.2.insertionSort (fun a b => stringLE a b = true))))

/-- Type `appDetails`: services and workloads having the same app label. -/
structure appDetails where
  app : String
  Services : List core_v1.Service
  Workloads : List models.Workload
deriving DecidableEq, Repr

/-- Type `namespaceApps`: a map of app name to `appDetails`. -/
abbrev namespaceApps := List (String × appDetails)

/-- First loop body of `castAppDetails`: a service whose selector has the app label joins the
entry of that app, created when absent. -/
def castService (appLabel : String) (allEntities : namespaceApps) (service : core_v1.Service) :
    namespaceApps :=
  match mapGet service.Selector appLabel with
  | some app =>
    match mapGet allEntities app with
    | some appEntities =>
      mapSet allEntities app
        ⟨appEntities.app, appEntities.Services ++ [service], appEntities.Workloads⟩
    | none => mapSet allEntities app ⟨app, [service], []⟩
  | none => allEntities

/-- Second loop body of `castAppDetails`: a workload whose labels have the app label joins
the entry of that app, created when absent. -/
def castWorkload (appLabel : String) (allEntities : namespaceApps) (w : models.Workload) :
    namespaceApps :=
  match mapGet w.Labels appLabel with
  | some app =>
    match mapGet allEntities app with
    | some appEntities =>
      mapSet allEntities app
        ⟨appEntities.app, appEntities.Services, appEntities.Workloads ++ [w]⟩
    | none => mapSet allEntities app ⟨app, [], [w]⟩
  | none => allEntities

/-- Function `castAppDetails`; `appLabel` is `config.Get().IstioLabels.AppLabelName`. -/
def castAppDetails (appLabel : String) (services : List core_v1.Service)
    (ws : List models.Workload) : namespaceApps :=
  ws.foldl (castWorkload appLabel) (services.foldl (castService appLabel) [])

/-- The error a goroutine sends to the error channel, if any. -/
def sentErrors {α : Type} (r : Except KialiError α) : List KialiError :=
  match r with
  | Except.error e => [e]
  | Except.ok _ => []

/-- The value a goroutine leaves in its variable; the result of a failed fetch is never
read. -/
def fetchedValue {α : Type} (r : Except KialiError (List α)) : List α :=
  match r with
  | Except.error _ => []
  | Except.ok v => v

/-- First goroutine of `fetchNamespaceApps`: the services come from the cache when the
namespace is cached, from the cluster otherwise, and are filtered by the app selector when
an app name is given. -/
def fetchServices (layer : Layer) (ns appName : String) :
    Except KialiError (List core_v1.Service) :=
  match (if layer.IsNamespaceCached ns then layer.cacheGetServices ns
      else layer.k8sGetServices ns) with
  | Except.error e => Except.error e
  | Except.ok services =>
    Except.ok (if appName ≠ "" then
      layer.FilterServicesForSelector layer.AppLabelName appName services else services)

/-- The label selector of `fetchNamespaceApps`: the app label name, or `label=appName` when
an app name is given. -/
def appLabelSelector (layer : Layer) (appName : String) : String :=
  if appName ≠ "" then layer.AppLabelName ++ "=" ++ appName else layer.AppLabelName

/-- Function `fetchNamespaceApps`, returning Go's pair `(namespaceApps, error)` (the nil map
is the empty map). Both goroutines are joined before the error channel is read and the
channel is buffered for both, so the interleaving shows only in which error is first in the
channel: `servicesFirst` tells whether the services goroutine sends before the workloads
goroutine. -/
def fetchNamespaceApps (layer : Layer) (ns appName : String) (servicesFirst : Bool) :
    namespaceApps × Option KialiError :=
  let labelSelector := appLabelSelector layer appName
  match layer.GetNamespace ns with
  | Except.error err => ([], some err)
  | Except.ok _ =>
    let services := fetchServices layer ns appName
    let ws := layer.fetchWorkloads ns labelSelector
    let errChan :=
      if servicesFirst then sentErrors services ++ sentErrors ws
      else sentErrors ws ++ sentErrors services
    match errChan with
    | err :: _ => ([], some err)
    | [] => (castAppDetails layer.AppLabelName (fetchedValue services) (fetchedValue ws), none)

/-- The criteria `GetAppList` passes to the Istio configuration service. -/
def appListCriteria (ns : String) : IstioConfigCriteria :=
  ⟨ns, true, true, true, true, true, true, true, true⟩

/-- Function `models.BuildKey` (package `models`, not under src/): the key of an object. -/
def BuildKey (objectType ns name : String) : IstioValidationKey :=
  ⟨objectType, ns, name⟩

/-- Inner part of the services loop of `GetAppList`: the references of one service, when
Istio resources are linked: its virtual services, its destination rules, and the gateways
of the virtual services. -/
def serviceReferences (layer : Layer) (linkIstioResources : Bool)
    (istioConfigList : IstioConfigList) (srv : core_v1.Service) : List IstioValidationKey :=
  if linkIstioResources then
    (layer.FilterVirtualServices istioConfigList.VirtualServices srv.Namespace srv.Name).map
        (fun v => BuildKey v.Kind v.Namespace v.Name) ++
      (layer.FilterDestinationRules istioConfigList.DestinationRules srv.Namespace
          srv.Name).map (fun d => BuildKey d.Kind d.Namespace d.Name) ++
      (layer.FilterGatewaysByVS istioConfigList.Gateways istioConfigList.VirtualServices).map
        (fun g => BuildKey g.Kind g.Namespace g.Name)
  else []

/-- Last loop of the body of `GetAppList`: `IstioSidecar` takes the flag of each workload in
turn and the loop stops at the first workload without sidecar. -/
def istioSidecarLoop : Bool → List models.Workload → Bool
  | current, [] => current
  | _, w :: rest => if !w.IstioSidecar then false else istioSidecarLoop w.IstioSidecar rest

/-- Body of the loop `for keyApp, valueApp := range apps` of `GetAppList`: the list item of
one app. -/
def appListItem (layer : Layer) (linkIstioResources : Bool) (istioConfigList : IstioConfigList)
    (keyApp : String) (valueApp : appDetails) : models.AppListItem :=
  let serviceLabels := valueApp.Services.foldl (fun m srv => joinMap m srv.Labels) []
  let svcReferences :=
    valueApp.Services.flatMap (serviceReferences layer linkIstioResources istioConfigList)
  let applabels := valueApp.Workloads.foldl (fun m wrk => joinMap m wrk.Labels) serviceLabels
  let wkdReferences := valueApp.Workloads.flatMap (fun wrk =>
    if linkIstioResources then
      layer.FilterWorkloadReferences (layer.selectorString wrk.Labels) istioConfigList
    else [])
  ⟨keyApp, istioSidecarLoop true valueApp.Workloads, buildFinalLabels applabels,
    layer.FilterUniqueIstioReferences (svcReferences ++ wkdReferences)⟩

/-- Function `AppService.GetAppList`, returning Go's pair `(models.AppList, error)`. The
goroutines (the app fetch and, when Istio resources are linked, the Istio configuration
fetch) are joined before the error channel is read and the channel is buffered for all of
them: `appsFirst` tells whether the app fetch sends its error first, `servicesFirst` is the
schedule of `fetchNamespaceApps`. The apps are listed in the order of the map's entries. -/
def GetAppList (layer : Layer) (ns : String) (linkIstioResources : Bool)
    (appsFirst servicesFirst : Bool) : models.AppList × Option KialiError :=
  let appList : models.AppList := ⟨⟨ns⟩, []⟩
  let fetched := fetchNamespaceApps layer ns "" servicesFirst
  let appsErrors : List KialiError :=
    match fetched.2 with
    | some err2 => [err2]
    | none => []
  let config : Except KialiError IstioConfigList :=
    if linkIstioResources then layer.GetIstioConfigList (appListCriteria ns)
    else Except.ok ⟨[], [], []⟩
  let errChan :=
    if appsFirst then appsErrors ++ sentErrors config else sentErrors config ++ appsErrors
  match errChan with
  | err :: _ => (appList, some err)
  | [] =>
    let istioConfigList : IstioConfigList :=
      match config with
      | Except.ok l => l
      | Except.error _ => ⟨[], [], []⟩
    (⟨⟨ns⟩, fetched.1.map (fun kv =>
      appListItem layer linkIstioResources istioConfigList kv.1 kv.2)⟩, none)

/-- Function `AppService.GetApp`, returning Go's pair `(models.App, error)`; `servicesFirst`
is the schedule of `fetchNamespaceApps`. -/
def GetApp (layer : Layer) (ns appName : String) (servicesFirst : Bool) :
    models.App × Option KialiError :=
  match layer.GetNamespace ns with
  | Except.error err => (⟨⟨ns⟩, appName, [], [], []⟩, some err)
  | Except.ok nsFound =>
    let fetched := fetchNamespaceApps layer ns appName servicesFirst
    match fetched.2 with
    | some err => (⟨nsFound, appName, [], [], []⟩, some err)
    | none =>
      match mapGet fetched.1 appName with
      | none => (⟨nsFound, appName, [], [], []⟩, some (KialiError.NotFound appName "Kiali" "App"))
      | some details =>
        let workloads := details.Workloads.map (fun wkd =>
          (⟨wkd.Name, wkd.IstioSidecar, layer.ServiceAccounts wkd.Pods⟩ : models.WorkloadItem))
        let serviceNames := details.Services.map (fun svc => svc.Name)
        let pods := details.Workloads.flatMap (fun workload => workload.Pods)
        (⟨nsFound, appName, workloads, serviceNames,
          layer.GetCustomDashboardRefs nsFound ns appName "" pods⟩, none)

/-! ## Notions used in the statements -/

/-- References listed by the validation stored under `key` (none when the key is absent). -/
def referencesOf (vals : IstioValidations) (key : IstioValidationKey) :
    List IstioValidationKey :=
  (currentValidation vals key).References

/-- The validation stored under `key` holds check `c`. -/
def hasCheck (vals : IstioValidations) (key : IstioValidationKey) (c : IstioCheck) : Prop :=
  ∃ v, mapGet vals key = some v ∧ c ∈ v.Checks

/-- Every stored validation is valid and holds only collision warnings. -/
def wellFormedResult (vals : IstioValidations) : Prop :=
  ∀ k v, mapGet vals k = some v →
    v.Valid = true ∧ ∀ c ∈ v.Checks, ∃ path, c = conflictCheck path

/-- No two gateways of the input share the same ingress-selector labels. -/
def distinctSelectors (m : MultiMatchChecker) : Prop :=
  m.GatewaysPerNamespace.flatten.Pairwise
    (fun g1 g2 => sameLabels g1.Selector g2.Selector = false)

/-- The `(port, host)` declarations of a gateway, as written. -/
def portHosts (g : Gateway) : List (Nat × String) :=
  g.Servers.flatMap (fun s => s.Hosts.map (fun h => (s.Port.Number, h)))

/-- No gateway declares the same host string twice on a port. -/
def noRepeatedHost (m : MultiMatchChecker) : Prop :=
  ∀ g ∈ m.GatewaysPerNamespace.flatten, (portHosts g).Nodup

/-- No gateway declares two hosts that collide with each other. -/
def noInternalCollision (family : String → String) (m : MultiMatchChecker) : Prop :=
  ∀ g ∈ m.GatewaysPerNamespace.flatten,
    (gatewayHosts family g).Pairwise (fun a b => collides a b = false)

/-- A well-formed egress host resolves to a live service or a service entry. -/
def EgressHostChecker.resolves (cfg : Config) (elc : EgressHostChecker) (host : String) : Bool :=
  match getHostComponents host with
  | some (hostNs, dnsName) => elc.HasMatchingService cfg hostNs dnsName
  | none => false

/-- Service `s` belongs to app `a`: its selector has the app label with value `a`. -/
def serviceOfApp (appLabel a : String) (s : core_v1.Service) : Bool :=
  decide (mapGet s.Selector appLabel = some a)

/-- Workload `w` belongs to app `a`: its labels have the app label with value `a`. -/
def workloadOfApp (appLabel a : String) (w : models.Workload) : Bool :=
  decide (mapGet w.Labels appLabel = some a)

/-- The entry of app `a` for its services and workloads: none when both lists are empty. -/
def appEntry (a : String) (services : List core_v1.Service) (ws : List models.Workload) :
    Option appDetails :=
  if services = [] ∧ ws = [] then none else some ⟨a, services, ws⟩

/-- A sample cluster for `business/apps.go`: namespace `bookinfo` with services `reviews` and
`details` and workloads `reviews-v1`, `reviews-v2`; the workload fetch fails when
`workloadsFail` is set. The selector helpers filter by the app label. -/
def bookinfoLayer (workloadsFail : Bool) : Layer where
  AppLabelName := "app"
  GetNamespace := fun ns => Except.ok ⟨ns⟩
  IsNamespaceCached := fun _ => false
  cacheGetServices := fun _ => Except.ok []
  k8sGetServices := fun _ =>
    Except.ok [⟨"reviews", "bookinfo", [("app", "reviews")], [("app", "reviews")]⟩,
      ⟨"details", "bookinfo", [("app", "details")], [("app", "details")]⟩]
  FilterServicesForSelector := fun label value services =>
    services.filter (fun s => decide (mapGet s.Selector label = some value))
  fetchWorkloads := fun _ selector =>
    if workloadsFail then Except.error (KialiError.Failure "workloads unavailable")
    else
      Except.ok (([⟨"reviews-v1", [("app", "reviews"), ("version", "v1")], true, []⟩,
        ⟨"reviews-v2", [("app", "reviews"), ("version", "v2")], false, []⟩] :
          List models.Workload).filter (fun w =>
        decide (selector = "app") ||
          decide (selector = "app=" ++ (mapGet w.Labels "app").getD "")))
  GetIstioConfigList := fun _ => Except.ok ⟨[], [], []⟩
  FilterVirtualServices := fun l _ _ => l
  FilterDestinationRules := fun l _ _ => l
  FilterGatewaysByVS := fun l _ => l
  FilterWorkloadReferences := fun _ _ => []
  FilterUniqueIstioReferences := fun l => l
  selectorString := fun _ => ""
  ServiceAccounts := fun pods => pods.map (fun p => p.ServiceAccountName)
  GetCustomDashboardRefs := fun _ _ _ _ _ => []

/-- The sample cluster of `bookinfoLayer` with a failing service fetch from the cluster. -/
def bookinfoServicesFail : Layer :=
  { bookinfoLayer false with
    k8sGetServices := fun _ => Except.error (KialiError.Failure "services unavailable") }

/-! ## String lemmas -/

theorem hasSuffix_iff (s t : String) :
    hasSuffix s t = true ↔ ∃ pre : String, s = pre ++ t := by
  unfold hasSuffix
  rw [List.isSuffixOf_iff_suffix]
  constructor
  · rintro ⟨l, hl⟩
    exact ⟨⟨l⟩, String.ext (by simp [String.data_append, hl])⟩
  · rintro ⟨pre, rfl⟩
    exact ⟨pre.data, by simp [String.data_append]⟩

theorem hasSuffix_self (s : String) : hasSuffix s s = true :=
  (hasSuffix_iff s s).2 ⟨"", String.ext (by simp [String.data_append])⟩

theorem hasSuffix_longer (s t : String) (h : s.data.length < t.data.length) :
    hasSuffix s t = false := by
  cases hs : hasSuffix s t with
  | false => rfl
  | true =>
    unfold hasSuffix at hs
    rw [List.isSuffixOf_iff_suffix] at hs
    have := hs.length_le
    omega

theorem parseHostEntry_wildcard (suffix : String) :
    parseHostEntry ("*." ++ suffix) = ⟨suffix, true⟩ := by
  have hp : hasPrefix ("*." ++ suffix) "*." = true := by
    unfold hasPrefix
    rw [List.isPrefixOf_iff_prefix]
    exact ⟨suffix.data, by simp [String.data_append]⟩
  have hd : (⟨("*." ++ suffix : String).data.drop 2⟩ : String) = suffix := by
    apply String.ext
    simp [String.data_append]
  simp only [parseHostEntry, hp, if_true, hd]

theorem wildcard_ne_star (suffix : String) : ("*." ++ suffix : String) ≠ "*" := by
  intro h
  have := congrArg (fun s : String => s.data.length) h
  simp [String.data_append] at this

theorem hostMatches_wildcard_eq (h suffix : String) :
    hostMatches h ("*." ++ suffix) = hasSuffix h ("." ++ suffix) := by
  unfold hostMatches
  rw [if_neg (wildcard_ne_star suffix), parseHostEntry_wildcard]
  simp

theorem hostMatches_refl (h : String) : hostMatches h h = true := by
  unfold hostMatches
  by_cases h1 : h = "*"
  · simp [h1]
  · rw [if_neg h1]
    unfold parseHostEntry
    by_cases hp : hasPrefix h "*." = true
    · simp only [hp, if_true]
      unfold hasPrefix at hp
      rw [List.isPrefixOf_iff_prefix] at hp
      obtain ⟨t, ht⟩ := hp
      rw [hasSuffix_iff]
      refine ⟨"*", String.ext ?_⟩
      simp [String.data_append, ← ht]
    · simp [hp]

/-! ## Go map lemmas -/

theorem mapGet_mapSet {α β : Type} [DecidableEq α] (m : List (α × β)) (k k2 : α) (v : β) :
    mapGet (mapSet m k v) k2 = if k = k2 then some v else mapGet m k2 := by
  induction m with
  | nil => simp [mapSet, mapGet]
  | cons kv rest ih =>
    obtain ⟨a, b⟩ := kv
    by_cases hak : a = k
    · subst hak
      by_cases h2 : a = k2 <;> simp [mapSet, mapGet, h2]
    · by_cases h2 : a = k2
      · subst h2
        simp [mapSet, mapGet, hak, Ne.symm hak]
      · simp [mapSet, mapGet, hak, h2, ih]

theorem mapGet_isSome_iff {α β : Type} [DecidableEq α] (m : List (α × β)) (k : α) :
    (∃ v, mapGet m k = some v) ↔ k ∈ mapKeys m := by
  induction m with
  | nil => simp [mapGet, mapKeys]
  | cons kv rest ih =>
    obtain ⟨a, b⟩ := kv
    by_cases hak : a = k
    · simp [mapGet, mapKeys, hak]
    · have : ¬ k = a := fun h => hak h.symm
      simpa [mapGet, mapKeys, hak, this] using ih

theorem mem_mapKeys_mapSet {α β : Type} [DecidableEq α] (m : List (α × β)) (k k2 : α) (v : β) :
    k2 ∈ mapKeys (mapSet m k v) ↔ k2 = k ∨ k2 ∈ mapKeys m := by
  rw [← mapGet_isSome_iff, ← mapGet_isSome_iff, mapGet_mapSet]
  by_cases h : k = k2
  · simp [h]
  · have : ¬ k2 = k := fun e => h e.symm
    simp [h, this]

/-! ## `ServiceEntryHostnames` -/

theorem mapKeys_appendProtocol (m : HostMap) (p : String) :
    mapKeys (appendProtocol m p) = mapKeys m := by
  simp [mapKeys, appendProtocol, Function.comp_def]

theorem mapKeys_foldl_appendProtocol (ports : List Port) (m : HostMap) :
    mapKeys (ports.foldl
      (fun m port => appendProtocol m (mapPortToVirtualServiceProtocol port.Protocol)) m)
      = mapKeys m := by
  induction ports generalizing m with
  | nil => rfl
  | cons p ps ih => simp [List.foldl_cons, ih, mapKeys_appendProtocol]

theorem mem_mapKeys_foldl_mapSet (hosts : List String) (m : HostMap) (h : String) :
    h ∈ mapKeys (hosts.foldl (fun m host => mapSet m host []) m) ↔ h ∈ hosts ∨ h ∈ mapKeys m := by
  induction hosts generalizing m with
  | nil => simp
  | cons x xs ih =>
    simp only [List.foldl_cons, ih, mem_mapKeys_mapSet, List.mem_cons]
    tauto

theorem mem_mapKeys_serviceEntryStep (m : HostMap) (v : ServiceEntry) (h : String) :
    h ∈ mapKeys (serviceEntryStep m v) ↔ h ∈ v.Hosts ∨ h ∈ mapKeys m := by
  simp only [serviceEntryStep, mapKeys_foldl_appendProtocol, mem_mapKeys_foldl_mapSet]

theorem mem_mapKeys_foldl_serviceEntryStep (ses : List ServiceEntry) (m : HostMap) (h : String) :
    h ∈ mapKeys (ses.foldl serviceEntryStep m) ↔ (∃ se ∈ ses, h ∈ se.Hosts) ∨ h ∈ mapKeys m := by
  induction ses generalizing m with
  | nil => simp
  | cons x xs ih =>
    have hx : (∃ se ∈ x :: xs, h ∈ se.Hosts) ↔ h ∈ x.Hosts ∨ ∃ se ∈ xs, h ∈ se.Hosts := by
      simp only [List.mem_cons, exists_eq_or_imp]
    rw [List.foldl_cons, ih, mem_mapKeys_serviceEntryStep, hx]
    generalize (∃ se ∈ xs, h ∈ se.Hosts) = P
    tauto

/-- The keys of the map returned by `ServiceEntryHostnames` are exactly the hostnames
declared in some entry's `spec.hosts`. -/
theorem ServiceEntryHostnames_keys (ses : List ServiceEntry) (h : String) :
    (∃ protocols, mapGet (ServiceEntryHostnames ses) h = some protocols) ↔
      ∃ se ∈ ses, h ∈ se.Hosts := by
  rw [mapGet_isSome_iff, ServiceEntryHostnames, mem_mapKeys_foldl_serviceEntryStep]
  simp [mapKeys]

/-! ## `ServiceEntryHostnames`: the protocols listed under a hostname -/

theorem mapGet_appendProtocol (m : HostMap) (p h : String) :
    mapGet (appendProtocol m p) h = (mapGet m h).map (fun ps => ps ++ [p]) := by
  induction m with
  | nil => rfl
  | cons kv rest ih =>
    obtain ⟨k, v⟩ := kv
    have hc : appendProtocol ((k, v) :: rest) p = (k, v ++ [p]) :: appendProtocol rest p := rfl
    rw [hc]
    by_cases hk : k = h
    · simp [mapGet, hk]
    · simp [mapGet, hk, ih]

theorem mapGet_foldl_appendProtocol (ports : List Port) (m : HostMap) (h : String) :
    mapGet (ports.foldl
        (fun m port => appendProtocol m (mapPortToVirtualServiceProtocol port.Protocol)) m) h =
      (mapGet m h).map
        (fun ps => ps ++ ports.map (fun port => mapPortToVirtualServiceProtocol port.Protocol)) := by
  induction ports generalizing m with
  | nil => simp
  | cons p ps ih =>
    rw [List.foldl_cons, ih, mapGet_appendProtocol]
    cases mapGet m h <;> simp

theorem mapGet_foldl_mapSet_of_not_mem (hosts : List String) (m : HostMap) (h : String)
    (hn : h ∉ hosts) :
    mapGet (hosts.foldl (fun m host => mapSet m host []) m) h = mapGet m h := by
  induction hosts generalizing m with
  | nil => rfl
  | cons x xs ih =>
    have hx : x ≠ h := fun e => hn (by simp [e])
    have hxs : h ∉ xs := fun e => hn (List.mem_cons_of_mem _ e)
    rw [List.foldl_cons, ih _ hxs, mapGet_mapSet, if_neg hx]

theorem mapGet_foldl_mapSet_of_mem (hosts : List String) (m : HostMap) (h : String)
    (hm : h ∈ hosts) :
    mapGet (hosts.foldl (fun m host => mapSet m host []) m) h = some [] := by
  induction hosts generalizing m with
  | nil => cases hm
  | cons x xs ih =>
    rw [List.foldl_cons]
    by_cases hxs : h ∈ xs
    · exact ih _ hxs
    · have hx : x = h := by
        rcases List.mem_cons.1 hm with e | e
        · exact e.symm
        · exact absurd e hxs
      rw [mapGet_foldl_mapSet_of_not_mem xs _ h hxs, mapGet_mapSet, if_pos hx]

/-- Protocols of the ports of a service entry, in port order. -/
theorem mapGet_serviceEntryStep_of_mem (m : HostMap) (v : ServiceEntry) (h : String)
    (hm : h ∈ v.Hosts) :
    mapGet (serviceEntryStep m v) h =
      some (v.Ports.map (fun port => mapPortToVirtualServiceProtocol port.Protocol)) := by
  simp [serviceEntryStep, mapGet_foldl_appendProtocol, mapGet_foldl_mapSet_of_mem _ _ _ hm]

theorem mapGet_serviceEntryStep_of_not_mem (m : HostMap) (v : ServiceEntry) (h : String)
    (hn : h ∉ v.Hosts) :
    mapGet (serviceEntryStep m v) h =
      (mapGet m h).map (fun ps =>
        ps ++ v.Ports.map (fun port => mapPortToVirtualServiceProtocol port.Protocol)) := by
  simp [serviceEntryStep, mapGet_foldl_appendProtocol, mapGet_foldl_mapSet_of_not_mem _ _ _ hn]

theorem mapGet_foldl_serviceEntryStep_of_not_mem (post : List ServiceEntry) (m : HostMap)
    (h : String) (hn : ∀ s ∈ post, h ∉ s.Hosts) :
    mapGet (post.foldl serviceEntryStep m) h =
      (mapGet m h).map (fun ps => ps ++ post.flatMap (fun s =>
        s.Ports.map (fun port => mapPortToVirtualServiceProtocol port.Protocol))) := by
  induction post generalizing m with
  | nil => simp
  | cons s rest ih =>
    rw [List.foldl_cons, ih _ (fun t ht => hn t (List.mem_cons_of_mem _ ht)),
      mapGet_serviceEntryStep_of_not_mem m s h (hn s (List.mem_cons_self _ _))]
    cases mapGet m h <;> simp

/-- What `ServiceEntryHostnames` lists under a hostname: the protocols of all ports of the
last entry that declares the hostname and of every entry after it, in order. -/
theorem ServiceEntryHostnames_protocols (pre post : List ServiceEntry) (se : ServiceEntry)
    (h : String) (hm : h ∈ se.Hosts) (hn : ∀ s ∈ post, h ∉ s.Hosts) :
    mapGet (ServiceEntryHostnames (pre ++ se :: post)) h =
      some ((se :: post).flatMap (fun s =>
        s.Ports.map (fun port => mapPortToVirtualServiceProtocol port.Protocol))) := by
  unfold ServiceEntryHostnames
  rw [List.foldl_append, List.foldl_cons, mapGet_foldl_serviceEntryStep_of_not_mem post _ h hn,
    mapGet_serviceEntryStep_of_mem _ se h hm]
  simp

/-- The protocols of a single service entry: `TestSNIProxyExample`. -/
theorem ServiceEntryHostnames_protocols_witness :
    mapGet (ServiceEntryHostnames
        [⟨"sni-proxy", "test", ["sni-proxy.local"], [⟨8443, "TCP", "tcp"⟩]⟩])
      "sni-proxy.local" = some ["tcp"] :=
  ServiceEntryHostnames_protocols [] []
    ⟨"sni-proxy", "test", ["sni-proxy.local"], [⟨8443, "TCP", "tcp"⟩]⟩ "sni-proxy.local"
    (by decide) (by decide)

/-- C1 (failing inputs): the port loop of `ServiceEntryHostnames` appends each protocol to
every hostname collected so far, and a hostname declared again is reset. With entries
`h.com` (HTTP port) then `g.com` (TCP port), `h.com` is listed with `tcp` although no entry
declaring `h.com` has a port that maps to `tcp`; with `h.com` (HTTP port) declared again by
an entry without ports, `h.com` is listed without `http` although an entry declaring it has
a port that maps to `http`. -/
theorem ServiceEntryHostnames_protocols_leak :
    (mapGet (ServiceEntryHostnames
          [⟨"a", "ns", ["h.com"], [⟨80, "HTTP", "http"⟩]⟩,
            ⟨"b", "ns", ["g.com"], [⟨9000, "TCP", "tcp"⟩]⟩]) "h.com" = some ["http", "tcp"] ∧
      ¬ ∃ se ∈ ([⟨"a", "ns", ["h.com"], [⟨80, "HTTP", "http"⟩]⟩,
            ⟨"b", "ns", ["g.com"], [⟨9000, "TCP", "tcp"⟩]⟩] : List ServiceEntry),
          "h.com" ∈ se.Hosts ∧
            ∃ port ∈ se.Ports, mapPortToVirtualServiceProtocol port.Protocol = "tcp") ∧
    (mapGet (ServiceEntryHostnames
          [⟨"a", "ns", ["h.com"], [⟨80, "HTTP", "http"⟩]⟩, ⟨"c", "ns", ["h.com"], []⟩])
        "h.com" = some [] ∧
      ∃ se ∈ ([⟨"a", "ns", ["h.com"], [⟨80, "HTTP", "http"⟩]⟩,
            ⟨"c", "ns", ["h.com"], []⟩] : List ServiceEntry),
          "h.com" ∈ se.Hosts ∧
            ∃ port ∈ se.Ports, mapPortToVirtualServiceProtocol port.Protocol = "http") := by
  decide

/-! ## `MultiMatchChecker`: bucket and collision lemmas -/

theorem sameLabels_refl (a : Labels) : sameLabels a a = true := by
  simp [sameLabels]

theorem sameLabels_symm (a b : Labels) : sameLabels a b = sameLabels b a := by
  simp only [sameLabels, and_comm]

theorem sameBucket_symm (a b : GatewayHost) : sameBucket a b = sameBucket b a := by
  simp only [sameBucket, sameLabels_symm a.Selector b.Selector, eq_comm]

theorem collides_symm (a b : GatewayHost) : collides a b = collides b a := by
  simp only [collides, sameBucket_symm a b, Bool.or_comm]

theorem sameBucket_of_eq {a b : GatewayHost} (hs : a.Selector = b.Selector)
    (hp : a.Port = b.Port) (hf : a.Family = b.Family) : sameBucket a b = true := by
  simp [sameBucket, hs, hp, hf, sameLabels_refl]

theorem collides_of_same_host {a b : GatewayHost} (hb : sameBucket a b = true)
    (hh : a.Hostname = b.Hostname) : collides a b = true := by
  simp [collides, hb, hh, hostMatches_refl]

theorem mem_addUnique {α : Type} [DecidableEq α] (l : List α) (a x : α) :
    x ∈ addUnique l a ↔ x ∈ l ∨ x = a := by
  unfold addUnique
  by_cases h : a ∈ l
  · simp only [h, if_true]
    constructor
    · exact Or.inl
    · rintro (h1 | rfl)
      · exact h1
      · exact h
  · simp [h]

theorem mem_collisions_of_sublist {a b : GatewayHost} {l : List GatewayHost}
    (hs : [a, b].Sublist l) (hc : collides a b = true) : (a, b) ∈ collisions l := by
  induction l with
  | nil => cases hs
  | cons x xs ih =>
    simp only [collisions, List.mem_append, List.mem_map, List.mem_filter]
    cases hs with
    | cons _ h => exact Or.inr (ih h)
    | cons₂ _ h =>
      left
      exact ⟨b, ⟨List.singleton_sublist.1 h, hc⟩, rfl⟩

theorem collisions_eq_nil {l : List GatewayHost}
    (h : l.Pairwise (fun a b => collides a b = false)) : collisions l = [] := by
  induction l with
  | nil => rfl
  | cons x xs ih =>
    rw [List.pairwise_cons] at h
    simp only [collisions, ih h.2, List.append_nil, List.map_eq_nil_iff, List.filter_eq_nil_iff]
    intro b hb
    simp [h.1 b hb]

theorem mem_collisions_collides {p : GatewayHost × GatewayHost} {l : List GatewayHost}
    (h : p ∈ collisions l) : collides p.1 p.2 = true ∧ p.1 ∈ l ∧ p.2 ∈ l := by
  induction l with
  | nil => simp [collisions] at h
  | cons x xs ih =>
    simp only [collisions, List.mem_append, List.mem_map, List.mem_filter] at h
    rcases h with ⟨b, ⟨hb, hc⟩, rfl⟩ | h
    · exact ⟨hc, List.mem_cons_self _ _, List.mem_cons_of_mem _ hb⟩
    · obtain ⟨h1, h2, h3⟩ := ih h
      exact ⟨h1, List.mem_cons_of_mem _ h2, List.mem_cons_of_mem _ h3⟩

/-! ## `MultiMatchChecker`: the result map under `addFinding` -/

theorem mapGet_addFinding_ne (vals : IstioValidations) (e o : GatewayHost)
    (k : IstioValidationKey) (h : e.Key ≠ k) :
    mapGet (addFinding vals e o) k = mapGet vals k := by
  simp only [addFinding, mapGet_mapSet, if_neg h]

theorem mapGet_addFinding_self (vals : IstioValidations) (e o : GatewayHost) :
    mapGet (addFinding vals e o) e.Key =
      some ⟨(currentValidation vals e.Key).Name, (currentValidation vals e.Key).ObjectType,
        (currentValidation vals e.Key).Valid,
        addUnique (currentValidation vals e.Key).Checks (conflictCheck e.Path),
        if e.Key = o.Key then (currentValidation vals e.Key).References
        else addUnique (currentValidation vals e.Key).References o.Key⟩ := by
  simp only [addFinding, mapGet_mapSet, if_true]

theorem currentValidation_of_some {vals : IstioValidations} {k : IstioValidationKey}
    {v : IstioValidation} (h : mapGet vals k = some v) : currentValidation vals k = v := by
  simp [currentValidation, h]

theorem referencesOf_of_some {vals : IstioValidations} {k : IstioValidationKey}
    {v : IstioValidation} (h : mapGet vals k = some v) : referencesOf vals k = v.References := by
  simp [referencesOf, currentValidation_of_some h]

theorem mapGet_of_mem_referencesOf {vals : IstioValidations} {k b : IstioValidationKey}
    (h : b ∈ referencesOf vals k) : ∃ v, mapGet vals k = some v ∧ b ∈ v.References := by
  unfold referencesOf currentValidation at h
  cases hk : mapGet vals k with
  | none => simp [hk] at h
  | some v => exact ⟨v, rfl, by simpa [hk] using h⟩

theorem mem_referencesOf_addFinding (vals : IstioValidations) (e o : GatewayHost)
    (k b : IstioValidationKey) :
    b ∈ referencesOf (addFinding vals e o) k ↔
      b ∈ referencesOf vals k ∨ (k = e.Key ∧ b = o.Key ∧ e.Key ≠ o.Key) := by
  by_cases hk : e.Key = k
  · subst hk
    rw [referencesOf_of_some (mapGet_addFinding_self vals e o)]
    by_cases heo : e.Key = o.Key
    · simp [heo, referencesOf]
    · simp [heo, mem_addUnique, referencesOf]
  · have hk2 : ¬ k = e.Key := fun h => hk h.symm
    simp [referencesOf, currentValidation, mapGet_addFinding_ne vals e o k hk, hk2]

theorem mem_referencesOf_recordCollision (vals : IstioValidations) (a b : GatewayHost)
    (k r : IstioValidationKey) :
    r ∈ referencesOf (recordCollision vals (a, b)) k ↔
      r ∈ referencesOf vals k ∨ (k = a.Key ∧ r = b.Key ∧ a.Key ≠ b.Key) ∨
        (k = b.Key ∧ r = a.Key ∧ a.Key ≠ b.Key) := by
  simp only [recordCollision, mem_referencesOf_addFinding]
  have : b.Key ≠ a.Key ↔ a.Key ≠ b.Key := ⟨Ne.symm, Ne.symm⟩
  rw [this]
  tauto

/-- References are symmetric in `vals`. -/
theorem symmetric_recordCollision (vals : IstioValidations) (p : GatewayHost × GatewayHost)
    (h : ∀ k r, r ∈ referencesOf vals k → k ∈ referencesOf vals r) :
    ∀ k r, r ∈ referencesOf (recordCollision vals p) k →
      k ∈ referencesOf (recordCollision vals p) r := by
  obtain ⟨a, b⟩ := p
  intro k r hr
  rw [mem_referencesOf_recordCollision] at hr ⊢
  rcases hr with hr | ⟨rfl, rfl, hne⟩ | ⟨rfl, rfl, hne⟩
  · exact Or.inl (h k r hr)
  · exact Or.inr (Or.inr ⟨rfl, rfl, hne⟩)
  · exact Or.inr (Or.inl ⟨rfl, rfl, hne⟩)

theorem symmetric_foldl_recordCollision (l : List (GatewayHost × GatewayHost))
    (vals : IstioValidations)
    (h : ∀ k r, r ∈ referencesOf vals k → k ∈ referencesOf vals r) :
    ∀ k r, r ∈ referencesOf (l.foldl recordCollision vals) k →
      k ∈ referencesOf (l.foldl recordCollision vals) r := by
  induction l generalizing vals with
  | nil => exact h
  | cons p ps ih =>
    rw [List.foldl_cons]
    exact ih _ (symmetric_recordCollision vals p h)

/-! ### Checks and validity -/

theorem hasCheck_addFinding_self (vals : IstioValidations) (e o : GatewayHost) :
    hasCheck (addFinding vals e o) e.Key (conflictCheck e.Path) :=
  ⟨_, mapGet_addFinding_self vals e o, by simp [mem_addUnique]⟩

theorem hasCheck_addFinding_mono (vals : IstioValidations) (e o : GatewayHost)
    (k : IstioValidationKey) (c : IstioCheck) (h : hasCheck vals k c) :
    hasCheck (addFinding vals e o) k c := by
  obtain ⟨v, hv, hc⟩ := h
  by_cases hk : e.Key = k
  · subst hk
    refine ⟨_, mapGet_addFinding_self vals e o, ?_⟩
    simp [mem_addUnique, currentValidation_of_some hv, hc]
  · exact ⟨v, by rw [mapGet_addFinding_ne vals e o k hk]; exact hv, hc⟩

theorem hasCheck_recordCollision_mono (vals : IstioValidations) (p : GatewayHost × GatewayHost)
    (k : IstioValidationKey) (c : IstioCheck) (h : hasCheck vals k c) :
    hasCheck (recordCollision vals p) k c :=
  hasCheck_addFinding_mono _ _ _ _ _ (hasCheck_addFinding_mono _ _ _ _ _ h)

theorem hasCheck_foldl_mono (l : List (GatewayHost × GatewayHost)) (vals : IstioValidations)
    (k : IstioValidationKey) (c : IstioCheck) (h : hasCheck vals k c) :
    hasCheck (l.foldl recordCollision vals) k c := by
  induction l generalizing vals with
  | nil => exact h
  | cons p ps ih =>
    rw [List.foldl_cons]
    exact ih _ (hasCheck_recordCollision_mono vals p k c h)

theorem hasCheck_foldl_of_mem (l : List (GatewayHost × GatewayHost)) (vals : IstioValidations)
    (p : GatewayHost × GatewayHost) (hp : p ∈ l) :
    hasCheck (l.foldl recordCollision vals) p.1.Key (conflictCheck p.1.Path) ∧
      hasCheck (l.foldl recordCollision vals) p.2.Key (conflictCheck p.2.Path) := by
  induction l generalizing vals with
  | nil => cases hp
  | cons q qs ih =>
    rw [List.foldl_cons]
    rcases List.mem_cons.1 hp with rfl | hq
    · constructor
      · apply hasCheck_foldl_mono
        exact hasCheck_addFinding_mono _ _ _ _ _ (hasCheck_addFinding_self vals p.1 p.2)
      · apply hasCheck_foldl_mono
        exact hasCheck_addFinding_self _ p.2 p.1
    · exact ih _ hq

theorem wellFormedResult_addFinding (vals : IstioValidations) (e o : GatewayHost)
    (h : wellFormedResult vals) : wellFormedResult (addFinding vals e o) := by
  intro k v hv
  by_cases hk : e.Key = k
  · subst hk
    rw [mapGet_addFinding_self] at hv
    have hcur : (currentValidation vals e.Key).Valid = true ∧
        ∀ c ∈ (currentValidation vals e.Key).Checks, ∃ path, c = conflictCheck path := by
      cases hm : mapGet vals e.Key with
      | none => simp [currentValidation, hm]
      | some w => rw [currentValidation_of_some hm]; exact h _ _ hm
    cases hv
    refine ⟨hcur.1, ?_⟩
    intro c hc
    rcases (mem_addUnique _ _ _).1 hc with hc | rfl
    · exact hcur.2 c hc
    · exact ⟨_, rfl⟩
  · rw [mapGet_addFinding_ne vals e o k hk] at hv
    exact h k v hv

theorem wellFormedResult_foldl (l : List (GatewayHost × GatewayHost)) (vals : IstioValidations)
    (h : wellFormedResult vals) : wellFormedResult (l.foldl recordCollision vals) := by
  induction l generalizing vals with
  | nil => exact h
  | cons p ps ih =>
    rw [List.foldl_cons]
    exact ih _ (wellFormedResult_addFinding _ _ _ (wellFormedResult_addFinding _ _ _ h))

/-! ## `MultiMatchChecker`: locating host entries -/

theorem pair_sublist_enumFrom {α : Type} (l : List α) (n k1 k2 : Nat) (x y : α)
    (h1 : l[k1]? = some x) (h2 : l[k2]? = some y) (hlt : k1 < k2) :
    [(n + k1, x), (n + k2, y)].Sublist (l.enumFrom n) := by
  induction l generalizing n k1 k2 with
  | nil => simp at h1
  | cons z zs ih =>
    rw [List.enumFrom_cons]
    cases k2 with
    | zero => omega
    | succ k2 =>
      cases k1 with
      | zero =>
        simp only [List.getElem?_cons_zero, Option.some.injEq] at h1
        subst h1
        apply List.Sublist.cons₂
        rw [List.singleton_sublist, List.mk_mem_enumFrom_iff_le_and_getElem?_sub]
        refine ⟨by omega, ?_⟩
        have : n + (k2 + 1) - (n + 1) = k2 := by omega
        rw [this]
        simpa using h2
      | succ k1 =>
        apply List.Sublist.cons
        have e1 : n + (k1 + 1) = (n + 1) + k1 := by omega
        have e2 : n + (k2 + 1) = (n + 1) + k2 := by omega
        rw [e1, e2]
        exact ih (n + 1) k1 k2 (by simpa using h1) (by simpa using h2) (by omega)

theorem pair_sublist_enum {α : Type} (l : List α) (k1 k2 : Nat) (x y : α)
    (h1 : l[k1]? = some x) (h2 : l[k2]? = some y) (hlt : k1 < k2) :
    [(k1, x), (k2, y)].Sublist l.enum := by
  have := pair_sublist_enumFrom l 0 k1 k2 x y h1 h2 hlt
  simpa [List.enum] using this

theorem sublist_flatMap_of_mem {α β : Type} (f : α → List β) {l : List α} {a : α}
    (h : a ∈ l) : (f a).Sublist (l.flatMap f) := by
  induction l with
  | nil => cases h
  | cons x xs ih =>
    rw [List.flatMap_cons]
    rcases List.mem_cons.1 h with rfl | h
    · exact List.sublist_append_left _ _
    · exact (ih h).trans (List.sublist_append_right _ _)

/-- The entry of host `k` (spelled `h`) of server `j` of gateway `g`. -/
theorem serverHosts_pair_sublist (family : String → String) (m : MultiMatchChecker)
    (g : Gateway) (j : Nat) (s : Server) (k1 k2 : Nat) (h1 h2 : String)
    (hg : g ∈ m.GatewaysPerNamespace.flatten) (hs : g.Servers[j]? = some s)
    (hh1 : s.Hosts[k1]? = some h1) (hh2 : s.Hosts[k2]? = some h2) (hlt : k1 < k2) :
    [(⟨gatewayKey g, g.Selector, s.Port.Number, family s.Port.Protocol, toLower h1,
        serverHostPath j k1⟩ : GatewayHost),
      ⟨gatewayKey g, g.Selector, s.Port.Number, family s.Port.Protocol, toLower h2,
        serverHostPath j k2⟩].Sublist (allGatewayHosts family m) := by
  have a1 := (pair_sublist_enum s.Hosts k1 k2 h1 h2 hh1 hh2 hlt).map
    (fun kh : Nat × String => (⟨gatewayKey g, g.Selector, s.Port.Number,
      family s.Port.Protocol, toLower kh.2, serverHostPath j kh.1⟩ : GatewayHost))
  have a2 : (serverHosts family g j s).Sublist (gatewayHosts family g) :=
    sublist_flatMap_of_mem (fun js : Nat × Server => serverHosts family g js.1 js.2)
      (List.mk_mem_enum_iff_getElem?.2 hs)
  have a3 : (gatewayHosts family g).Sublist (allGatewayHosts family m) :=
    sublist_flatMap_of_mem (gatewayHosts family) hg
  exact (a1.trans a2).trans a3

theorem mem_gatewayHosts {family : String → String} {g : Gateway} {e : GatewayHost}
    (h : e ∈ gatewayHosts family g) : e.Selector = g.Selector ∧ e.Key = gatewayKey g := by
  simp only [gatewayHosts, serverHosts, List.mem_flatMap, List.mem_map] at h
  obtain ⟨js, _, kh, _, rfl⟩ := h
  exact ⟨rfl, rfl⟩

/-! ## `MultiMatchChecker`: results -/

theorem wellFormedResult_Check (family : String → String) (m : MultiMatchChecker) :
    wellFormedResult (m.Check family) :=
  wellFormedResult_foldl _ [] (fun k v hv => by simp [mapGet] at hv)

/-- Two hosts of one server that subsume one another (after lower-casing) are both reported
on their gateway. -/
theorem check_of_colliding_hosts_lt (family : String → String) (m : MultiMatchChecker)
    (g : Gateway) (j : Nat) (s : Server) (k1 k2 : Nat) (h1 h2 : String)
    (hg : g ∈ m.GatewaysPerNamespace.flatten) (hs : g.Servers[j]? = some s)
    (hh1 : s.Hosts[k1]? = some h1) (hh2 : s.Hosts[k2]? = some h2) (hlt : k1 < k2)
    (hm : (hostMatches (toLower h1) (toLower h2) || hostMatches (toLower h2) (toLower h1))
      = true) :
    ∃ v, mapGet (m.Check family) (gatewayKey g) = some v ∧ v.Valid = true ∧
      conflictCheck (serverHostPath j k1) ∈ v.Checks ∧
      conflictCheck (serverHostPath j k2) ∈ v.Checks := by
  have hsub := serverHosts_pair_sublist family m g j s k1 k2 h1 h2 hg hs hh1 hh2 hlt
  have hcol : collides
      (⟨gatewayKey g, g.Selector, s.Port.Number, family s.Port.Protocol, toLower h1,
        serverHostPath j k1⟩ : GatewayHost)
      ⟨gatewayKey g, g.Selector, s.Port.Number, family s.Port.Protocol, toLower h2,
        serverHostPath j k2⟩ = true := by
    unfold collides
    rw [Bool.and_eq_true]
    exact ⟨sameBucket_of_eq rfl rfl rfl, hm⟩
  have hmem := mem_collisions_of_sublist hsub hcol
  obtain ⟨⟨v, hv, hc1⟩, ⟨v2, hv2, hc2⟩⟩ :=
    hasCheck_foldl_of_mem (collisions (allGatewayHosts family m)) [] _ hmem
  have hv2 : mapGet (m.Check family) (gatewayKey g) = some v2 := hv2
  have hv : mapGet (m.Check family) (gatewayKey g) = some v := hv
  have : v2 = v := by rw [hv] at hv2; exact (Option.some.inj hv2).symm
  subst this
  exact ⟨v2, hv, (wellFormedResult_Check family m _ _ hv).1, hc1, hc2⟩

theorem check_of_colliding_hosts (family : String → String) (m : MultiMatchChecker)
    (g : Gateway) (j : Nat) (s : Server) (k1 k2 : Nat) (h1 h2 : String)
    (hg : g ∈ m.GatewaysPerNamespace.flatten) (hs : g.Servers[j]? = some s)
    (hh1 : s.Hosts[k1]? = some h1) (hh2 : s.Hosts[k2]? = some h2) (hne : k1 ≠ k2)
    (hm : (hostMatches (toLower h1) (toLower h2) || hostMatches (toLower h2) (toLower h1))
      = true) :
    ∃ v, mapGet (m.Check family) (gatewayKey g) = some v ∧ v.Valid = true ∧
      conflictCheck (serverHostPath j k1) ∈ v.Checks ∧
      conflictCheck (serverHostPath j k2) ∈ v.Checks := by
  rcases Nat.lt_or_gt_of_ne hne with hlt | hgt
  · exact check_of_colliding_hosts_lt family m g j s k1 k2 h1 h2 hg hs hh1 hh2 hlt hm
  · obtain ⟨v, hv, hval, c2, c1⟩ :=
      check_of_colliding_hosts_lt family m g j s k2 k1 h2 h1 hg hs hh2 hh1 hgt
        (by rw [Bool.or_comm]; exact hm)
    exact ⟨v, hv, hval, c1, c2⟩

/-- Entries of gateways with different selector labels never collide. -/
theorem check_eq_nil_of_pairwise (family : String → String) (m : MultiMatchChecker)
    (hsel : distinctSelectors m) (hint : noInternalCollision family m) :
    m.Check family = [] := by
  have hp : (allGatewayHosts family m).Pairwise (fun a b => collides a b = false) := by
    unfold allGatewayHosts
    rw [List.pairwise_flatMap]
    refine ⟨hint, ?_⟩
    refine List.Pairwise.imp ?_ hsel
    intro g1 g2 hg x hx y hy
    have h1 := (mem_gatewayHosts hx).1
    have h2 := (mem_gatewayHosts hy).1
    simp [collides, sameBucket, h1, h2, hg]
  simp [MultiMatchChecker.Check, collisions_eq_nil hp]

/-- C2: a wildcard rule host `*.suffix` matches a hostname exactly when the hostname ends
with `.` followed by the suffix; the apex `suffix` itself never matches. In
`MultiMatchChecker`, `*.echidna.com` collides with `tachyglossa.echidna.com`, while
`example.com` and `thisisfine.example.com` do not collide. -/
theorem hostMatches_wildcard_suffix (h suffix : String) :
    (hostMatches h ("*." ++ suffix) = true ↔ ∃ pre : String, h = pre ++ ("." ++ suffix)) ∧
    hostMatches h ("*." ++ suffix) = hasSuffix h ("." ++ suffix) ∧
    hostMatches suffix ("*." ++ suffix) = false ∧
    (∀ family : String → String,
      (∃ v, mapGet (MultiMatchChecker.Check family
            ⟨[[⟨"shouldnotbevalid", "test", [("app", "monotreme")],
              [⟨["*.echidna.com", "tachyglossa.echidna.com"], ⟨80, "http", "http"⟩⟩]⟩]]⟩)
          ⟨"gateway", "test", "shouldnotbevalid"⟩ = some v ∧ v.Valid = true ∧
          conflictCheck "spec/servers[0]/hosts[0]" ∈ v.Checks ∧
          conflictCheck "spec/servers[0]/hosts[1]" ∈ v.Checks) ∧
      MultiMatchChecker.Check family
          ⟨[[⟨"shouldbevalid", "test", [("app", "someother")],
            [⟨["example.com", "thisisfine.example.com"], ⟨80, "http", "http"⟩⟩]⟩]]⟩ = []) := by
  refine ⟨?_, hostMatches_wildcard_eq h suffix, ?_, ?_⟩
  · rw [hostMatches_wildcard_eq, hasSuffix_iff]
  · rw [hostMatches_wildcard_eq]
    apply hasSuffix_longer
    simp [String.data_append]
  · intro family
    constructor
    · exact check_of_colliding_hosts family _
        ⟨"shouldnotbevalid", "test", [("app", "monotreme")],
          [⟨["*.echidna.com", "tachyglossa.echidna.com"], ⟨80, "http", "http"⟩⟩]⟩
        0 ⟨["*.echidna.com", "tachyglossa.echidna.com"], ⟨80, "http", "http"⟩⟩ 0 1
        "*.echidna.com" "tachyglossa.echidna.com" (by decide) rfl rfl rfl (by decide)
        (by decide)
    · apply check_eq_nil_of_pairwise
      · simp [distinctSelectors]
      · intro g hg
        simp only [List.flatten_cons, List.flatten_nil, List.append_nil,
          List.mem_singleton] at hg
        subst hg
        have e1 : hostMatches (toLower "example.com") (toLower "thisisfine.example.com")
            = false := by decide
        have e2 : hostMatches (toLower "thisisfine.example.com") (toLower "example.com")
            = false := by decide
        simp [gatewayHosts, serverHosts, List.enum, List.enumFrom, collides, e1, e2]

theorem check_two_gateways (family : String → String) (m : MultiMatchChecker)
    (gA gB : Gateway) (host : String) (port : Port)
    (hm : m.GatewaysPerNamespace.flatten = [gA, gB])
    (hA : gA.Servers = [⟨[host], port⟩]) (hB : gB.Servers = [⟨[host], port⟩])
    (hsel : sameLabels gA.Selector gB.Selector = true)
    (hkey : gatewayKey gA ≠ gatewayKey gB) :
    m.Check family =
      [(gatewayKey gA, ⟨gA.Name, "gateway", true, [conflictCheck (serverHostPath 0 0)],
          [gatewayKey gB]⟩),
        (gatewayKey gB, ⟨gB.Name, "gateway", true, [conflictCheck (serverHostPath 0 0)],
          [gatewayKey gA]⟩)] := by
  have hent : allGatewayHosts family m =
      [⟨gatewayKey gA, gA.Selector, port.Number, family port.Protocol, toLower host,
          serverHostPath 0 0⟩,
        ⟨gatewayKey gB, gB.Selector, port.Number, family port.Protocol, toLower host,
          serverHostPath 0 0⟩] := by
    simp [allGatewayHosts, hm, gatewayHosts, serverHosts, hA, hB, List.enum, List.enumFrom]
  have hcol : collides
      (⟨gatewayKey gA, gA.Selector, port.Number, family port.Protocol, toLower host,
          serverHostPath 0 0⟩ : GatewayHost)
      ⟨gatewayKey gB, gB.Selector, port.Number, family port.Protocol, toLower host,
          serverHostPath 0 0⟩ = true := by
    simp [collides, sameBucket, hsel, hostMatches_refl]
  have hkey2 : ¬ gatewayKey gB = gatewayKey gA := fun h => hkey h.symm
  have hname : ∀ g : Gateway, (gatewayKey g).Name = g.Name := fun _ => rfl
  simp [MultiMatchChecker.Check, hent, collisions, hcol, recordCollision, addFinding,
    currentValidation, mapGet, mapSet, hkey, hkey2, addUnique, hname]

/-- C6: in every result map of `MultiMatchChecker.Check` the references are symmetric: when
the validation of gateway `A` lists the key of `B`, then `B` is in the map and lists the key
of `A`. For two gateways with identical host and port and the same selector, each has
exactly one reference, to the other, and is valid. -/
theorem MultiMatchChecker_references_symmetric (family : String → String)
    (m : MultiMatchChecker) :
    (∀ (A B : IstioValidationKey) (vA : IstioValidation),
      mapGet (m.Check family) A = some vA → B ∈ vA.References →
        ∃ vB, mapGet (m.Check family) B = some vB ∧ A ∈ vB.References) ∧
    (∀ (gA gB : Gateway) (host : String) (port : Port),
      m.GatewaysPerNamespace.flatten = [gA, gB] →
      gA.Servers = [⟨[host], port⟩] → gB.Servers = [⟨[host], port⟩] →
      sameLabels gA.Selector gB.Selector = true → gatewayKey gA ≠ gatewayKey gB →
        ∃ vA vB, mapGet (m.Check family) (gatewayKey gA) = some vA ∧
          mapGet (m.Check family) (gatewayKey gB) = some vB ∧
          vA.References = [gatewayKey gB] ∧ vB.References = [gatewayKey gA] ∧
          vA.Valid = true ∧ vB.Valid = true) := by
  constructor
  · intro A B vA hA hB
    have hsym := symmetric_foldl_recordCollision (collisions (allGatewayHosts family m)) []
      (fun k r hr => by simp [referencesOf, currentValidation, mapGet] at hr)
    have h1 : B ∈ referencesOf (m.Check family) A := by
      rw [referencesOf_of_some hA]; exact hB
    exact mapGet_of_mem_referencesOf (hsym A B h1)
  · intro gA gB host port hm hA hB hsel hkey
    rw [check_two_gateways family m gA gB host port hm hA hB hsel hkey]
    have hkey2 : ¬ gatewayKey gB = gatewayKey gA := fun h => hkey h.symm
    refine ⟨⟨gA.Name, "gateway", true, [conflictCheck (serverHostPath 0 0)], [gatewayKey gB]⟩,
      ⟨gB.Name, "gateway", true, [conflictCheck (serverHostPath 0 0)], [gatewayKey gA]⟩,
      ?_, ?_, rfl, rfl, rfl, rfl⟩
    · simp [mapGet]
    · simp [mapGet, hkey]

/-- C6 at `TestSameHostPortConfigInDifferentNamespace`: both gateways are in the map, each
with one reference to the other. -/
theorem MultiMatchChecker_references_symmetric_witness :
    ∃ vA vB,
      mapGet (MultiMatchChecker.Check mapPortToVirtualServiceProtocol
          ⟨[[⟨"validgateway", "test", [("app", "real")], [⟨["valid"], ⟨80, "http", "http"⟩⟩]⟩],
            [⟨"stillvalid", "bookinfo", [("app", "real")],
              [⟨["valid"], ⟨80, "http", "http"⟩⟩]⟩]]⟩)
        ⟨"gateway", "test", "validgateway"⟩ = some vA ∧
      mapGet (MultiMatchChecker.Check mapPortToVirtualServiceProtocol
          ⟨[[⟨"validgateway", "test", [("app", "real")], [⟨["valid"], ⟨80, "http", "http"⟩⟩]⟩],
            [⟨"stillvalid", "bookinfo", [("app", "real")],
              [⟨["valid"], ⟨80, "http", "http"⟩⟩]⟩]]⟩)
        ⟨"gateway", "bookinfo", "stillvalid"⟩ = some vB ∧
      vA.References = [⟨"gateway", "bookinfo", "stillvalid"⟩] ∧
      vB.References = [⟨"gateway", "test", "validgateway"⟩] ∧
      vA.Valid = true ∧ vB.Valid = true :=
  (MultiMatchChecker_references_symmetric mapPortToVirtualServiceProtocol
      ⟨[[⟨"validgateway", "test", [("app", "real")], [⟨["valid"], ⟨80, "http", "http"⟩⟩]⟩],
        [⟨"stillvalid", "bookinfo", [("app", "real")],
          [⟨["valid"], ⟨80, "http", "http"⟩⟩]⟩]]⟩).2
    ⟨"validgateway", "test", [("app", "real")], [⟨["valid"], ⟨80, "http", "http"⟩⟩]⟩
    ⟨"stillvalid", "bookinfo", [("app", "real")], [⟨["valid"], ⟨80, "http", "http"⟩⟩]⟩
    "valid" ⟨80, "http", "http"⟩ rfl rfl rfl (by decide) (by decide)

/-- C7 (as stated, fails): one gateway declaring `*.echidna.com` and
`tachyglossa.echidna.com` on port 80 shares its selector with no other gateway and repeats
no host string, yet the result map is not empty. -/
theorem MultiMatchChecker_wildcard_within_gateway :
    distinctSelectors
        ⟨[[⟨"shouldnotbevalid", "test", [("app", "monotreme")],
          [⟨["*.echidna.com", "tachyglossa.echidna.com"], ⟨80, "http", "http"⟩⟩]⟩]]⟩ ∧
      noRepeatedHost
        ⟨[[⟨"shouldnotbevalid", "test", [("app", "monotreme")],
          [⟨["*.echidna.com", "tachyglossa.echidna.com"], ⟨80, "http", "http"⟩⟩]⟩]]⟩ ∧
      MultiMatchChecker.Check mapPortToVirtualServiceProtocol
        ⟨[[⟨"shouldnotbevalid", "test", [("app", "monotreme")],
          [⟨["*.echidna.com", "tachyglossa.echidna.com"], ⟨80, "http", "http"⟩⟩]⟩]]⟩ ≠ [] := by
  refine ⟨?_, ?_, ?_⟩
  · unfold distinctSelectors; decide
  · unfold noRepeatedHost; decide
  · decide

/-- C7 (amended): when no two gateways share the same ingress-selector labels and no
gateway declares two hosts that collide with each other (same port and protocol family, one
host subsuming the other ignoring case), `MultiMatchChecker.Check` returns an empty result
map, even when different gateways declare identical host and port. -/
theorem MultiMatchChecker_distinct_selectors_empty (family : String → String)
    (m : MultiMatchChecker) (hsel : distinctSelectors m)
    (hint : noInternalCollision family m) : m.Check family = [] :=
  check_eq_nil_of_pairwise family m hsel hint

/-- C7 (amended) at `TestSameHostPortConfigInDifferentIngress`. -/
theorem MultiMatchChecker_distinct_selectors_empty_witness :
    MultiMatchChecker.Check mapPortToVirtualServiceProtocol
      ⟨[[⟨"validgateway", "test", [("app", "istio-ingress-pub")],
          [⟨["reviews"], ⟨80, "http", "http"⟩⟩]⟩],
        [⟨"stillvalid", "test", [("app", "istio-ingress-prv")],
          [⟨["reviews"], ⟨80, "http", "http"⟩⟩]⟩]]⟩ = [] :=
  MultiMatchChecker_distinct_selectors_empty mapPortToVirtualServiceProtocol _
    (by unfold distinctSelectors; decide) (by unfold noInternalCollision; decide)

/-- C8: `MultiMatchChecker.Check` compares hostnames without regard to letter case: when a
gateway server lists two hosts that differ only in case, the result map holds that gateway's
key with a collision finding at each of the two hosts, and the validation is valid. -/
theorem MultiMatchChecker_case_insensitive (family : String → String) (m : MultiMatchChecker)
    (g : Gateway) (j : Nat) (s : Server) (k1 k2 : Nat) (h1 h2 : String)
    (hg : g ∈ m.GatewaysPerNamespace.flatten) (hs : g.Servers[j]? = some s)
    (hh1 : s.Hosts[k1]? = some h1) (hh2 : s.Hosts[k2]? = some h2) (hne : k1 ≠ k2)
    (hcase : toLower h1 = toLower h2) :
    ∃ v, mapGet (m.Check family) (gatewayKey g) = some v ∧ v.Valid = true ∧
      conflictCheck (serverHostPath j k1) ∈ v.Checks ∧
      conflictCheck (serverHostPath j k2) ∈ v.Checks :=
  check_of_colliding_hosts family m g j s k1 k2 h1 h2 hg hs hh1 hh2 hne
    (by rw [hcase, hostMatches_refl]; rfl)

/-- C8 at `TestCaseMatching`. -/
theorem MultiMatchChecker_case_insensitive_witness :
    ∃ v, mapGet (MultiMatchChecker.Check mapPortToVirtualServiceProtocol
          ⟨[[⟨"foxxed", "test", [("app", "canidae")],
            [⟨["NOTFINE.example.com", "notfine.example.com"], ⟨80, "http", "http"⟩⟩]⟩]]⟩)
        (gatewayKey ⟨"foxxed", "test", [("app", "canidae")],
            [⟨["NOTFINE.example.com", "notfine.example.com"], ⟨80, "http", "http"⟩⟩]⟩)
        = some v ∧ v.Valid = true ∧
      conflictCheck (serverHostPath 0 0) ∈ v.Checks ∧
      conflictCheck (serverHostPath 0 1) ∈ v.Checks :=
  MultiMatchChecker_case_insensitive mapPortToVirtualServiceProtocol
    ⟨[[⟨"foxxed", "test", [("app", "canidae")],
      [⟨["NOTFINE.example.com", "notfine.example.com"], ⟨80, "http", "http"⟩⟩]⟩]]⟩
    ⟨"foxxed", "test", [("app", "canidae")],
      [⟨["NOTFINE.example.com", "notfine.example.com"], ⟨80, "http", "http"⟩⟩]⟩
    0 ⟨["NOTFINE.example.com", "notfine.example.com"], ⟨80, "http", "http"⟩⟩ 0 1
    "NOTFINE.example.com" "notfine.example.com" (by decide) rfl rfl rfl (by decide) (by decide)

/-! ## Accumulating findings -/

/-- A loop that appends the findings of each element and clears the flag on a failing
element returns the concatenated findings and the conjunction of the flags. -/
theorem foldl_findings {ι : Type} (f : ι → List IstioCheck × Bool) (l : List ι)
    (acc : List IstioCheck × Bool) :
    l.foldl (fun a x => (a.1 ++ (f x).1, a.2 && (f x).2)) acc =
      (acc.1 ++ l.flatMap (fun x => (f x).1), acc.2 && l.all (fun x => (f x).2)) := by
  induction l generalizing acc with
  | nil => simp
  | cons x xs ih =>
    rw [List.foldl_cons, ih]
    simp [List.append_assoc, Bool.and_assoc]

/-! ## `NoDestinationChecker` -/

theorem NoDestinationChecker.foldl_subsetStep (cfg : Config) (n : NoDestinationChecker)
    (l : List (Nat × Subset)) (acc : List IstioCheck × Bool) :
    l.foldl (n.subsetStep cfg) acc =
      (acc.1 ++ l.flatMap (fun s => (n.subsetFindings cfg s.1 s.2).1),
        acc.2 && l.all (fun s => (n.subsetFindings cfg s.1 s.2).2)) :=
  foldl_findings (fun s : Nat × Subset => n.subsetFindings cfg s.1 s.2) l acc

theorem NoDestinationChecker.Check_resolved (cfg : Config) (n : NoDestinationChecker)
    (h : n.hasMatchingService cfg = true) :
    n.Check cfg =
      (n.DestinationRule.Subsets.enum.flatMap (fun s => (n.subsetFindings cfg s.1 s.2).1),
        n.DestinationRule.Subsets.enum.all (fun s => (n.subsetFindings cfg s.1 s.2).2)) := by
  simp [NoDestinationChecker.Check, h, NoDestinationChecker.foldl_subsetStep]

theorem NoDestinationChecker.Check_unresolved (cfg : Config) (n : NoDestinationChecker)
    (h : n.hasMatchingService cfg = false) :
    n.Check cfg =
      ([⟨"destinationrules.nodest.matchingregistry", SeverityLevel.ErrorSeverity, "spec/host"⟩],
        false) := by
  simp [NoDestinationChecker.Check, h]

theorem NoDestinationChecker.subsetFindings_flag (cfg : Config) (n : NoDestinationChecker)
    (i : Nat) (s : Subset) :
    (n.subsetFindings cfg i s).2 = false ↔
      ∃ c ∈ (n.subsetFindings cfg i s).1, c.Severity = SeverityLevel.ErrorSeverity := by
  unfold NoDestinationChecker.subsetFindings
  split_ifs <;> simp

theorem NoDestinationChecker.valid_iff (cfg : Config) (n : NoDestinationChecker) :
    (n.Check cfg).2 = false ↔
      ∃ c ∈ (n.Check cfg).1, c.Severity = SeverityLevel.ErrorSeverity := by
  cases h : n.hasMatchingService cfg with
  | false => simp [NoDestinationChecker.Check_unresolved cfg n h]
  | true =>
    rw [NoDestinationChecker.Check_resolved cfg n h]
    simp only [List.all_eq_false, List.mem_flatMap, Bool.not_eq_true]
    constructor
    · rintro ⟨s, hs, hf⟩
      obtain ⟨c, hc, he⟩ := (NoDestinationChecker.subsetFindings_flag cfg n s.1 s.2).1 hf
      exact ⟨c, ⟨s, hs, hc⟩, he⟩
    · rintro ⟨c, ⟨s, hs, hc⟩, he⟩
      exact ⟨s, hs, (NoDestinationChecker.subsetFindings_flag cfg n s.1 s.2).2 ⟨c, hc, he⟩⟩

/-- C3: the valid flag returned by `NoDestinationChecker.Check` is false if and only if at
least one returned check has Error severity; checks of Warning or Unknown severity alone
leave valid true. -/
theorem NoDestinationChecker_valid_iff_no_error (cfg : Config) (n : NoDestinationChecker) :
    ((n.Check cfg).2 = false ↔
      ∃ c ∈ (n.Check cfg).1, c.Severity = SeverityLevel.ErrorSeverity) ∧
    ((∀ c ∈ (n.Check cfg).1, c.Severity = SeverityLevel.WarningSeverity ∨
        c.Severity = SeverityLevel.Unknown) → (n.Check cfg).2 = true) := by
  refine ⟨NoDestinationChecker.valid_iff cfg n, fun h => ?_⟩
  cases hv : (n.Check cfg).2 with
  | true => rfl
  | false =>
    obtain ⟨c, hc, he⟩ := (NoDestinationChecker.valid_iff cfg n).1 hv
    rcases h c hc with h1 | h1 <;> rw [he] at h1 <;> cases h1

/-- C3 at `TestNoLabelsInSubset`: a lone Warning leaves the rule valid. -/
theorem NoDestinationChecker_valid_iff_no_error_witness :
    (NoDestinationChecker.Check ⟨"svc.cluster.local"⟩
      ⟨"test-namespace", [],
        [⟨"reviewsv1", [("app", "reviews"), ("version", "v1")]⟩,
          ⟨"reviewsv2", [("app", "reviews"), ("version", "v2")]⟩],
        ⟨"name", "test-namespace", "reviews", [⟨"v1", []⟩]⟩, [], [],
        [⟨"reviews", "test-namespace", [("app", "reviews")]⟩], []⟩).2 = true :=
  (NoDestinationChecker_valid_iff_no_error ⟨"svc.cluster.local"⟩
      ⟨"test-namespace", [],
        [⟨"reviewsv1", [("app", "reviews"), ("version", "v1")]⟩,
          ⟨"reviewsv2", [("app", "reviews"), ("version", "v2")]⟩],
        ⟨"name", "test-namespace", "reviews", [⟨"v1", []⟩]⟩, [], [],
        [⟨"reviews", "test-namespace", [("app", "reviews")]⟩], []⟩).2
    (by decide)

/-- C4: when `spec.host` matches no live service of the namespace, no service-entry
hostname or wildcard and no registry-status hostname, `NoDestinationChecker.Check` returns
valid false and exactly one check: Error `destinationrules.nodest.matchingregistry` at
`spec/host`; no subset check is emitted. -/
theorem NoDestinationChecker_unresolved_host (cfg : Config) (n : NoDestinationChecker)
    (h1 : n.matchesLiveService cfg = false) (h2 : n.matchesServiceEntry cfg = false)
    (h3 : n.matchesRegistry cfg = false) :
    n.Check cfg =
      ([⟨"destinationrules.nodest.matchingregistry", SeverityLevel.ErrorSeverity, "spec/host"⟩],
        false) :=
  NoDestinationChecker.Check_unresolved cfg n
    (by simp [NoDestinationChecker.hasMatchingService, h1, h2, h3])

/-- C4 at `TestNoValidHost`. -/
theorem NoDestinationChecker_unresolved_host_witness :
    NoDestinationChecker.Check ⟨"svc.cluster.local"⟩
      ⟨"test-namespace", [],
        [⟨"detailsv1", [("app", "details"), ("version", "v1")]⟩,
          ⟨"otherv1", [("app", "other"), ("version", "v1")]⟩],
        ⟨"name", "test-namespace", "reviews",
          [⟨"v2", [("version", "v2")]⟩, ⟨"v1", [("version", "v1")]⟩]⟩, [], [], [], []⟩ =
      ([⟨"destinationrules.nodest.matchingregistry", SeverityLevel.ErrorSeverity, "spec/host"⟩],
        false) :=
  NoDestinationChecker_unresolved_host ⟨"svc.cluster.local"⟩ _ (by decide) (by decide)
    (by decide)

theorem NoDestinationChecker.selectedWorkloads_subset (cfg : Config)
    (n : NoDestinationChecker) : n.selectedWorkloads cfg ⊆ n.WorkloadList := by
  unfold NoDestinationChecker.selectedWorkloads
  split
  · exact fun _ h => h
  · exact fun w hw => (List.mem_filter.1 hw).1

theorem NoDestinationChecker.hasMatchingWorkload_eq_false (cfg : Config)
    (n : NoDestinationChecker) (subsetLabels : Labels)
    (h : ∀ w ∈ n.WorkloadList, labelsIncluded subsetLabels w.Labels = false) :
    n.hasMatchingWorkload cfg subsetLabels = false := by
  unfold NoDestinationChecker.hasMatchingWorkload
  rw [List.any_eq_false]
  intro w hw
  simp [h w (NoDestinationChecker.selectedWorkloads_subset cfg n hw)]

theorem NoDestinationChecker.subsetFindings_unreferenced (cfg : Config)
    (n : NoDestinationChecker) (i : Nat) (s : Subset)
    (h : n.isSubsetReferenced cfg s.Name = false) : (n.subsetFindings cfg i s).2 = true := by
  unfold NoDestinationChecker.subsetFindings
  split_ifs <;> simp_all

/-- C5 (as stated, fails): the host resolves through a service entry, the namespace has no
live workload, and the subset at index 0 declares no labels, so its labels are included in
no live workload's labels. The checker emits the Warning `subsetnolabels` for it, and no
`subsetlabels` check. -/
theorem NoDestinationChecker_subset_without_labels :
    NoDestinationChecker.hasMatchingService ⟨"svc.cluster.local"⟩
        ⟨"test", [], [], ⟨"rule", "test", "sni-proxy.local", [⟨"v1", []⟩]⟩, [],
          [("sni-proxy.local", ["tcp"])], [], []⟩ = true ∧
      (∀ w ∈ ([] : List Workload), labelsIncluded [] w.Labels = false) ∧
      NoDestinationChecker.Check ⟨"svc.cluster.local"⟩
        ⟨"test", [], [], ⟨"rule", "test", "sni-proxy.local", [⟨"v1", []⟩]⟩, [],
          [("sni-proxy.local", ["tcp"])], [], []⟩ =
        ([⟨"destinationrules.nodest.subsetnolabels", SeverityLevel.WarningSeverity,
          "spec/subsets[0]"⟩], true) := by
  refine ⟨by decide, ?_, by decide⟩
  intro w hw
  cases hw

/-- C5 (amended): for a destination rule with a resolved host and a subset at index `i` that
declares at least one label and whose labels are included in no live workload's labels,
`NoDestinationChecker.Check` emits a `destinationrules.nodest.subsetlabels` check at path
`spec/subsets[i]`, of severity Error when some supplied virtual service routes to that host
and subset name (valid is then false) and of severity Unknown otherwise; when no virtual
service references any subset, valid stays true. -/
theorem NoDestinationChecker_unmatched_subset (cfg : Config) (n : NoDestinationChecker)
    (i : Nat) (s : Subset) (hres : n.hasMatchingService cfg = true)
    (hs : n.DestinationRule.Subsets[i]? = some s) (hlab : s.Labels ≠ [])
    (hnone : ∀ w ∈ n.WorkloadList, labelsIncluded s.Labels w.Labels = false) :
    (⟨"destinationrules.nodest.subsetlabels",
        if n.isSubsetReferenced cfg s.Name then SeverityLevel.ErrorSeverity
        else SeverityLevel.Unknown, subsetPath i⟩ : IstioCheck) ∈ (n.Check cfg).1 ∧
    (n.isSubsetReferenced cfg s.Name = true → (n.Check cfg).2 = false) ∧
    ((∀ s2 ∈ n.DestinationRule.Subsets, n.isSubsetReferenced cfg s2.Name = false) →
      (n.Check cfg).2 = true) := by
  have hmem : (i, s) ∈ n.DestinationRule.Subsets.enum := List.mk_mem_enum_iff_getElem?.2 hs
  have hne : s.Labels.isEmpty = false := by
    cases hl : s.Labels with
    | nil => exact absurd hl hlab
    | cons _ _ => rfl
  have hw := NoDestinationChecker.hasMatchingWorkload_eq_false cfg n s.Labels hnone
  rw [NoDestinationChecker.Check_resolved cfg n hres]
  refine ⟨?_, ?_, ?_⟩
  · rw [List.mem_flatMap]
    refine ⟨(i, s), hmem, ?_⟩
    cases hr : n.isSubsetReferenced cfg s.Name <;>
      simp [NoDestinationChecker.subsetFindings, hne, hw, hr]
  · intro hr
    rw [List.all_eq_false]
    refine ⟨(i, s), hmem, ?_⟩
    simp [NoDestinationChecker.subsetFindings, hne, hw, hr]
  · intro hall
    rw [List.all_eq_true]
    intro x hx
    have hx2 : x.2 ∈ n.DestinationRule.Subsets := by
      obtain ⟨k, t⟩ := x
      exact List.mem_iff_getElem?.2 ⟨k, List.mk_mem_enum_iff_getElem?.1 hx⟩
    exact NoDestinationChecker.subsetFindings_unreferenced cfg n x.1 x.2 (hall x.2 hx2)

/-- C5 (amended) at `TestNoMatchingSubset`: subset `v2` matches no workload and a virtual
service routes to it. -/
theorem NoDestinationChecker_unmatched_subset_witness :
    (⟨"destinationrules.nodest.subsetlabels", SeverityLevel.ErrorSeverity, "spec/subsets[0]"⟩
        : IstioCheck) ∈
      (NoDestinationChecker.Check ⟨"svc.cluster.local"⟩
        ⟨"test-namespace", [], [⟨"reviews", [("app", "reviews"), ("version", "v1")]⟩],
          ⟨"name", "test-namespace", "reviews",
            [⟨"v2", [("version", "v2")]⟩, ⟨"v1", [("version", "v1")]⟩]⟩,
          [⟨"reviews", "test-namespace", ["reviews"],
            [⟨"reviews", "v1"⟩, ⟨"reviews", "v2"⟩]⟩], [],
          [⟨"reviews", "test-namespace", [("app", "reviews")]⟩], []⟩).1 :=
  (NoDestinationChecker_unmatched_subset ⟨"svc.cluster.local"⟩
      ⟨"test-namespace", [], [⟨"reviews", [("app", "reviews"), ("version", "v1")]⟩],
        ⟨"name", "test-namespace", "reviews",
          [⟨"v2", [("version", "v2")]⟩, ⟨"v1", [("version", "v1")]⟩]⟩,
        [⟨"reviews", "test-namespace", ["reviews"],
          [⟨"reviews", "v1"⟩, ⟨"reviews", "v2"⟩]⟩], [],
        [⟨"reviews", "test-namespace", [("app", "reviews")]⟩], []⟩
      0 ⟨"v2", [("version", "v2")]⟩ (by decide) rfl (by decide) (by decide)).1

/-! ## `EgressHostChecker` -/

theorem splitSlash_of_not_mem (cs : List Char) (h : '/' ∉ cs) : splitSlash cs = [cs] := by
  induction cs with
  | nil => rfl
  | cons c rest ih =>
    have hc : c ≠ '/' := fun e => h (by simp [e])
    have hr : '/' ∉ rest := fun e => h (List.mem_cons_of_mem _ e)
    simp [splitSlash, hc, ih hr]

theorem getHostComponents_of_no_slash (host : String) (h : containsChar host '/' = false) :
    getHostComponents host = none := by
  have hm : '/' ∉ host.data := by
    intro hmem
    have : containsChar host '/' = true := by
      simp [containsChar, hmem]
    rw [h] at this
    cases this
  simp [getHostComponents, splitSlash_of_not_mem host.data hm]

/-- The findings of one egress listener: those of its hosts, in host order. -/
theorem EgressHostChecker.listenerStep_eq (cfg : Config) (elc : EgressHostChecker)
    (acc : List IstioCheck × Bool) (l : Nat × IstioEgressListener) :
    elc.listenerStep cfg acc l =
      (acc.1 ++ l.2.Hosts.enum.flatMap (fun h => (elc.hostFindings cfg l.1 h.1 h.2).1),
        acc.2 && l.2.Hosts.enum.all (fun h => (elc.hostFindings cfg l.1 h.1 h.2).2)) :=
  foldl_findings (fun h : Nat × String => elc.hostFindings cfg l.1 h.1 h.2) l.2.Hosts.enum acc

theorem EgressHostChecker.Check_eq (cfg : Config) (elc : EgressHostChecker) :
    elc.Check cfg =
      (elc.Sidecar.Egress.enum.flatMap (fun l =>
          l.2.Hosts.enum.flatMap (fun h => (elc.hostFindings cfg l.1 h.1 h.2).1)),
        elc.Sidecar.Egress.enum.all (fun l =>
          l.2.Hosts.enum.all (fun h => (elc.hostFindings cfg l.1 h.1 h.2).2))) := by
  have hstep : elc.listenerStep cfg = fun a l =>
      (a.1 ++ (l.2.Hosts.enum.flatMap (fun h => (elc.hostFindings cfg l.1 h.1 h.2).1),
          l.2.Hosts.enum.all (fun h => (elc.hostFindings cfg l.1 h.1 h.2).2)).1,
        a.2 && (l.2.Hosts.enum.flatMap (fun h => (elc.hostFindings cfg l.1 h.1 h.2).1),
          l.2.Hosts.enum.all (fun h => (elc.hostFindings cfg l.1 h.1 h.2).2)).2) := by
    funext a l
    exact EgressHostChecker.listenerStep_eq cfg elc a l
  unfold EgressHostChecker.Check
  rw [hstep, foldl_findings (fun l : Nat × IstioEgressListener =>
    (l.2.Hosts.enum.flatMap (fun h => (elc.hostFindings cfg l.1 h.1 h.2).1),
      l.2.Hosts.enum.all (fun h => (elc.hostFindings cfg l.1 h.1 h.2).2)))]
  simp

/-- C9: for an egress host string that contains no `/` separator, `EgressHostChecker.Check`
emits for that entry exactly one check: Error `sidecar.egress.invalidhostformat` at path
`spec/egress[i]/hosts[j]`, whatever the services and service entries (no resolution is
attempted), and returns valid false. -/
theorem EgressHostChecker_invalid_host_format (cfg : Config) (elc : EgressHostChecker)
    (i j : Nat) (l : IstioEgressListener) (host : String)
    (hl : elc.Sidecar.Egress[i]? = some l) (hh : l.Hosts[j]? = some host)
    (hno : containsChar host '/' = false) :
    (∀ other : EgressHostChecker, other.hostFindings cfg i j host =
      ([⟨"sidecar.egress.invalidhostformat", SeverityLevel.ErrorSeverity, egressHostPath i j⟩],
        false)) ∧
    (⟨"sidecar.egress.invalidhostformat", SeverityLevel.ErrorSeverity, egressHostPath i j⟩
      : IstioCheck) ∈ (elc.Check cfg).1 ∧
    (elc.Check cfg).2 = false := by
  have hf : ∀ other : EgressHostChecker, other.hostFindings cfg i j host =
      ([⟨"sidecar.egress.invalidhostformat", SeverityLevel.ErrorSeverity, egressHostPath i j⟩],
        false) := by
    intro other
    simp [EgressHostChecker.hostFindings, getHostComponents_of_no_slash host hno]
  have hml : (i, l) ∈ elc.Sidecar.Egress.enum := List.mk_mem_enum_iff_getElem?.2 hl
  have hmh : (j, host) ∈ l.Hosts.enum := List.mk_mem_enum_iff_getElem?.2 hh
  rw [EgressHostChecker.Check_eq]
  refine ⟨hf, ?_, ?_⟩
  · rw [List.mem_flatMap]
    refine ⟨(i, l), hml, ?_⟩
    rw [List.mem_flatMap]
    exact ⟨(j, host), hmh, by simp [hf elc]⟩
  · rw [List.all_eq_false]
    refine ⟨(i, l), hml, ?_⟩
    simp only [Bool.not_eq_true]
    rw [List.all_eq_false]
    exact ⟨(j, host), hmh, by simp [hf elc]⟩

/-- C9 at `TestEgressInvalidHostFormat`. -/
theorem EgressHostChecker_invalid_host_format_witness :
    (∀ other : EgressHostChecker,
      other.hostFindings ⟨"svc.cluster.local"⟩ 0 0 "no-dash-used" =
        ([⟨"sidecar.egress.invalidhostformat", SeverityLevel.ErrorSeverity,
          egressHostPath 0 0⟩], false)) ∧
    (⟨"sidecar.egress.invalidhostformat", SeverityLevel.ErrorSeverity, egressHostPath 0 0⟩
      : IstioCheck) ∈
      (EgressHostChecker.Check ⟨"svc.cluster.local"⟩
        ⟨⟨"sidecar", "bookinfo", [⟨["no-dash-used"]⟩]⟩, [], []⟩).1 ∧
    (EgressHostChecker.Check ⟨"svc.cluster.local"⟩
        ⟨⟨"sidecar", "bookinfo", [⟨["no-dash-used"]⟩]⟩, [], []⟩).2 = false :=
  EgressHostChecker_invalid_host_format ⟨"svc.cluster.local"⟩
    ⟨⟨"sidecar", "bookinfo", [⟨["no-dash-used"]⟩]⟩, [], []⟩ 0 0 ⟨["no-dash-used"]⟩
    "no-dash-used" rfl rfl (by decide)

/-- C10: for a sidecar whose egress host strings are all well-formed,
`EgressHostChecker.Check` returns valid true and emits exactly one Warning check with code
`sidecar.egress.servicenotfound` for each host that resolves to no live service or service
entry, in listener and host-index order, at path `spec/egress[i]/hosts[j]`. -/
theorem EgressHostChecker_wellformed_hosts (cfg : Config) (elc : EgressHostChecker)
    (hwf : ∀ l ∈ elc.Sidecar.Egress, ∀ host ∈ l.Hosts, (getHostComponents host).isSome = true) :
    (elc.Check cfg).2 = true ∧
    (elc.Check cfg).1 =
      elc.Sidecar.Egress.enum.flatMap (fun l =>
        l.2.Hosts.enum.flatMap (fun h =>
          if elc.resolves cfg h.2 then []
          else [⟨"sidecar.egress.servicenotfound", SeverityLevel.WarningSeverity,
            egressHostPath l.1 h.1⟩])) := by
  have hf : ∀ (i j : Nat) (host : String), (getHostComponents host).isSome = true →
      elc.hostFindings cfg i j host =
        (if elc.resolves cfg host then []
          else [⟨"sidecar.egress.servicenotfound", SeverityLevel.WarningSeverity,
            egressHostPath i j⟩], true) := by
    intro i j host hsome
    unfold EgressHostChecker.hostFindings EgressHostChecker.resolves
    cases hc : getHostComponents host with
    | none => rw [hc] at hsome; cases hsome
    | some p =>
      obtain ⟨a, b⟩ := p
      by_cases hr : elc.HasMatchingService cfg a b = true <;> simp [hr]
  have hin : ∀ l ∈ elc.Sidecar.Egress.enum, ∀ h ∈ l.2.Hosts.enum,
      elc.hostFindings cfg l.1 h.1 h.2 =
        (if elc.resolves cfg h.2 then []
          else [⟨"sidecar.egress.servicenotfound", SeverityLevel.WarningSeverity,
            egressHostPath l.1 h.1⟩], true) := by
    intro l hl h hh
    obtain ⟨i, lis⟩ := l
    obtain ⟨j, host⟩ := h
    apply hf
    exact hwf lis (List.mem_iff_getElem?.2 ⟨i, List.mk_mem_enum_iff_getElem?.1 hl⟩) host
      (List.mem_iff_getElem?.2 ⟨j, List.mk_mem_enum_iff_getElem?.1 hh⟩)
  rw [EgressHostChecker.Check_eq]
  constructor
  · rw [List.all_eq_true]
    intro l hl
    rw [List.all_eq_true]
    intro h hh
    rw [hin l hl h hh]
  · apply List.flatMap_congr
    intro l hl
    apply List.flatMap_congr
    intro h hh
    rw [hin l hl h hh]

/-- C10 at `TestEgressServiceNotFound`. -/
theorem EgressHostChecker_wellformed_hosts_witness :
    (EgressHostChecker.Check ⟨"svc.cluster.local"⟩
        ⟨⟨"sidecar", "bookinfo",
          [⟨["bookinfo/boggus.bookinfo.svc.cluster.local", "bookinfo/boggus.org"]⟩]⟩,
          [], []⟩).2 = true :=
  (EgressHostChecker_wellformed_hosts ⟨"svc.cluster.local"⟩
    ⟨⟨"sidecar", "bookinfo",
      [⟨["bookinfo/boggus.bookinfo.svc.cluster.local", "bookinfo/boggus.org"]⟩]⟩, [], []⟩
    (by decide)).1

/-! ## `ServiceEntryHostnames`: keys and listed protocols -/

/-- C14 (as stated, fails): for the single service entry of `TestSNIProxyExample` (host
`sni-proxy.local`, one TCP port) the only key of the map is the bare hostname; it is not a
protocol, lower-cased or mapped, followed by a hostname of the entry. -/
theorem ServiceEntryHostnames_key_without_protocol :
    mapKeys (ServiceEntryHostnames
        [⟨"sni-proxy", "test", ["sni-proxy.local"], [⟨8443, "TCP", "tcp"⟩]⟩]) =
      ["sni-proxy.local"] ∧
    ¬ ∃ port ∈ ([⟨8443, "TCP", "tcp"⟩] : List Port), ∃ h ∈ ["sni-proxy.local"],
        "sni-proxy.local" = toLower port.Protocol ++ h ∨
          "sni-proxy.local" = mapPortToVirtualServiceProtocol port.Protocol ++ h := by
  decide

/-- C14 (amended): every key of the map returned by `ServiceEntryHostnames` is a hostname
declared in the `spec.hosts` of some service entry, as written there. -/
theorem ServiceEntryHostnames_key_is_hostname (ses : List ServiceEntry) (k : String)
    (hk : k ∈ mapKeys (ServiceEntryHostnames ses)) : ∃ se ∈ ses, k ∈ se.Hosts := by
  unfold ServiceEntryHostnames at hk
  rw [mem_mapKeys_foldl_serviceEntryStep] at hk
  rcases hk with h | h
  · exact h
  · simp [mapKeys] at h

/-- C14 (amended) at `TestSNIProxyExample`. -/
theorem ServiceEntryHostnames_key_is_hostname_witness :
    ∃ se ∈ ([⟨"sni-proxy", "test", ["sni-proxy.local"], [⟨8443, "TCP", "tcp"⟩]⟩] :
        List ServiceEntry), "sni-proxy.local" ∈ se.Hosts :=
  ServiceEntryHostnames_key_is_hostname
    [⟨"sni-proxy", "test", ["sni-proxy.local"], [⟨8443, "TCP", "tcp"⟩]⟩] "sni-proxy.local"
    (by decide)

theorem mapPortToVirtualServiceProtocol_known (proto : String) :
    mapPortToVirtualServiceProtocol proto = "http" ∨
      mapPortToVirtualServiceProtocol proto = "tls" ∨
      mapPortToVirtualServiceProtocol proto = "tcp" := by
  unfold mapPortToVirtualServiceProtocol
  split_ifs <;> simp

theorem mem_of_mapGet {α β : Type} [DecidableEq α] {m : List (α × β)} {k : α} {v : β}
    (h : mapGet m k = some v) : (k, v) ∈ m := by
  induction m with
  | nil => simp [mapGet] at h
  | cons kv rest ih =>
    obtain ⟨a, b⟩ := kv
    by_cases hak : a = k
    · simp [mapGet, hak] at h
      simp [hak, h]
    · simp [mapGet, hak] at h
      exact List.mem_cons_of_mem _ (ih h)

theorem mem_mapSet {α β : Type} [DecidableEq α] {m : List (α × β)} {k : α} {v : β}
    {kv : α × β} (h : kv ∈ mapSet m k v) : kv ∈ m ∨ kv = (k, v) := by
  induction m with
  | nil => simpa [mapSet] using h
  | cons x rest ih =>
    obtain ⟨a, b⟩ := x
    by_cases hak : a = k
    · simp only [mapSet, hak, if_true, List.mem_cons] at h
      rcases h with h | h
      · exact Or.inr h
      · exact Or.inl (List.mem_cons_of_mem _ h)
    · simp only [mapSet, hak, if_false, List.mem_cons] at h
      rcases h with h | h
      · exact Or.inl (by simp [h])
      · rcases ih h with h2 | h2
        · exact Or.inl (List.mem_cons_of_mem _ h2)
        · exact Or.inr h2

/-- Every protocol stored in the map is one of `http`, `tls`, `tcp`. -/
theorem serviceEntryStep_known (m : HostMap) (v : ServiceEntry)
    (hm : ∀ kv ∈ m, ∀ p ∈ kv.2, p = "http" ∨ p = "tls" ∨ p = "tcp") :
    ∀ kv ∈ serviceEntryStep m v, ∀ p ∈ kv.2, p = "http" ∨ p = "tls" ∨ p = "tcp" := by
  unfold serviceEntryStep
  have hclear : ∀ (hosts : List String) (m0 : HostMap),
      (∀ kv ∈ m0, ∀ p ∈ kv.2, p = "http" ∨ p = "tls" ∨ p = "tcp") →
      ∀ kv ∈ hosts.foldl (fun m host => mapSet m host []) m0, ∀ p ∈ kv.2,
        p = "http" ∨ p = "tls" ∨ p = "tcp" := by
    intro hosts
    induction hosts with
    | nil => intro m0 h0; exact h0
    | cons x xs ih =>
      intro m0 h0
      rw [List.foldl_cons]
      apply ih
      intro kv hkv p hp
      rcases mem_mapSet hkv with h1 | h1
      · exact h0 kv h1 p hp
      · rw [h1] at hp; cases hp
  have hports : ∀ (ports : List Port) (m0 : HostMap),
      (∀ kv ∈ m0, ∀ p ∈ kv.2, p = "http" ∨ p = "tls" ∨ p = "tcp") →
      ∀ kv ∈ ports.foldl
          (fun m port => appendProtocol m (mapPortToVirtualServiceProtocol port.Protocol)) m0,
        ∀ p ∈ kv.2, p = "http" ∨ p = "tls" ∨ p = "tcp" := by
    intro ports
    induction ports with
    | nil => intro m0 h0; exact h0
    | cons x xs ih =>
      intro m0 h0
      rw [List.foldl_cons]
      apply ih
      intro kv hkv p hp
      simp only [appendProtocol, List.mem_map] at hkv
      obtain ⟨old, hold, rfl⟩ := hkv
      simp only [List.mem_append, List.mem_singleton] at hp
      rcases hp with hp | hp
      · exact h0 old hold p hp
      · rw [hp]; exact mapPortToVirtualServiceProtocol_known _
  exact hports v.Ports _ (hclear v.Hosts m hm)

theorem foldl_serviceEntryStep_known (ses : List ServiceEntry) (m : HostMap)
    (hm : ∀ kv ∈ m, ∀ p ∈ kv.2, p = "http" ∨ p = "tls" ∨ p = "tcp") :
    ∀ kv ∈ ses.foldl serviceEntryStep m, ∀ p ∈ kv.2, p = "http" ∨ p = "tls" ∨ p = "tcp" := by
  induction ses generalizing m with
  | nil => exact hm
  | cons x xs ih =>
    rw [List.foldl_cons]
    exact ih _ (serviceEntryStep_known m x hm)

/-- C17: `mapPortToVirtualServiceProtocol` returns `http` exactly for `HTTP`, `HTTP2` and
`GRPC`, `tls` exactly for `HTTPS` and `TLS`, and `tcp` for every other string, lower-case
spellings such as `http` included; hence every protocol in a `ServiceEntryHostnames` result
is one of `http`, `tls`, `tcp`. -/
theorem mapPortToVirtualServiceProtocol_cases (proto : String) :
    (mapPortToVirtualServiceProtocol proto = "http" ↔
      proto = "HTTP" ∨ proto = "HTTP2" ∨ proto = "GRPC") ∧
    (mapPortToVirtualServiceProtocol proto = "tls" ↔ proto = "HTTPS" ∨ proto = "TLS") ∧
    (proto ≠ "HTTP" → proto ≠ "HTTP2" → proto ≠ "GRPC" → proto ≠ "HTTPS" → proto ≠ "TLS" →
      mapPortToVirtualServiceProtocol proto = "tcp") ∧
    mapPortToVirtualServiceProtocol "http" = "tcp" ∧
    (∀ (ses : List ServiceEntry) (h : String) (ps : List String) (p : String),
      mapGet (ServiceEntryHostnames ses) h = some ps → p ∈ ps →
        p = "http" ∨ p = "tls" ∨ p = "tcp") := by
  refine ⟨?_, ?_, ?_, by decide, ?_⟩
  · unfold mapPortToVirtualServiceProtocol
    constructor
    · intro h
      split_ifs at h with h1 h2 h3 h4 h5
      · exact Or.inl h1
      · exact Or.inr (Or.inl h2)
      · exact Or.inr (Or.inr h3)
      · exact absurd h (by decide)
      · exact absurd h (by decide)
      · exact absurd h (by decide)
    · rintro (h | h | h) <;> subst h <;> decide
  · unfold mapPortToVirtualServiceProtocol
    constructor
    · intro h
      split_ifs at h with h1 h2 h3 h4 h5
      · exact absurd h (by decide)
      · exact absurd h (by decide)
      · exact absurd h (by decide)
      · exact Or.inl h4
      · exact Or.inr h5
      · exact absurd h (by decide)
    · rintro (h | h) <;> subst h <;> decide
  · intro h1 h2 h3 h4 h5
    simp [mapPortToVirtualServiceProtocol, h1, h2, h3, h4, h5]
  · intro ses h ps p hget hp
    exact foldl_serviceEntryStep_known ses [] (fun kv hkv => by cases hkv) (h, ps)
      (mem_of_mapGet hget) p hp

/-- C17 at the lower-case spelling `https` and at `TestSNIProxyExample`. -/
theorem mapPortToVirtualServiceProtocol_cases_witness :
    mapPortToVirtualServiceProtocol "https" = "tcp" ∧
      ("tcp" = "http" ∨ "tcp" = "tls" ∨ "tcp" = "tcp") :=
  ⟨(mapPortToVirtualServiceProtocol_cases "https").2.2.1 (by decide) (by decide) (by decide)
      (by decide) (by decide),
    (mapPortToVirtualServiceProtocol_cases "https").2.2.2.2
      [⟨"sni-proxy", "test", ["sni-proxy.local"], [⟨8443, "TCP", "tcp"⟩]⟩] "sni-proxy.local"
      ["tcp"] "tcp" (by decide) (by decide)⟩

/-! ## `MatchPortNameRule` and `ValidatePort` -/

theorem hasPrefix_iff (s t : String) :
    hasPrefix s t = true ↔ ∃ rest : String, s = t ++ rest := by
  unfold hasPrefix
  rw [List.isPrefixOf_iff_prefix]
  constructor
  · rintro ⟨l, hl⟩
    exact ⟨⟨l⟩, String.ext (by simp [String.data_append, hl])⟩
  · rintro ⟨rest, rfl⟩
    exact ⟨rest.data, by simp [String.data_append]⟩

theorem portNameMatcher_iff (s : String) :
    portNameMatcher s = true ↔ ∃ suffix : String, s = "-" ++ suffix := by
  unfold portNameMatcher
  constructor
  · intro h
    cases hs : s.data with
    | nil => simp [hs] at h
    | cons c cs =>
      simp only [hs, decide_eq_true_eq] at h
      refine ⟨⟨cs⟩, String.ext ?_⟩
      simp [String.data_append, hs, h]
  · rintro ⟨suffix, rfl⟩
    simp [String.data_append]

/-- What `MatchPortNameRule` accepts when the protocol is neither tcp nor udp and the port
name is longer than the protocol: the names made of the lower-case protocol, a dash and any
suffix, the empty suffix included. -/
theorem MatchPortNameRule_longer_name (portName protocol : String)
    (h1 : toLower protocol ≠ "tcp") (h2 : toLower protocol ≠ "udp")
    (hlen : portName.data.length > (toLower protocol).data.length) :
    MatchPortNameRule portName protocol = true ↔
      ∃ suffix : String, portName = toLower protocol ++ ("-" ++ suffix) := by
  unfold MatchPortNameRule
  simp only [h1, h2, or_self, if_false]
  cases hp : hasPrefix portName (toLower protocol) with
  | false =>
    simp only [Bool.not_false, if_true]
    constructor
    · intro h; cases h
    · rintro ⟨suffix, hs⟩
      have : hasPrefix portName (toLower protocol) = true :=
        (hasPrefix_iff _ _).2 ⟨"-" ++ suffix, hs⟩
      rw [hp] at this
      cases this
  | true =>
    obtain ⟨rest, hrest⟩ := (hasPrefix_iff _ _).1 hp
    have hdrop : (⟨portName.data.drop (toLower protocol).data.length⟩ : String) = rest := by
      apply String.ext
      simp [hrest, String.data_append]
    simp only [Bool.not_true, if_false, hlen, if_true, hdrop, Bool.false_eq_true]
    rw [portNameMatcher_iff]
    constructor
    · rintro ⟨suffix, rfl⟩
      exact ⟨suffix, hrest⟩
    · rintro ⟨suffix, hs⟩
      refine ⟨suffix, ?_⟩
      rw [hrest] at hs
      have := congrArg String.data hs
      simp only [String.data_append, List.append_cancel_left_eq] at this
      exact String.ext (by simpa [String.data_append] using this)

/-- The accepted names at `http-web`. -/
theorem MatchPortNameRule_longer_name_witness :
    MatchPortNameRule "http-web" "HTTP" = true ↔
      ∃ suffix : String, "http-web" = toLower "HTTP" ++ ("-" ++ suffix) :=
  MatchPortNameRule_longer_name "http-web" "HTTP" (by decide) (by decide) (by decide)

/-- C15 (failing input): for port name `http-` and protocol `HTTP` (not tcp or udp, the name
longer than the protocol) `MatchPortNameRule` returns true, although nothing follows the
dash: the name is not the lower-case protocol, a dash and a non-empty suffix. -/
theorem MatchPortNameRule_dash_without_suffix :
    MatchPortNameRule "http-" "HTTP" = true ∧
    toLower "HTTP" ≠ "tcp" ∧ toLower "HTTP" ≠ "udp" ∧
    ("http-" : String).data.length > (toLower "HTTP").data.length ∧
    ¬ ∃ suffix : String, suffix ≠ "" ∧ "http-" = toLower "HTTP" ++ ("-" ++ suffix) := by
  refine ⟨by decide, by decide, by decide, by decide, ?_⟩
  rintro ⟨suffix, hne, hs⟩
  have h := congrArg String.data hs
  have hl : toLower "HTTP" = "http" := by decide
  rw [hl] at h
  simp only [String.data_append] at h
  have h2 : suffix.data = [] := by
    have hlen := congrArg List.length h
    simp only [List.length_append] at hlen
    have h5 : ("http-" : String).data.length = 5 := by decide
    have h4 : ("http" : String).data.length = 4 := by decide
    have h1 : ("-" : String).data.length = 1 := by decide
    rw [h5, h4, h1] at hlen
    exact List.length_eq_zero.1 (by omega)
  exact hne (String.ext h2)

/-- C16: for every port name, the empty one included, and every protocol equal to `tcp` or
`udp` in any letter case, `MatchPortNameRule` returns true; `ValidatePort` returns false for
a nil port definition and otherwise equals `MatchPortNameRule` applied to the definition's
name and protocol. -/
theorem MatchPortNameRule_tcp_udp (portName protocol : String)
    (h : toLower protocol = "tcp" ∨ toLower protocol = "udp") :
    MatchPortNameRule portName protocol = true ∧
    ValidatePort none = false ∧
    (∀ portDef : Port,
      ValidatePort (some portDef) = MatchPortNameRule portDef.Name portDef.Protocol) := by
  refine ⟨?_, rfl, fun _ => rfl⟩
  unfold MatchPortNameRule
  simp only [h, if_true]

/-- C16 at the empty port name with protocol `UdP`. -/
theorem MatchPortNameRule_tcp_udp_witness :
    MatchPortNameRule "" "UdP" = true ∧
    ValidatePort none = false ∧
    (∀ portDef : Port,
      ValidatePort (some portDef) = MatchPortNameRule portDef.Name portDef.Protocol) :=
  MatchPortNameRule_tcp_udp "" "UdP" (by decide)

/-! ## Mutual TLS -/

/-- C18: for a peer authentication that has targets (a selector with at least one match
label) `PeerAuthnHasMTLSEnabled` returns `(false, "")` and `PeerAuthnHasStrictMTLS` returns
false, whatever its mtls mode. -/
theorem PeerAuthnHasMTLSEnabled_with_targets (peerAuthn : PeerAuthentication)
    (sel : WorkloadSelector) (hsel : peerAuthn.Selector = some sel)
    (hlabels : sel.MatchLabels ≠ []) :
    PeerAuthnHasMTLSEnabled peerAuthn = (false, "") ∧
      PeerAuthnHasStrictMTLS peerAuthn = false := by
  have _hasTargets : 0 < sel.MatchLabels.length := List.length_pos.2 hlabels
  have h1 : PeerAuthnHasMTLSEnabled peerAuthn = (false, "") := by
    simp [PeerAuthnHasMTLSEnabled, hsel]
  refine ⟨h1, ?_⟩
  simp [PeerAuthnHasStrictMTLS, h1]

/-- C18 at a peer authentication in STRICT mode that selects `app=details`. -/
theorem PeerAuthnHasMTLSEnabled_with_targets_witness :
    PeerAuthnHasMTLSEnabled ⟨some ⟨[("app", "details")]⟩, some MutualTLSMode.STRICT⟩
        = (false, "") ∧
      PeerAuthnHasStrictMTLS ⟨some ⟨[("app", "details")]⟩, some MutualTLSMode.STRICT⟩
        = false :=
  PeerAuthnHasMTLSEnabled_with_targets ⟨some ⟨[("app", "details")]⟩, some MutualTLSMode.STRICT⟩
    ⟨[("app", "details")]⟩ rfl (by decide)

theorem tlsModeString_eq_istio_mutual (m : TLSmode) :
    tlsModeString m = "ISTIO_MUTUAL" ↔ m = TLSmode.ISTIO_MUTUAL := by
  cases m <;> decide

/-- C19: `DestinationRuleHasMeshWideMTLSEnabled` returns `(true, "ISTIO_MUTUAL")` if and
only if `spec.host` is exactly `*.local` and the traffic policy's TLS mode is ISTIO_MUTUAL;
when the host is anything else it returns `(false, "")`, and when the host is `*.local`
with another TLS mode it returns false with that mode's name. -/
theorem DestinationRuleHasMeshWideMTLSEnabled_iff (destinationRule : MTLSDestinationRule) :
    (DestinationRuleHasMeshWideMTLSEnabled destinationRule = (true, "ISTIO_MUTUAL") ↔
      destinationRule.Host = "*.local" ∧
        ∃ policy, destinationRule.TrafficPolicy = some policy ∧
          policy.Tls = some TLSmode.ISTIO_MUTUAL) ∧
    (destinationRule.Host ≠ "*.local" →
      DestinationRuleHasMeshWideMTLSEnabled destinationRule = (false, "")) ∧
    (∀ (policy : TrafficPolicy) (m : TLSmode), destinationRule.Host = "*.local" →
      destinationRule.TrafficPolicy = some policy → policy.Tls = some m →
      m ≠ TLSmode.ISTIO_MUTUAL →
        DestinationRuleHasMeshWideMTLSEnabled destinationRule = (false, tlsModeString m)) := by
  obtain ⟨host, tp⟩ := destinationRule
  have hne : ("*.local" : String) ≠ "" := by decide
  refine ⟨?_, ?_, ?_⟩
  · simp only [DestinationRuleHasMeshWideMTLSEnabled, DestinationRuleHasMTLSEnabledForHost]
    by_cases hh : host = "*.local"
    · subst hh
      simp only [hne, ne_eq, not_true_eq_false, or_self, if_false, true_and]
      unfold DestinationRuleHasMTLSEnabled
      cases tp with
      | none => simp
      | some policy =>
        obtain ⟨tls⟩ := policy
        cases tls with
        | none => simp
        | some m => cases m <;> simp [tlsModeString]
    · simp [hh]
  · intro hh
    simp [DestinationRuleHasMeshWideMTLSEnabled, DestinationRuleHasMTLSEnabledForHost, hh]
  · intro policy m hh htp htls hm
    simp only at hh htp
    subst hh
    subst htp
    have hs : tlsModeString m ≠ "ISTIO_MUTUAL" :=
      fun h => hm ((tlsModeString_eq_istio_mutual m).1 h)
    simp [DestinationRuleHasMeshWideMTLSEnabled, DestinationRuleHasMTLSEnabledForHost,
      DestinationRuleHasMTLSEnabled, htls, hs]

/-- C19 at the mesh-wide host `*.local` with TLS mode SIMPLE. -/
theorem DestinationRuleHasMeshWideMTLSEnabled_iff_witness :
    DestinationRuleHasMeshWideMTLSEnabled ⟨"*.local", some ⟨some TLSmode.SIMPLE⟩⟩
      = (false, "SIMPLE") :=
  (DestinationRuleHasMeshWideMTLSEnabled_iff ⟨"*.local", some ⟨some TLSmode.SIMPLE⟩⟩).2.2
    ⟨some TLSmode.SIMPLE⟩ TLSmode.SIMPLE rfl rfl rfl (by decide)

/-! ## `getIstiodDebugStatus` -/

theorem mem_mapKeys_foldl_mapSet_pairs {α β : Type} [DecidableEq α] (l : List (α × β))
    (m : List (α × β)) (k : α) :
    k ∈ mapKeys (l.foldl (fun m kv => mapSet m kv.1 kv.2) m) ↔
      k ∈ l.map Prod.fst ∨ k ∈ mapKeys m := by
  induction l generalizing m with
  | nil => simp
  | cons x xs ih =>
    rw [List.foldl_cons, ih, mem_mapKeys_mapSet, List.map_cons, List.mem_cons]
    tauto

theorem mapGet_foldl_mapSet_pairs_of_not_mem {α β : Type} [DecidableEq α] (l : List (α × β))
    (m : List (α × β)) (k : α) (hk : k ∉ l.map Prod.fst) :
    mapGet (l.foldl (fun m kv => mapSet m kv.1 kv.2) m) k = mapGet m k := by
  induction l generalizing m with
  | nil => rfl
  | cons x xs ih =>
    simp only [List.map_cons, List.mem_cons, not_or] at hk
    rw [List.foldl_cons, ih _ hk.2, mapGet_mapSet, if_neg (fun h => hk.1 h.symm)]

theorem mem_of_mapGet_foldl_mapSet_pairs {α β : Type} [DecidableEq α] (l : List (α × β))
    (m : List (α × β)) (k : α) (v : β)
    (h : mapGet (l.foldl (fun m kv => mapSet m kv.1 kv.2) m) k = some v) :
    (k, v) ∈ l ∨ mapGet m k = some v := by
  induction l generalizing m with
  | nil => exact Or.inr h
  | cons x xs ih =>
    rw [List.foldl_cons] at h
    rcases ih _ h with h1 | h1
    · exact Or.inl (List.mem_cons_of_mem _ h1)
    · rw [mapGet_mapSet] at h1
      by_cases hx : x.1 = k
      · rw [if_pos hx] at h1
        left
        have : x = (k, v) := Prod.ext hx (Option.some.inj h1)
        rw [this]
        exact List.mem_cons_self _ _
      · rw [if_neg hx] at h1
        exact Or.inr h1

theorem mapGet_foldl_mapSet_pairs_of_nodup {α β : Type} [DecidableEq α] (l : List (α × β))
    (m : List (α × β)) (k : α) (v : β) (hnd : (l.map Prod.fst).Nodup) (hmem : (k, v) ∈ l) :
    mapGet (l.foldl (fun m kv => mapSet m kv.1 kv.2) m) k = some v := by
  induction l generalizing m with
  | nil => cases hmem
  | cons x xs ih =>
    rw [List.map_cons, List.nodup_cons] at hnd
    rw [List.foldl_cons]
    rcases List.mem_cons.1 hmem with hx | hx
    · subst hx
      rw [mapGet_foldl_mapSet_pairs_of_not_mem xs _ _ hnd.1, mapGet_mapSet, if_pos rfl]
    · exact ih _ hnd.2 hx

theorem mem_debugResponses (client : K8SClient) (debugPath : String) (completion : List Pod)
    (name res : String) :
    (name, res) ∈ debugResponses client debugPath completion ↔
      ∃ p ∈ completion, p.Name = name ∧ debugRequest client debugPath p = Except.ok res := by
  unfold debugResponses
  rw [List.mem_filterMap]
  constructor
  · rintro ⟨p, hp, h⟩
    refine ⟨p, hp, ?_⟩
    cases hr : debugRequest client debugPath p with
    | error e => simp [hr] at h
    | ok r =>
      simp only [hr, Option.some.injEq, Prod.mk.injEq] at h
      exact ⟨h.1, by rw [h.2]⟩
  · rintro ⟨p, hp, hn, hr⟩
    exact ⟨p, hp, by simp [hr, hn]⟩

theorem debugResponses_map_fst_sublist (client : K8SClient) (debugPath : String)
    (completion : List Pod) :
    ((debugResponses client debugPath completion).map Prod.fst).Sublist
      (completion.map (fun p => p.Name)) := by
  induction completion with
  | nil => exact List.Sublist.slnil
  | cons p ps ih =>
    unfold debugResponses at ih ⊢
    rw [List.filterMap_cons]
    cases hr : debugRequest client debugPath p with
    | error e => simpa [hr] using ih.cons p.Name
    | ok r => simpa [hr] using ih.cons₂ p.Name

/-- Past the pod listing, the health filter and the `/ready` probe, the function returns the
collected responses, or the joined errors when there is none. -/
theorem getIstiodDebugStatus_fan_out (client : K8SClient) (debugPath : String)
    (istiods completion : List Pod)
    (hpods : client.GetPods client.IstioNamespace "app=istiod" = Except.ok istiods)
    (hhealthy : healthyIstiods istiods ≠ [])
    (hready : ∀ first ∈ istiods.head?, ∃ r,
      client.ForwardGetRequest client.IstioNamespace first.Name 8080 "/ready" = Except.ok r) :
    getIstiodDebugStatus client debugPath completion =
      if ((debugResponses client debugPath completion).foldl
          (fun m kv => mapSet m kv.1 kv.2) []).length > 0 then
        Except.ok ((debugResponses client debugPath completion).foldl
          (fun m kv => mapSet m kv.1 kv.2) [])
      else
        Except.error ("Error fetching the proxy-status in the following pods: " ++
          joinErrors (debugErrors client debugPath completion)) := by
  unfold getIstiodDebugStatus
  have hlen : ¬ (healthyIstiods istiods).length = 0 := fun h =>
    hhealthy (List.length_eq_zero.1 h)
  cases istiods with
  | nil => exact absurd rfl hhealthy
  | cons first rest =>
    obtain ⟨r, hr⟩ := hready first (by simp)
    simp only [hpods, hlen, if_false, hr]

/-- C12: once the replicas are queried (the pods are listed, one at least is running and
the `/ready` probe answers), whatever the order in which the requests complete: when at
least one replica's debug request succeeds the call succeeds, the keys of its result are
the names of the replicas that succeeded and every entry is the response of such a replica
(the response of each of them when replica names are distinct); the call fails exactly when
all replicas fail. -/
theorem getIstiodDebugStatus_partial_success (client : K8SClient) (debugPath : String)
    (istiods completion : List Pod)
    (hpods : client.GetPods client.IstioNamespace "app=istiod" = Except.ok istiods)
    (hhealthy : healthyIstiods istiods ≠ [])
    (hready : ∀ first ∈ istiods.head?, ∃ r,
      client.ForwardGetRequest client.IstioNamespace first.Name 8080 "/ready" = Except.ok r)
    (hperm : completion.Perm (healthyIstiods istiods)) :
    ((∃ p ∈ healthyIstiods istiods, ∃ res, debugRequest client debugPath p = Except.ok res) →
      ∃ result, getIstiodDebugStatus client debugPath completion = Except.ok result ∧
        (∀ name, name ∈ mapKeys result ↔
          ∃ p ∈ healthyIstiods istiods, p.Name = name ∧
            ∃ res, debugRequest client debugPath p = Except.ok res) ∧
        (∀ name res, mapGet result name = some res →
          ∃ p ∈ healthyIstiods istiods, p.Name = name ∧
            debugRequest client debugPath p = Except.ok res) ∧
        (((healthyIstiods istiods).map (fun p => p.Name)).Nodup →
          ∀ p ∈ healthyIstiods istiods, ∀ res,
            debugRequest client debugPath p = Except.ok res →
              mapGet result p.Name = some res)) ∧
    ((∃ e, getIstiodDebugStatus client debugPath completion = Except.error e) ↔
      ∀ p ∈ healthyIstiods istiods, ∃ e, debugRequest client debugPath p = Except.error e) := by
  rw [getIstiodDebugStatus_fan_out client debugPath istiods completion hpods hhealthy hready]
  have hkeys : ∀ name, name ∈ mapKeys ((debugResponses client debugPath completion).foldl
        (fun m kv => mapSet m kv.1 kv.2) []) ↔
      ∃ p ∈ healthyIstiods istiods, p.Name = name ∧
        ∃ res, debugRequest client debugPath p = Except.ok res := by
    intro name
    rw [mem_mapKeys_foldl_mapSet_pairs]
    simp only [mapKeys, List.map_nil, List.not_mem_nil, or_false, List.mem_map, Prod.exists,
      exists_and_right, exists_eq_right]
    constructor
    · rintro ⟨res, hres⟩
      obtain ⟨p, hp, hn, hr⟩ := (mem_debugResponses _ _ _ _ _).1 hres
      exact ⟨p, hperm.mem_iff.1 hp, hn, res, hr⟩
    · rintro ⟨p, hp, hn, res, hr⟩
      exact ⟨res, (mem_debugResponses _ _ _ _ _).2 ⟨p, hperm.mem_iff.2 hp, hn, hr⟩⟩
  constructor
  · rintro ⟨p, hp, res, hr⟩
    have hk : p.Name ∈ mapKeys ((debugResponses client debugPath completion).foldl
        (fun m kv => mapSet m kv.1 kv.2) []) := (hkeys p.Name).2 ⟨p, hp, rfl, res, hr⟩
    have hpos : ((debugResponses client debugPath completion).foldl
        (fun m kv => mapSet m kv.1 kv.2) []).length > 0 := by
      have : 0 < (mapKeys ((debugResponses client debugPath completion).foldl
          (fun m kv => mapSet m kv.1 kv.2) [])).length := List.length_pos_of_mem hk
      simpa [mapKeys] using this
    refine ⟨_, by rw [if_pos hpos], hkeys, ?_, ?_⟩
    · intro name r hget
      rcases mem_of_mapGet_foldl_mapSet_pairs _ _ _ _ hget with h | h
      · obtain ⟨q, hq, hn, hqr⟩ := (mem_debugResponses _ _ _ _ _).1 h
        exact ⟨q, hperm.mem_iff.1 hq, hn, hqr⟩
      · simp [mapGet] at h
    · intro hnd q hq r hqr
      have hnd2 : ((debugResponses client debugPath completion).map Prod.fst).Nodup :=
        List.Nodup.sublist (debugResponses_map_fst_sublist client debugPath completion)
          ((hperm.map (fun p => p.Name)).nodup_iff.2 hnd)
      exact mapGet_foldl_mapSet_pairs_of_nodup _ _ _ _ hnd2
        ((mem_debugResponses _ _ _ _ _).2 ⟨q, hperm.mem_iff.2 hq, rfl, hqr⟩)
  · constructor
    · rintro ⟨e, he⟩ p hp
      cases hr : debugRequest client debugPath p with
      | error e2 => exact ⟨e2, rfl⟩
      | ok res =>
        exfalso
        have hk : p.Name ∈ mapKeys ((debugResponses client debugPath completion).foldl
            (fun m kv => mapSet m kv.1 kv.2) []) := (hkeys p.Name).2 ⟨p, hp, rfl, res, hr⟩
        have hpos : ((debugResponses client debugPath completion).foldl
            (fun m kv => mapSet m kv.1 kv.2) []).length > 0 := by
          have : 0 < (mapKeys ((debugResponses client debugPath completion).foldl
              (fun m kv => mapSet m kv.1 kv.2) [])).length := List.length_pos_of_mem hk
          simpa [mapKeys] using this
        rw [if_pos hpos] at he
        cases he
    · intro hall
      have hnil : debugResponses client debugPath completion = [] := by
        rw [List.eq_nil_iff_forall_not_mem]
        rintro ⟨name, res⟩ hmem
        obtain ⟨q, hq, _, hqr⟩ := (mem_debugResponses _ _ _ _ _).1 hmem
        obtain ⟨e, he⟩ := hall q (hperm.mem_iff.1 hq)
        rw [he] at hqr
        cases hqr
      exact ⟨"Error fetching the proxy-status in the following pods: " ++
        joinErrors (debugErrors client debugPath completion), by simp [hnil]⟩

/-- C12 at two running replicas of which `istiod-a` times out, `istiod-b` completing
first. -/
theorem getIstiodDebugStatus_partial_success_witness :
    ∃ result,
      getIstiodDebugStatus
        ⟨"istio-system",
          fun _ _ => Except.ok [⟨"istiod-a", "istio-system", "Running"⟩,
            ⟨"istiod-b", "istio-system", "Running"⟩],
          fun _ name port _ =>
            if port = 8080 then Except.ok ""
            else if name = "istiod-a" then Except.error "timeout" else Except.ok "[]"⟩
        "/debug/syncz"
        [⟨"istiod-b", "istio-system", "Running"⟩, ⟨"istiod-a", "istio-system", "Running"⟩]
        = Except.ok result ∧
      mapGet result "istiod-b" = some "[]" := by
  obtain ⟨result, hres, _, _, hall⟩ :=
    (getIstiodDebugStatus_partial_success
      ⟨"istio-system",
        fun _ _ => Except.ok [⟨"istiod-a", "istio-system", "Running"⟩,
          ⟨"istiod-b", "istio-system", "Running"⟩],
        fun _ name port _ =>
          if port = 8080 then Except.ok ""
          else if name = "istiod-a" then Except.error "timeout" else Except.ok "[]"⟩
      "/debug/syncz"
      [⟨"istiod-a", "istio-system", "Running"⟩, ⟨"istiod-b", "istio-system", "Running"⟩]
      [⟨"istiod-b", "istio-system", "Running"⟩, ⟨"istiod-a", "istio-system", "Running"⟩]
      rfl (by decide) (fun first hf => ⟨"", by simp at hf; subst hf; rfl⟩)
      (by
        have h : healthyIstiods [⟨"istiod-a", "istio-system", "Running"⟩,
            ⟨"istiod-b", "istio-system", "Running"⟩] =
            [⟨"istiod-a", "istio-system", "Running"⟩,
              ⟨"istiod-b", "istio-system", "Running"⟩] := by decide
        rw [h]
        exact List.Perm.swap _ _ _)).1
      ⟨⟨"istiod-b", "istio-system", "Running"⟩, by decide, "[]", rfl⟩
  exact ⟨result, hres,
    hall (by decide) ⟨"istiod-b", "istio-system", "Running"⟩ (by decide) "[]" rfl⟩

/-! ## `castAppDetails` -/

theorem mapGet_castService (appLabel a : String) (allEntities : namespaceApps)
    (s : core_v1.Service) (S : List core_v1.Service) (W : List models.Workload)
    (h : mapGet allEntities a = appEntry a S W) :
    mapGet (castService appLabel allEntities s) a =
      appEntry a (S ++ [s].filter (serviceOfApp appLabel a)) W := by
  unfold castService
  cases hsel : mapGet s.Selector appLabel with
  | none => simpa [serviceOfApp, hsel] using h
  | some b =>
    by_cases hb : b = a
    · subst hb
      have hf : [s].filter (serviceOfApp appLabel b) = [s] := by
        simp [serviceOfApp, hsel]
      rw [hf]
      cases hget : mapGet allEntities b with
      | none =>
        rw [hget] at h
        have hSW : S = [] ∧ W = [] := by
          unfold appEntry at h
          by_contra hc
          rw [if_neg hc] at h
          cases h
        simp [hget, mapGet_mapSet, appEntry, hSW.1, hSW.2]
      | some e =>
        rw [hget] at h
        have he : e = ⟨b, S, W⟩ := by
          unfold appEntry at h
          split_ifs at h
          exact Option.some.inj h
        subst he
        simp [hget, mapGet_mapSet, appEntry]
    · have hf : [s].filter (serviceOfApp appLabel a) = [] := by
        simp [serviceOfApp, hsel, hb]
      rw [hf, List.append_nil, ← h]
      cases hget : mapGet allEntities b <;> simp [hget, mapGet_mapSet, hb]

theorem mapGet_castWorkload (appLabel a : String) (allEntities : namespaceApps)
    (w : models.Workload) (S : List core_v1.Service) (W : List models.Workload)
    (h : mapGet allEntities a = appEntry a S W) :
    mapGet (castWorkload appLabel allEntities w) a =
      appEntry a S (W ++ [w].filter (workloadOfApp appLabel a)) := by
  unfold castWorkload
  cases hsel : mapGet w.Labels appLabel with
  | none => simpa [workloadOfApp, hsel] using h
  | some b =>
    by_cases hb : b = a
    · subst hb
      have hf : [w].filter (workloadOfApp appLabel b) = [w] := by
        simp [workloadOfApp, hsel]
      rw [hf]
      cases hget : mapGet allEntities b with
      | none =>
        rw [hget] at h
        have hSW : S = [] ∧ W = [] := by
          unfold appEntry at h
          by_contra hc
          rw [if_neg hc] at h
          cases h
        simp [hget, mapGet_mapSet, appEntry, hSW.1, hSW.2]
      | some e =>
        rw [hget] at h
        have he : e = ⟨b, S, W⟩ := by
          unfold appEntry at h
          split_ifs at h
          exact Option.some.inj h
        subst he
        simp [hget, mapGet_mapSet, appEntry]
    · have hf : [w].filter (workloadOfApp appLabel a) = [] := by
        simp [workloadOfApp, hsel, hb]
      rw [hf, List.append_nil, ← h]
      cases hget : mapGet allEntities b <;> simp [hget, mapGet_mapSet, hb]

theorem mapGet_foldl_castService (appLabel a : String) (l : List core_v1.Service)
    (allEntities : namespaceApps) (S : List core_v1.Service) (W : List models.Workload)
    (h : mapGet allEntities a = appEntry a S W) :
    mapGet (l.foldl (castService appLabel) allEntities) a =
      appEntry a (S ++ l.filter (serviceOfApp appLabel a)) W := by
  induction l generalizing allEntities S with
  | nil => simpa using h
  | cons s rest ih =>
    rw [List.foldl_cons, ih _ _ (mapGet_castService appLabel a allEntities s S W h)]
    congr 1
    rw [List.append_assoc, ← List.filter_append]
    rfl

theorem mapGet_foldl_castWorkload (appLabel a : String) (l : List models.Workload)
    (allEntities : namespaceApps) (S : List core_v1.Service) (W : List models.Workload)
    (h : mapGet allEntities a = appEntry a S W) :
    mapGet (l.foldl (castWorkload appLabel) allEntities) a =
      appEntry a S (W ++ l.filter (workloadOfApp appLabel a)) := by
  induction l generalizing allEntities W with
  | nil => simpa using h
  | cons w rest ih =>
    rw [List.foldl_cons, ih _ _ (mapGet_castWorkload appLabel a allEntities w S W h)]
    congr 1
    rw [List.append_assoc, ← List.filter_append]
    rfl

/-- The entry of `castAppDetails` under an app name: the services and the workloads of that
app, each in input order, or no entry when there is none. -/
theorem mapGet_castAppDetails (appLabel a : String) (services : List core_v1.Service)
    (ws : List models.Workload) :
    mapGet (castAppDetails appLabel services ws) a =
      appEntry a (services.filter (serviceOfApp appLabel a))
        (ws.filter (workloadOfApp appLabel a)) := by
  unfold castAppDetails
  have h0 : mapGet ([] : namespaceApps) a = appEntry a [] [] := by
    simp [mapGet, appEntry]
  have h1 := mapGet_foldl_castService appLabel a services [] [] [] h0
  have h2 := mapGet_foldl_castWorkload appLabel a ws _ _ [] h1
  simpa using h2

/-! ## `fetchNamespaceApps`, `GetAppList` and `GetApp` -/

theorem sentErrors_eq_nil_iff {α : Type} (r : Except KialiError α) :
    sentErrors r = [] ↔ ∃ v, r = Except.ok v := by
  cases r with
  | error e => simp [sentErrors]
  | ok v => simp [sentErrors]

theorem mem_sentErrors {α : Type} (r : Except KialiError α) (e : KialiError) :
    e ∈ sentErrors r ↔ r = Except.error e := by
  cases r with
  | error e2 => simp [sentErrors, eq_comm]
  | ok v => simp [sentErrors]

/-- The result of `fetchNamespaceApps` is an empty map with the namespace error or the first
error of the channel, or the cast of the fetched services and workloads without error. -/
theorem fetchNamespaceApps_cases (layer : Layer) (ns appName : String) (servicesFirst : Bool) :
    (∃ err, fetchNamespaceApps layer ns appName servicesFirst = ([], some err) ∧
      (layer.GetNamespace ns = Except.error err ∨
        fetchServices layer ns appName = Except.error err ∨
        layer.fetchWorkloads ns (appLabelSelector layer appName) = Except.error err)) ∨
    (∃ nsFound services ws, layer.GetNamespace ns = Except.ok nsFound ∧
      fetchServices layer ns appName = Except.ok services ∧
      layer.fetchWorkloads ns (appLabelSelector layer appName) = Except.ok ws ∧
      fetchNamespaceApps layer ns appName servicesFirst =
        (castAppDetails layer.AppLabelName services ws, none)) := by
  unfold fetchNamespaceApps
  cases hns : layer.GetNamespace ns with
  | error e => exact Or.inl ⟨e, rfl, Or.inl rfl⟩
  | ok nsFound =>
    cases hs : fetchServices layer ns appName with
    | error e1 =>
      cases hw : layer.fetchWorkloads ns (appLabelSelector layer appName) with
      | error e2 =>
        cases servicesFirst
        · exact Or.inl ⟨e2, by simp [hs, hw, sentErrors], Or.inr (Or.inr rfl)⟩
        · exact Or.inl ⟨e1, by simp [hs, hw, sentErrors], Or.inr (Or.inl rfl)⟩
      | ok ws =>
        exact Or.inl ⟨e1, by cases servicesFirst <;> simp [hs, hw, sentErrors],
          Or.inr (Or.inl rfl)⟩
    | ok services =>
      cases hw : layer.fetchWorkloads ns (appLabelSelector layer appName) with
      | error e2 =>
        exact Or.inl ⟨e2, by cases servicesFirst <;> simp [hs, hw, sentErrors],
          Or.inr (Or.inr rfl)⟩
      | ok ws =>
        exact Or.inr ⟨nsFound, services, ws, rfl, rfl, rfl,
          by cases servicesFirst <;> simp [hs, hw, sentErrors, fetchedValue]⟩

theorem fetchServices_eq_error_iff (layer : Layer) (ns appName : String) (e : KialiError) :
    fetchServices layer ns appName = Except.error e ↔
      (if layer.IsNamespaceCached ns then layer.cacheGetServices ns
        else layer.k8sGetServices ns) = Except.error e := by
  unfold fetchServices
  cases (if layer.IsNamespaceCached ns then layer.cacheGetServices ns
      else layer.k8sGetServices ns) with
  | error e2 => simp
  | ok services => simp

/-- C13: if the application fetch or, when Istio resources are linked, the Istio-config
fetch reports an error, `GetAppList` returns one of the reported errors together with an app
list that carries the requested namespace and no apps, whatever the order in which the
fetches complete; likewise `fetchNamespaceApps` returns an error, one of those reported, and
no apps whenever the namespace lookup, the service fetch (from the cache when the namespace
is cached, from the cluster otherwise) or the workload fetch fails; so `GetAppList` returns
one of the reported errors and no apps whenever one of these calls or, when Istio resources
are linked, the Istio-config call fails. -/
theorem GetAppList_reports_fetch_error (layer : Layer) (ns : String)
    (linkIstioResources appsFirst servicesFirst : Bool) :
    (((fetchNamespaceApps layer ns "" servicesFirst).2 ≠ none ∨
        (linkIstioResources = true ∧
          ∃ e, layer.GetIstioConfigList (appListCriteria ns) = Except.error e)) →
      ∃ err, GetAppList layer ns linkIstioResources appsFirst servicesFirst =
          (⟨⟨ns⟩, []⟩, some err) ∧
        ((fetchNamespaceApps layer ns "" servicesFirst).2 = some err ∨
          (linkIstioResources = true ∧
            layer.GetIstioConfigList (appListCriteria ns) = Except.error err))) ∧
    (∀ appName : String,
      ((∃ e, layer.GetNamespace ns = Except.error e) ∨
        (∃ e, (if layer.IsNamespaceCached ns then layer.cacheGetServices ns
            else layer.k8sGetServices ns) = Except.error e) ∨
        (∃ e, layer.fetchWorkloads ns
            (if appName ≠ "" then layer.AppLabelName ++ "=" ++ appName
              else layer.AppLabelName) = Except.error e)) →
      ∃ err, fetchNamespaceApps layer ns appName servicesFirst = ([], some err) ∧
        (layer.GetNamespace ns = Except.error err ∨
          (if layer.IsNamespaceCached ns then layer.cacheGetServices ns
            else layer.k8sGetServices ns) = Except.error err ∨
          layer.fetchWorkloads ns
            (if appName ≠ "" then layer.AppLabelName ++ "=" ++ appName
              else layer.AppLabelName) = Except.error err)) ∧
    (((∃ e, layer.GetNamespace ns = Except.error e) ∨
        (∃ e, (if layer.IsNamespaceCached ns then layer.cacheGetServices ns
            else layer.k8sGetServices ns) = Except.error e) ∨
        (∃ e, layer.fetchWorkloads ns layer.AppLabelName = Except.error e) ∨
        (linkIstioResources = true ∧
          ∃ e, layer.GetIstioConfigList ⟨ns, true, true, true, true, true, true, true, true⟩ =
            Except.error e)) →
      ∃ err, GetAppList layer ns linkIstioResources appsFirst servicesFirst =
          (⟨⟨ns⟩, []⟩, some err) ∧
        (layer.GetNamespace ns = Except.error err ∨
          (if layer.IsNamespaceCached ns then layer.cacheGetServices ns
            else layer.k8sGetServices ns) = Except.error err ∨
          layer.fetchWorkloads ns layer.AppLabelName = Except.error err ∨
          (linkIstioResources = true ∧
            layer.GetIstioConfigList ⟨ns, true, true, true, true, true, true, true, true⟩ =
              Except.error err))) := by
  have hlist : ((fetchNamespaceApps layer ns "" servicesFirst).2 ≠ none ∨
        (linkIstioResources = true ∧
          ∃ e, layer.GetIstioConfigList (appListCriteria ns) = Except.error e)) →
      ∃ err, GetAppList layer ns linkIstioResources appsFirst servicesFirst =
          (⟨⟨ns⟩, []⟩, some err) ∧
        ((fetchNamespaceApps layer ns "" servicesFirst).2 = some err ∨
          (linkIstioResources = true ∧
            layer.GetIstioConfigList (appListCriteria ns) = Except.error err)) := by
    intro h
    unfold GetAppList
    cases hf : (fetchNamespaceApps layer ns "" servicesFirst).2 with
    | some e1 =>
      cases linkIstioResources with
      | false =>
        exact ⟨e1, by cases appsFirst <;> simp [hf, sentErrors], Or.inl rfl⟩
      | true =>
        cases hc : layer.GetIstioConfigList (appListCriteria ns) with
        | error e2 =>
          cases appsFirst
          · exact ⟨e2, by simp [hf, hc, sentErrors], Or.inr ⟨rfl, rfl⟩⟩
          · exact ⟨e1, by simp [hf, hc, sentErrors], Or.inl rfl⟩
        | ok l =>
          exact ⟨e1, by cases appsFirst <;> simp [hf, hc, sentErrors], Or.inl rfl⟩
    | none =>
      rcases h with h | ⟨hl, e2, hc⟩
      · exact absurd hf h
      · subst hl
        exact ⟨e2, by cases appsFirst <;> simp [hf, hc, sentErrors], Or.inr ⟨rfl, hc⟩⟩
  have hfetch : ∀ appName : String,
      ((∃ e, layer.GetNamespace ns = Except.error e) ∨
        (∃ e, (if layer.IsNamespaceCached ns then layer.cacheGetServices ns
            else layer.k8sGetServices ns) = Except.error e) ∨
        (∃ e, layer.fetchWorkloads ns
            (if appName ≠ "" then layer.AppLabelName ++ "=" ++ appName
              else layer.AppLabelName) = Except.error e)) →
      ∃ err, fetchNamespaceApps layer ns appName servicesFirst = ([], some err) ∧
        (layer.GetNamespace ns = Except.error err ∨
          (if layer.IsNamespaceCached ns then layer.cacheGetServices ns
            else layer.k8sGetServices ns) = Except.error err ∨
          layer.fetchWorkloads ns
            (if appName ≠ "" then layer.AppLabelName ++ "=" ++ appName
              else layer.AppLabelName) = Except.error err) := by
    intro appName h
    rcases fetchNamespaceApps_cases layer ns appName servicesFirst with
      ⟨err, he, hwhich⟩ | ⟨nsFound, services, ws, h1, h2, h3, _⟩
    · rw [fetchServices_eq_error_iff] at hwhich
      exact ⟨err, he, hwhich⟩
    · rcases h with ⟨e, he⟩ | ⟨e, he⟩ | ⟨e, he⟩
      · rw [h1] at he; cases he
      · rw [← fetchServices_eq_error_iff layer ns appName, h2] at he; cases he
      · have h3b : layer.fetchWorkloads ns
            (if appName ≠ "" then layer.AppLabelName ++ "=" ++ appName
              else layer.AppLabelName) = Except.ok ws := h3
        rw [h3b] at he; cases he
  refine ⟨hlist, hfetch, ?_⟩
  intro h
  have hsel : (if ("" : String) ≠ "" then layer.AppLabelName ++ "=" ++ ""
      else layer.AppLabelName) = layer.AppLabelName := by simp
  have hcrit : appListCriteria ns = ⟨ns, true, true, true, true, true, true, true, true⟩ := rfl
  have happs : ((∃ e, layer.GetNamespace ns = Except.error e) ∨
        (∃ e, (if layer.IsNamespaceCached ns then layer.cacheGetServices ns
            else layer.k8sGetServices ns) = Except.error e) ∨
        (∃ e, layer.fetchWorkloads ns layer.AppLabelName = Except.error e)) →
      ∃ err, GetAppList layer ns linkIstioResources appsFirst servicesFirst =
          (⟨⟨ns⟩, []⟩, some err) ∧
        (layer.GetNamespace ns = Except.error err ∨
          (if layer.IsNamespaceCached ns then layer.cacheGetServices ns
            else layer.k8sGetServices ns) = Except.error err ∨
          layer.fetchWorkloads ns layer.AppLabelName = Except.error err ∨
          (linkIstioResources = true ∧
            layer.GetIstioConfigList ⟨ns, true, true, true, true, true, true, true, true⟩ =
              Except.error err)) := by
    intro h3
    have h3b := hfetch ""
    rw [hsel] at h3b
    obtain ⟨err, he, hwhich⟩ := h3b h3
    have hsome : (fetchNamespaceApps layer ns "" servicesFirst).2 = some err := by rw [he]
    have hne : (fetchNamespaceApps layer ns "" servicesFirst).2 ≠ none := by
      rw [hsome]
      exact fun e => Option.noConfusion e
    obtain ⟨err2, hlist2, hwhich2⟩ := hlist (Or.inl hne)
    refine ⟨err2, hlist2, ?_⟩
    rcases hwhich2 with h2 | ⟨hl, hc⟩
    · rw [hsome] at h2
      have hee : err = err2 := Option.some.inj h2
      rw [← hee]
      rcases hwhich with h4 | h4 | h4
      · exact Or.inl h4
      · exact Or.inr (Or.inl h4)
      · exact Or.inr (Or.inr (Or.inl h4))
    · exact Or.inr (Or.inr (Or.inr ⟨hl, hcrit ▸ hc⟩))
  rcases h with h | h | h | ⟨hl, e, hc⟩
  · exact happs (Or.inl h)
  · exact happs (Or.inr (Or.inl h))
  · exact happs (Or.inr (Or.inr h))
  · obtain ⟨err2, hlist2, hwhich2⟩ := hlist (Or.inr ⟨hl, e, hcrit ▸ hc⟩)
    by_cases hne : (fetchNamespaceApps layer ns "" servicesFirst).2 = none
    · refine ⟨err2, hlist2, ?_⟩
      rcases hwhich2 with h2 | ⟨hl2, hc2⟩
      · rw [hne] at h2; cases h2
      · exact Or.inr (Or.inr (Or.inr ⟨hl2, hcrit ▸ hc2⟩))
    · rcases fetchNamespaceApps_cases layer ns "" servicesFirst with
        ⟨err, he, hwhich⟩ | ⟨nsFound, services, ws, h1, h2, h3, h4⟩
      · rw [fetchServices_eq_error_iff] at hwhich
        have hwhich3 : (∃ e, layer.GetNamespace ns = Except.error e) ∨
            (∃ e, (if layer.IsNamespaceCached ns then layer.cacheGetServices ns
                else layer.k8sGetServices ns) = Except.error e) ∨
            (∃ e, layer.fetchWorkloads ns layer.AppLabelName = Except.error e) := by
          rcases hwhich with h5 | h5 | h5
          · exact Or.inl ⟨err, h5⟩
          · exact Or.inr (Or.inl ⟨err, h5⟩)
          · exact Or.inr (Or.inr ⟨err, hsel ▸ h5⟩)
        exact happs hwhich3
      · rw [h4] at hne
        exact absurd rfl hne

/-- C13 at the sample cluster with a failing service fetch, Istio resources linked. -/
theorem GetAppList_reports_fetch_error_witness :
    ∃ err, GetAppList bookinfoServicesFail "bookinfo" true true true =
        (⟨⟨"bookinfo"⟩, []⟩, some err) ∧
      (bookinfoServicesFail.GetNamespace "bookinfo" = Except.error err ∨
        (if bookinfoServicesFail.IsNamespaceCached "bookinfo" then
            bookinfoServicesFail.cacheGetServices "bookinfo"
          else bookinfoServicesFail.k8sGetServices "bookinfo") = Except.error err ∨
        bookinfoServicesFail.fetchWorkloads "bookinfo" bookinfoServicesFail.AppLabelName =
          Except.error err ∨
        (true = true ∧
          bookinfoServicesFail.GetIstioConfigList
              ⟨"bookinfo", true, true, true, true, true, true, true, true⟩ =
            Except.error err)) :=
  (GetAppList_reports_fetch_error bookinfoServicesFail "bookinfo" true true true).2.2
    (Or.inr (Or.inl ⟨KialiError.Failure "services unavailable", rfl⟩))

/-- C20: when the namespace is accessible and the fetch succeeds but no fetched service (by
its selector) or workload (by its labels) carries the app label with the app name, `GetApp`
returns a NotFound error, not an empty successful result; when the app is found it returns
no error, `Workloads` and `ServiceNames` listing the app's workloads and services
one-for-one in their original order. -/
theorem GetApp_found_or_not_found (layer : Layer) (ns appName : String) (servicesFirst : Bool)
    (nsFound : models.Namespace) (services : List core_v1.Service)
    (ws : List models.Workload)
    (hns : layer.GetNamespace ns = Except.ok nsFound)
    (hservices : fetchServices layer ns appName = Except.ok services)
    (hws : layer.fetchWorkloads ns (appLabelSelector layer appName) = Except.ok ws) :
    ((∀ s ∈ services, mapGet s.Selector layer.AppLabelName ≠ some appName) →
      (∀ w ∈ ws, mapGet w.Labels layer.AppLabelName ≠ some appName) →
      GetApp layer ns appName servicesFirst =
        (⟨nsFound, appName, [], [], []⟩, some (KialiError.NotFound appName "Kiali" "App"))) ∧
    (((∃ s ∈ services, mapGet s.Selector layer.AppLabelName = some appName) ∨
        (∃ w ∈ ws, mapGet w.Labels layer.AppLabelName = some appName)) →
      GetApp layer ns appName servicesFirst =
        (⟨nsFound, appName,
          (ws.filter (workloadOfApp layer.AppLabelName appName)).map (fun wkd =>
            (⟨wkd.Name, wkd.IstioSidecar, layer.ServiceAccounts wkd.Pods⟩ :
              models.WorkloadItem)),
          (services.filter (serviceOfApp layer.AppLabelName appName)).map (fun svc => svc.Name),
          layer.GetCustomDashboardRefs nsFound ns appName ""
            ((ws.filter (workloadOfApp layer.AppLabelName appName)).flatMap
              (fun workload => workload.Pods))⟩, none)) := by
  have hfetch : fetchNamespaceApps layer ns appName servicesFirst =
      (castAppDetails layer.AppLabelName services ws, none) := by
    rcases fetchNamespaceApps_cases layer ns appName servicesFirst with
      ⟨err, _, h | h | h⟩ | ⟨_, services2, ws2, _, h2, h3, h4⟩
    · rw [hns] at h; cases h
    · rw [hservices] at h; cases h
    · rw [hws] at h; cases h
    · rw [hservices] at h2
      rw [hws] at h3
      cases h2
      cases h3
      exact h4
  constructor
  · intro hs hw
    have h1 : services.filter (serviceOfApp layer.AppLabelName appName) = [] := by
      rw [List.filter_eq_nil_iff]
      intro s hmem
      simpa [serviceOfApp] using hs s hmem
    have h2 : ws.filter (workloadOfApp layer.AppLabelName appName) = [] := by
      rw [List.filter_eq_nil_iff]
      intro w hmem
      simpa [workloadOfApp] using hw w hmem
    simp [GetApp, hns, hfetch, mapGet_castAppDetails, appEntry, h1, h2]
  · intro hfound
    have hne : ¬ (services.filter (serviceOfApp layer.AppLabelName appName) = [] ∧
        ws.filter (workloadOfApp layer.AppLabelName appName) = []) := by
      rintro ⟨h1, h2⟩
      rw [List.filter_eq_nil_iff] at h1 h2
      rcases hfound with ⟨s, hmem, hs⟩ | ⟨w, hmem, hw⟩
      · exact h1 s hmem (by simp [serviceOfApp, hs])
      · exact h2 w hmem (by simp [workloadOfApp, hw])
    have hget : mapGet (castAppDetails layer.AppLabelName services ws) appName =
        some ⟨appName, services.filter (serviceOfApp layer.AppLabelName appName),
          ws.filter (workloadOfApp layer.AppLabelName appName)⟩ := by
      rw [mapGet_castAppDetails, appEntry, if_neg hne]
    simp only [GetApp, hns, hfetch, hget]

/-- C20 at the sample cluster: app `reviews` is found with its two workloads and its
service; app `ratings` is not found. -/
theorem GetApp_found_or_not_found_witness :
    GetApp (bookinfoLayer false) "bookinfo" "reviews" true =
        (⟨⟨"bookinfo"⟩, "reviews",
          [⟨"reviews-v1", true, []⟩, ⟨"reviews-v2", false, []⟩], ["reviews"], []⟩, none) ∧
      GetApp (bookinfoLayer false) "bookinfo" "ratings" true =
        (⟨⟨"bookinfo"⟩, "ratings", [], [], []⟩,
          some (KialiError.NotFound "ratings" "Kiali" "App")) :=
  ⟨(GetApp_found_or_not_found (bookinfoLayer false) "bookinfo" "reviews" true ⟨"bookinfo"⟩
      [⟨"reviews", "bookinfo", [("app", "reviews")], [("app", "reviews")]⟩]
      [⟨"reviews-v1", [("app", "reviews"), ("version", "v1")], true, []⟩,
        ⟨"reviews-v2", [("app", "reviews"), ("version", "v2")], false, []⟩]
      rfl rfl rfl).2 (Or.inl (by decide)),
    (GetApp_found_or_not_found (bookinfoLayer false) "bookinfo" "ratings" true ⟨"bookinfo"⟩
      [] [] rfl rfl rfl).1 (by decide) (by decide)⟩

/-! ## `EgressHostChecker`: wildcard coverage -/

theorem splitSlash_append_slash (a b : List Char) (ha : '/' ∉ a) :
    splitSlash (a ++ '/' :: b) = a :: splitSlash b := by
  induction a with
  | nil => simp [splitSlash]
  | cons c rest ih =>
    have hc : c ≠ '/' := fun e => ha (by simp [e])
    have hr : '/' ∉ rest := fun e => ha (List.mem_cons_of_mem _ e)
    simp [splitSlash, hc, ih hr]

theorem not_mem_of_containsChar {s : String} {c : Char} (h : containsChar s c = false) :
    c ∉ s.data := by
  intro hmem
  have : containsChar s c = true := by simp [containsChar, hmem]
  rw [h] at this
  cases this

theorem getHostComponents_of_parts (hostNs dnsName : String)
    (h1 : containsChar hostNs '/' = false) (h2 : containsChar dnsName '/' = false) :
    getHostComponents (hostNs ++ "/" ++ dnsName) = some (hostNs, dnsName) := by
  have hd : (hostNs ++ "/" ++ dnsName).data = hostNs.data ++ '/' :: dnsName.data := by
    simp [String.data_append]
  unfold getHostComponents
  rw [hd, splitSlash_append_slash _ _ (not_mem_of_containsChar h1),
    splitSlash_of_not_mem _ (not_mem_of_containsChar h2)]

theorem hostCandidates_prefix (cfg : Config) (ns host c : String)
    (hc : c ∈ hostCandidates cfg ns host) : ∃ rest : String, c = host ++ rest := by
  have hexp : ∃ rest : String, expandHost cfg ns host = host ++ rest := by
    unfold expandHost
    split_ifs
    · exact ⟨"", String.ext (by simp [String.data_append])⟩
    · exact ⟨"." ++ cfg.IstioIdentityDomain, String.ext (by simp [String.data_append])⟩
    · exact ⟨"." ++ ns ++ "." ++ cfg.IstioIdentityDomain,
        String.ext (by simp [String.data_append])⟩
  unfold hostCandidates at hc
  split_ifs at hc
  · simp only [List.mem_cons, List.mem_singleton, List.not_mem_nil, or_false] at hc
    rcases hc with rfl | rfl
    · exact ⟨"", String.ext (by simp [String.data_append])⟩
    · exact hexp
  · simp only [List.mem_singleton] at hc
    rw [hc]
    exact hexp

theorem mem_hostCandidates_self (cfg : Config) (ns host : String)
    (hdot : containsChar host '.' = true) : host ∈ hostCandidates cfg ns host := by
  unfold hostCandidates
  cases hs : hasSuffix host ("." ++ cfg.IstioIdentityDomain) with
  | true => simp [expandHost, hs]
  | false => simp [hdot]

/-- C11 (as stated, fails): the only service entry registers the literal
`www.bookinfo.svc.cluster.local`, yet the egress host `bookinfo/*.bookinfo.svc.cluster.local`
is resolved (no check), because it covers the live service `reviews` of namespace
`bookinfo`. -/
theorem EgressHostChecker_wildcard_covers_live_service :
    mapKeys (ServiceEntryHostnames
        [⟨"details-se", "bookinfo3", ["www." ++ "bookinfo.svc.cluster.local"], []⟩]) =
      ["www." ++ "bookinfo.svc.cluster.local"] ∧
    EgressHostChecker.hostFindings ⟨"svc.cluster.local"⟩
      ⟨⟨"sidecar", "bookinfo", [⟨["bookinfo/*.bookinfo.svc.cluster.local"]⟩]⟩,
        ServiceEntryHostnames
          [⟨"details-se", "bookinfo3", ["www." ++ "bookinfo.svc.cluster.local"], []⟩],
        [⟨"reviews", "bookinfo", []⟩]⟩
      0 0 ("bookinfo" ++ "/" ++ ("*." ++ "bookinfo.svc.cluster.local")) = ([], true) ∧
    EgressHostChecker.Check ⟨"svc.cluster.local"⟩
      ⟨⟨"sidecar", "bookinfo", [⟨["bookinfo/*.bookinfo.svc.cluster.local"]⟩]⟩,
        ServiceEntryHostnames
          [⟨"details-se", "bookinfo3", ["www." ++ "bookinfo.svc.cluster.local"], []⟩],
        [⟨"reviews", "bookinfo", []⟩]⟩ = ([], true) := by
  decide

/-- C11: wildcard coverage in `EgressHostChecker` is one-directional: for every domain `x`,
the egress host `ns/www.x` is resolved (no check) when a service entry registers `*.x`,
whereas, when the only service entry registers the literal `www.x`, the egress host `ns/*.x`
is not resolved (Warning `servicenotfound`) exactly when it covers no live service of its
namespace scope. -/
theorem EgressHostChecker_wildcard_one_directional (cfg : Config) (elc : EgressHostChecker)
    (i j : Nat) (ns x : String) (hns : containsChar ns '/' = false)
    (hx : containsChar x '/' = false) :
    ("*." ++ x ∈ mapKeys elc.ServiceEntries →
      elc.hostFindings cfg i j (ns ++ "/" ++ ("www." ++ x)) = ([], true)) ∧
    (mapKeys elc.ServiceEntries = ["www." ++ x] →
      (elc.hostFindings cfg i j (ns ++ "/" ++ ("*." ++ x)) =
          ([⟨"sidecar.egress.servicenotfound", SeverityLevel.WarningSeverity,
            egressHostPath i j⟩], true) ↔
        ∀ s ∈ elc.Services,
          (ns = "*" ∨ s.Namespace =
            (if ns = "*" ∨ ns = "~" ∨ ns = "." then elc.Sidecar.Namespace else ns)) →
          ∀ c ∈ hostCandidates cfg
              (if ns = "*" ∨ ns = "~" ∨ ns = "." then elc.Sidecar.Namespace else ns)
              ("*." ++ x),
            hostMatches (serviceFQDN cfg s.Namespace s.Name) c = false)) := by
  have hslash : ∀ p : String, containsChar p '/' = false →
      containsChar (p ++ x) '/' = false := by
    intro p hp
    have h1 := not_mem_of_containsChar hp
    have h2 := not_mem_of_containsChar hx
    simp [containsChar, String.data_append, h1, h2]
  constructor
  · intro hkey
    have hcomp := getHostComponents_of_parts ns ("www." ++ x) hns (hslash "www." (by decide))
    have hdot : containsChar ("www." ++ x) '.' = true := by
      simp [containsChar, String.data_append]
    have hmatch : hostMatches ("www." ++ x) ("*." ++ x) = true := by
      rw [hostMatches_wildcard_eq, hasSuffix_iff]
      exact ⟨"www", String.ext (by simp [String.data_append])⟩
    have hres : elc.HasMatchingService cfg ns ("www." ++ x) = true := by
      unfold EgressHostChecker.HasMatchingService
      simp only [Bool.or_eq_true]
      right
      rw [List.any_eq_true]
      refine ⟨"*." ++ x, hkey, ?_⟩
      rw [List.any_eq_true]
      exact ⟨"www." ++ x, mem_hostCandidates_self cfg _ _ hdot, hmatch⟩
    simp [EgressHostChecker.hostFindings, hcomp, hres]
  · intro hkeys
    have hcomp := getHostComponents_of_parts ns ("*." ++ x) hns (hslash "*." (by decide))
    have hno : ∀ c rest : String, c = "*." ++ x ++ rest →
        hostMatches c ("www." ++ x) = false := by
      intro c rest hc
      have hne1 : ("www." ++ x : String) ≠ "*" := by
        intro h
        have := congrArg (fun s : String => s.data.length) h
        simp [String.data_append] at this
      have hpre : hasPrefix ("www." ++ x) "*." = false := by
        simp [hasPrefix, String.data_append, List.isPrefixOf]
      have hne2 : c ≠ "www." ++ x := by
        intro h
        rw [hc] at h
        have := congrArg (fun s : String => s.data.head?) h
        simp [String.data_append] at this
      simp [hostMatches, hne1, parseHostEntry, hpre, hne2]
    have hentries : ∀ scope : String,
        (mapKeys elc.ServiceEntries).any (fun h =>
          (hostCandidates cfg scope ("*." ++ x)).any (fun c => hostMatches c h)) = false := by
      intro scope
      simp only [hkeys, List.any_cons, List.any_nil, Bool.or_false]
      rw [List.any_eq_false]
      intro c hc
      obtain ⟨rest, hrest⟩ := hostCandidates_prefix cfg _ _ c hc
      simp [hno c rest hrest]
    have hres : elc.HasMatchingService cfg ns ("*." ++ x) =
        elc.Services.any (fun s =>
          (decide (ns = "*") || decide (s.Namespace =
              (if ns = "*" ∨ ns = "~" ∨ ns = "." then elc.Sidecar.Namespace else ns))) &&
            (hostCandidates cfg
              (if ns = "*" ∨ ns = "~" ∨ ns = "." then elc.Sidecar.Namespace else ns)
              ("*." ++ x)).any (fun c => hostMatches (serviceFQDN cfg s.Namespace s.Name) c)) := by
      unfold EgressHostChecker.HasMatchingService
      simp only [hentries, Bool.or_false]
    constructor
    · intro hfind s hs hscope c hc
      cases hm : hostMatches (serviceFQDN cfg s.Namespace s.Name) c with
      | false => rfl
      | true =>
        exfalso
        have hany : elc.HasMatchingService cfg ns ("*." ++ x) = true := by
          rw [hres, List.any_eq_true]
          refine ⟨s, hs, ?_⟩
          simp only [Bool.and_eq_true, Bool.or_eq_true, decide_eq_true_eq, List.any_eq_true]
          exact ⟨hscope, c, hc, hm⟩
        simp [EgressHostChecker.hostFindings, hcomp, hany] at hfind
    · intro hnone
      have hany : elc.HasMatchingService cfg ns ("*." ++ x) = false := by
        rw [hres, List.any_eq_false]
        intro s hs hcon
        simp only [Bool.and_eq_true, Bool.or_eq_true, decide_eq_true_eq,
          List.any_eq_true] at hcon
        obtain ⟨hscope, c, hc, hm⟩ := hcon
        rw [hnone s hs hscope c hc] at hm
        cases hm
      simp [EgressHostChecker.hostFindings, hcomp, hany]

/-- C11 at `TestEgressExportedExternalWildcardServiceEntryPresent` and, with the live
service `reviews` added, at `TestWildcardHostEgressExportedExternalServiceEntryNotPresent`,
domain `myhost.com`. -/
theorem EgressHostChecker_wildcard_one_directional_witness :
    EgressHostChecker.hostFindings ⟨"svc.cluster.local"⟩
        ⟨⟨"sidecar", "bookinfo", [⟨["bookinfo/www.myhost.com"]⟩]⟩,
          ServiceEntryHostnames [⟨"details-se", "bookinfo3", ["*.myhost.com"], []⟩], []⟩
        0 0 ("bookinfo" ++ "/" ++ ("www." ++ "myhost.com")) = ([], true) ∧
      EgressHostChecker.hostFindings ⟨"svc.cluster.local"⟩
        ⟨⟨"sidecar", "bookinfo", [⟨["bookinfo/*.myhost.com"]⟩]⟩,
          ServiceEntryHostnames [⟨"details-se", "bookinfo3", ["www.myhost.com"], []⟩],
          [⟨"reviews", "bookinfo", []⟩]⟩
        0 0 ("bookinfo" ++ "/" ++ ("*." ++ "myhost.com")) =
        ([⟨"sidecar.egress.servicenotfound", SeverityLevel.WarningSeverity,
          egressHostPath 0 0⟩], true) :=
  ⟨(EgressHostChecker_wildcard_one_directional ⟨"svc.cluster.local"⟩
      ⟨⟨"sidecar", "bookinfo", [⟨["bookinfo/www.myhost.com"]⟩]⟩,
        ServiceEntryHostnames [⟨"details-se", "bookinfo3", ["*.myhost.com"], []⟩], []⟩
      0 0 "bookinfo" "myhost.com" (by decide) (by decide)).1 (by decide),
    ((EgressHostChecker_wildcard_one_directional ⟨"svc.cluster.local"⟩
      ⟨⟨"sidecar", "bookinfo", [⟨["bookinfo/*.myhost.com"]⟩]⟩,
        ServiceEntryHostnames [⟨"details-se", "bookinfo3", ["www.myhost.com"], []⟩],
        [⟨"reviews", "bookinfo", []⟩]⟩
      0 0 "bookinfo" "myhost.com" (by decide) (by decide)).2 (by decide)).2 (by decide)⟩

/-! ## `castAppDetails`: the groups -/

theorem nodup_mapKeys_mapSet {α β : Type} [DecidableEq α] (m : List (α × β)) (k : α) (v : β)
    (h : (mapKeys m).Nodup) : (mapKeys (mapSet m k v)).Nodup := by
  induction m with
  | nil => simp [mapSet, mapKeys]
  | cons kv rest ih =>
    obtain ⟨a, b⟩ := kv
    have hcons : a ∉ mapKeys rest ∧ (mapKeys rest).Nodup := by
      simpa [mapKeys] using h
    by_cases hak : a = k
    · simpa [mapSet, mapKeys, hak] using h
    · have hnot : a ∉ mapKeys (mapSet rest k v) := by
        rw [mem_mapKeys_mapSet]
        rintro (e | e)
        · exact hak e
        · exact hcons.1 e
      have hnd := ih hcons.2
      simp only [mapSet, if_neg hak]
      exact List.nodup_cons.2 ⟨hnot, hnd⟩

theorem mapGet_of_mem_of_nodup {α β : Type} [DecidableEq α] (m : List (α × β)) (k : α) (v : β)
    (hnd : (mapKeys m).Nodup) (hmem : (k, v) ∈ m) : mapGet m k = some v := by
  induction m with
  | nil => cases hmem
  | cons kv rest ih =>
    obtain ⟨a, b⟩ := kv
    have hcons : a ∉ mapKeys rest ∧ (mapKeys rest).Nodup := by
      simpa [mapKeys] using hnd
    rcases List.mem_cons.1 hmem with e | e
    · cases e
      simp [mapGet]
    · have hne : ¬ a = k := by
        intro hak
        apply hcons.1
        rw [hak]
        exact List.mem_map.2 ⟨(k, v), e, rfl⟩
      simp only [mapGet, if_neg hne]
      exact ih hcons.2 e

theorem nodup_mapKeys_castService (appLabel : String) (allEntities : namespaceApps)
    (s : core_v1.Service) (h : (mapKeys allEntities).Nodup) :
    (mapKeys (castService appLabel allEntities s)).Nodup := by
  unfold castService
  cases hsel : mapGet s.Selector appLabel with
  | none => exact h
  | some app =>
    cases hget : mapGet allEntities app with
    | none => simpa only [hget] using nodup_mapKeys_mapSet _ _ _ h
    | some e => simpa only [hget] using nodup_mapKeys_mapSet _ _ _ h

theorem nodup_mapKeys_castWorkload (appLabel : String) (allEntities : namespaceApps)
    (w : models.Workload) (h : (mapKeys allEntities).Nodup) :
    (mapKeys (castWorkload appLabel allEntities w)).Nodup := by
  unfold castWorkload
  cases hsel : mapGet w.Labels appLabel with
  | none => exact h
  | some app =>
    cases hget : mapGet allEntities app with
    | none => simpa only [hget] using nodup_mapKeys_mapSet _ _ _ h
    | some e => simpa only [hget] using nodup_mapKeys_mapSet _ _ _ h

theorem nodup_mapKeys_castAppDetails (appLabel : String) (services : List core_v1.Service)
    (ws : List models.Workload) : (mapKeys (castAppDetails appLabel services ws)).Nodup := by
  unfold castAppDetails
  have hs : ∀ (l : List core_v1.Service) (m : namespaceApps), (mapKeys m).Nodup →
      (mapKeys (l.foldl (castService appLabel) m)).Nodup := by
    intro l
    induction l with
    | nil => intro m h; exact h
    | cons s rest ih =>
      intro m h
      exact ih _ (nodup_mapKeys_castService appLabel m s h)
  have hw : ∀ (l : List models.Workload) (m : namespaceApps), (mapKeys m).Nodup →
      (mapKeys (l.foldl (castWorkload appLabel) m)).Nodup := by
    intro l
    induction l with
    | nil => intro m h; exact h
    | cons w rest ih =>
      intro m h
      exact ih _ (nodup_mapKeys_castWorkload appLabel m w h)
  exact hw ws _ (hs services [] (by simp [mapKeys]))

/-- C21: `castAppDetails` groups the services and the workloads by app label. The map has
one entry per key. The entry under key `a` has app field `a`, its services are exactly the
input services whose selector has the app label with value `a` and its workloads exactly the
input workloads whose labels have it, each in input order. A key exists iff a service or a
workload of the input has the app label with that value. A service or a workload lacking
the app label is in no entry. -/
theorem castAppDetails_groups_by_app_label (appLabel : String)
    (services : List core_v1.Service) (ws : List models.Workload) :
    (mapKeys (castAppDetails appLabel services ws)).Nodup ∧
    (∀ a d, (a, d) ∈ castAppDetails appLabel services ws →
      d.app = a ∧
      d.Services = services.filter (serviceOfApp appLabel a) ∧
      d.Workloads = ws.filter (workloadOfApp appLabel a)) ∧
    (∀ a, a ∈ mapKeys (castAppDetails appLabel services ws) ↔
      (∃ s ∈ services, mapGet s.Selector appLabel = some a) ∨
      (∃ w ∈ ws, mapGet w.Labels appLabel = some a)) ∧
    (∀ s, mapGet s.Selector appLabel = none →
      ∀ a d, (a, d) ∈ castAppDetails appLabel services ws → s ∉ d.Services) ∧
    (∀ w, mapGet w.Labels appLabel = none →
      ∀ a d, (a, d) ∈ castAppDetails appLabel services ws → w ∉ d.Workloads) := by
  have hnd := nodup_mapKeys_castAppDetails appLabel services ws
  have hentry : ∀ a d, (a, d) ∈ castAppDetails appLabel services ws →
      d.app = a ∧
      d.Services = services.filter (serviceOfApp appLabel a) ∧
      d.Workloads = ws.filter (workloadOfApp appLabel a) := by
    intro a d hmem
    have hget := mapGet_of_mem_of_nodup _ a d hnd hmem
    rw [mapGet_castAppDetails] at hget
    unfold appEntry at hget
    split_ifs at hget
    have hd := Option.some.inj hget
    subst hd
    exact ⟨rfl, rfl, rfl⟩
  refine ⟨hnd, hentry, ?_, ?_, ?_⟩
  · intro a
    rw [← mapGet_isSome_iff, mapGet_castAppDetails]
    unfold appEntry
    constructor
    · rintro ⟨v, hv⟩
      split_ifs at hv with hc
      by_cases hS : services.filter (serviceOfApp appLabel a) = []
      · have hW : ws.filter (workloadOfApp appLabel a) ≠ [] := fun e => hc ⟨hS, e⟩
        obtain ⟨w, hw⟩ := List.exists_mem_of_ne_nil _ hW
        have := List.mem_filter.1 hw
        exact Or.inr ⟨w, this.1, by simpa [workloadOfApp] using this.2⟩
      · obtain ⟨s, hs⟩ := List.exists_mem_of_ne_nil _ hS
        have := List.mem_filter.1 hs
        exact Or.inl ⟨s, this.1, by simpa [serviceOfApp] using this.2⟩
    · rintro (⟨s, hs, hsel⟩ | ⟨w, hw, hsel⟩)
      · have hmem : s ∈ services.filter (serviceOfApp appLabel a) :=
          List.mem_filter.2 ⟨hs, by simp [serviceOfApp, hsel]⟩
        have hc : ¬ (services.filter (serviceOfApp appLabel a) = [] ∧
            ws.filter (workloadOfApp appLabel a) = []) := by
          rintro ⟨e, _⟩
          rw [e] at hmem
          cases hmem
        exact ⟨_, if_neg hc⟩
      · have hmem : w ∈ ws.filter (workloadOfApp appLabel a) :=
          List.mem_filter.2 ⟨hw, by simp [workloadOfApp, hsel]⟩
        have hc : ¬ (services.filter (serviceOfApp appLabel a) = [] ∧
            ws.filter (workloadOfApp appLabel a) = []) := by
          rintro ⟨_, e⟩
          rw [e] at hmem
          cases hmem
        exact ⟨_, if_neg hc⟩
  · intro s hsel a d hmem hin
    rw [(hentry a d hmem).2.1] at hin
    have := (List.mem_filter.1 hin).2
    simp [serviceOfApp, hsel] at this
  · intro w hsel a d hmem hin
    rw [(hentry a d hmem).2.2] at hin
    have := (List.mem_filter.1 hin).2
    simp [workloadOfApp, hsel] at this

/-! ## `PeerAuthnMTLSMode` -/

/-- C22: `PeerAuthnMTLSMode` returns the pair of true and the mode when `Spec.Mtls` is set
with mode STRICT or PERMISSIVE, the pair of false and the mode when it is set with another
mode, and the pair of false and the empty string when it is unset; so the first component
is true exactly when `Spec.Mtls` is set and its mode is STRICT or PERMISSIVE. -/
theorem PeerAuthnMTLSMode_cases (peerAuthn : PeerAuthentication) :
    (∀ m, peerAuthn.Mtls = some m →
      (m = MutualTLSMode.STRICT ∨ m = MutualTLSMode.PERMISSIVE) →
      PeerAuthnMTLSMode peerAuthn = (true, mutualTLSModeString m)) ∧
    (∀ m, peerAuthn.Mtls = some m →
      m ≠ MutualTLSMode.STRICT → m ≠ MutualTLSMode.PERMISSIVE →
      PeerAuthnMTLSMode peerAuthn = (false, mutualTLSModeString m)) ∧
    (peerAuthn.Mtls = none → PeerAuthnMTLSMode peerAuthn = (false, "")) ∧
    ((PeerAuthnMTLSMode peerAuthn).1 = true ↔
      ∃ m, peerAuthn.Mtls = some m ∧
        (m = MutualTLSMode.STRICT ∨ m = MutualTLSMode.PERMISSIVE)) ∧
    ((∃ mode, PeerAuthnMTLSMode peerAuthn = (true, mode)) ↔
      ∃ m, peerAuthn.Mtls = some m ∧
        (m = MutualTLSMode.STRICT ∨ m = MutualTLSMode.PERMISSIVE)) := by
  obtain ⟨sel, mtls⟩ := peerAuthn
  cases mtls with
  | none => simp [PeerAuthnMTLSMode]
  | some m => cases m <;> simp [PeerAuthnMTLSMode, mutualTLSModeString]

end Kiali
